import Mathlib

/-!
Verification development for the `elfin` database generator
(`src/elfinpy/dbgen.py` together with `src/elfinpy/pdb_utilities.py`).

The Python code is shallowly embedded: coordinates become exact rationals,
Bio.PDB structures become explicit lists of chains/residues/atoms, the
mutable `XDBGenerator` object becomes an explicit `GenState` threaded
through `Except String` computations, and Python `assert` / `KeyError` /
`IndexError` aborts become `Except.error`.

External numeric routines that the repository merely calls
(Bio.PDB.Superimposer's SVD fit, `np.linalg.inv` on homogeneous 4x4
matrices, and the floating-point radius statistics of `get_radii`) are
taken as parameters (`Externals`), since their values are irrelevant to
the bookkeeping being verified; every use site, precondition check and
data flow around them is embedded concretely.

Two ghost fields (`Tx.tx_id`, `Tx.source`) instrument each transform
record with the id assigned at its creation site and with which code path
created it; they are written exactly where the Python code computes
`tx_id` and are excluded from serialization.
-/

/-! ## Rational 3-vectors and 3x3 matrices (stand-ins for numpy arrays) -/

structure Vec3 where
  x : ℚ
  y : ℚ
  z : ℚ
deriving DecidableEq, Repr

def Vec3.zero : Vec3 := ⟨0, 0, 0⟩

def Vec3.add (a b : Vec3) : Vec3 := ⟨a.x + b.x, a.y + b.y, a.z + b.z⟩

def Vec3.neg (a : Vec3) : Vec3 := ⟨-a.x, -a.y, -a.z⟩

def Vec3.sub (a b : Vec3) : Vec3 := ⟨a.x - b.x, a.y - b.y, a.z - b.z⟩

def Vec3.smul (q : ℚ) (a : Vec3) : Vec3 := ⟨q * a.x, q * a.y, q * a.z⟩

def Vec3.divQ (a : Vec3) (q : ℚ) : Vec3 := ⟨a.x / q, a.y / q, a.z / q⟩

def Vec3.dot (a b : Vec3) : ℚ := a.x * b.x + a.y * b.y + a.z * b.z

/-- Rows of a 3x3 rational matrix. -/
structure Mat3 where
  r0 : Vec3
  r1 : Vec3
  r2 : Vec3
deriving DecidableEq, Repr

def Mat3.identity : Mat3 := ⟨⟨1, 0, 0⟩, ⟨0, 1, 0⟩, ⟨0, 0, 1⟩⟩

def Mat3.transpose (m : Mat3) : Mat3 :=
  ⟨⟨m.r0.x, m.r1.x, m.r2.x⟩, ⟨m.r0.y, m.r1.y, m.r2.y⟩, ⟨m.r0.z, m.r1.z, m.r2.z⟩⟩

/-- Row-vector convention `v · M`, the convention BioPython's
`Structure.transform` applies to atom coordinates. -/
def Vec3.rowMul (v : Vec3) (m : Mat3) : Vec3 :=
  ⟨v.x * m.r0.x + v.y * m.r1.x + v.z * m.r2.x,
   v.x * m.r0.y + v.y * m.r1.y + v.z * m.r2.y,
   v.x * m.r0.z + v.y * m.r1.z + v.z * m.r2.z⟩

/-- Column-vector convention `M · v`, used by 4x4 block composition. -/
def Mat3.mulVec (m : Mat3) (v : Vec3) : Vec3 :=
  ⟨m.r0.dot v, m.r1.dot v, m.r2.dot v⟩

def Mat3.mul (a b : Mat3) : Mat3 :=
  ⟨⟨(a.r0).dot ⟨b.r0.x, b.r1.x, b.r2.x⟩, (a.r0).dot ⟨b.r0.y, b.r1.y, b.r2.y⟩,
    (a.r0).dot ⟨b.r0.z, b.r1.z, b.r2.z⟩⟩,
   ⟨(a.r1).dot ⟨b.r0.x, b.r1.x, b.r2.x⟩, (a.r1).dot ⟨b.r0.y, b.r1.y, b.r2.y⟩,
    (a.r1).dot ⟨b.r0.z, b.r1.z, b.r2.z⟩⟩,
   ⟨(a.r2).dot ⟨b.r0.x, b.r1.x, b.r2.x⟩, (a.r2).dot ⟨b.r0.y, b.r1.y, b.r2.y⟩,
    (a.r2).dot ⟨b.r0.z, b.r1.z, b.r2.z⟩⟩⟩

/-- A homogeneous 4x4 transform `[[R, t], [0, 1]]` as built by the
`np.vstack((np.hstack((rot, np.transpose([tran]))), [0,0,0,1]))` pattern
in `dbgen.py` (lines 173-176, 191-194, 252-255, 360-363).  Every 4x4 the
code multiplies or inverts has this block shape, so composition is the
standard block product. -/
structure HTx where
  rot : Mat3
  tran : Vec3
deriving DecidableEq, Repr

/-- `np.matmul` on two `[[R, t], [0, 1]]` matrices (dbgen.py line 198). -/
def HTx.mul (a b : HTx) : HTx :=
  ⟨a.rot.mul b.rot, (a.rot.mulVec b.tran).add a.tran⟩

/-! ## Integer helpers from `utilities.py` (not under `src/`) -/

/-- Modelled from the spec: `utilities.int_floor` is imported by
`dbgen.py` via `from utilities import *` but `utilities.py` is not under
`src/`.  The spec (section 4.1) fixes the midpoint-window convention as
floor, so `int_floor(x)` is the floor of the rational `x`. -/
def int_floor (q : ℚ) : ℤ := ⌊q⌋

/-- Modelled from the spec: `utilities.int_ceil` is imported by
`dbgen.py` via `from utilities import *` but `utilities.py` is not under
`src/`.  The spec (sections 4.1 and 8) defines `fusion_count` as
`ceil(R / F)`, so `int_ceil(x)` is the ceiling of the rational `x`. -/
def int_ceil (q : ℚ) : ℤ := ⌈q⌉

/-! ## Python list slicing

`chain.child_list[a : b]` with step 1: negative indices count from the
end, and both bounds clamp to `[0, len]`. -/

def pyIndex (n : ℤ) (i : ℤ) : ℕ :=
  (if i < 0 then max (n + i) 0 else min i n).toNat

/-- Python `l[a : b]` (slice with default step). -/
def pySlice {α : Type} (l : List α) (a b : ℤ) : List α :=
  (l.take (pyIndex l.length b)).drop (pyIndex l.length a)

/-! ## Structures (Bio.PDB.Structure.Structure)

A structure is an ordered list of chains of residues of atoms; the
`at_origin` tag is the attribute `move_to_origin` sets (dbgen.py line
539).  Structures fresh from `read_pdb` carry `at_origin = false`
(in Python the attribute is simply absent, and both absence and
falsehood make `get_radii` abort). -/

structure Atom where
  atom_name : String
  element : String
  coord : Vec3
deriving DecidableEq, Repr

structure Residue where
  atoms : List Atom
deriving DecidableEq, Repr

structure Chain where
  id : String
  residues : List Residue
deriving DecidableEq, Repr

structure PStructure where
  chains : List Chain
  at_origin : Bool
deriving DecidableEq, Repr

abbrev Exc (α : Type) := Except String α

/-- Python `r['CA']`: the alpha-carbon atom of a residue; `KeyError`
if absent. -/
def Residue.caCoord (r : Residue) : Exc Vec3 :=
  match r.atoms.find? (fun a => a.atom_name = "CA") with
  | some a => .ok a.coord
  | none => .error "KeyError: CA"

def caCoords : List Residue → Exc (List Vec3)
  | [] => .ok []
  | r :: rest => do
      let v ← r.caCoord
      let vs ← caCoords rest
      pure (v :: vs)

/-- `pdb_utilities.get_chain`: `struct.child_list[0].child_dict[chain_id]`,
`KeyError` when the chain is absent. -/
def get_chain (s : PStructure) (chain_id : String) : Exc Chain :=
  match s.chains.find? (fun c => c.id = chain_id) with
  | some c => .ok c
  | none => .error "KeyError: chain"

/-- `pdb_utilities.get_pdb_residue_count`. -/
def get_pdb_residue_count (s : PStructure) : ℕ :=
  (s.chains.map (fun c => c.residues.length)).sum

/-- `pdb_utilities.get_chain_residue_count`. -/
def get_chain_residue_count (s : PStructure) (chain_id : String) : Exc ℕ := do
  let c ← get_chain s chain_id
  pure c.residues.length

/-- `struct.get_residues()`: all residues in chain order. -/
def allResidues (s : PStructure) : List Residue :=
  s.chains.flatMap (fun c => c.residues)

/-- Sum of a list of coordinate vectors (the `sum_coord += ...` loop of
`find_tip`, and the summation inside `np.mean`). -/
def vsum (l : List Vec3) : Vec3 :=
  l.foldl Vec3.add Vec3.zero

/-- `np.mean(CAs, axis=0)`: componentwise mean. -/
def vmean (l : List Vec3) : Vec3 :=
  (vsum l).divQ (l.length : ℚ)

/-- One atom under BioPython `Structure.transform(rot, tran)`: the
coordinate becomes `coord · rot + tran` (row-vector convention). -/
def transformAtom (rot : Mat3) (tran : Vec3) (a : Atom) : Atom :=
  { a with coord := (a.coord.rowMul rot).add tran }

def transformResidue (rot : Mat3) (tran : Vec3) (r : Residue) : Residue :=
  ⟨r.atoms.map (transformAtom rot tran)⟩

def transformChain (rot : Mat3) (tran : Vec3) (c : Chain) : Chain :=
  { c with residues := c.residues.map (transformResidue rot tran) }

/-- BioPython `Structure.transform(rot, tran)` on a whole structure.
The `at_origin` tag is untouched, as in Python. -/
def PStructure.transform (s : PStructure) (rot : Mat3) (tran : Vec3) : PStructure :=
  { s with chains := s.chains.map (transformChain rot tran) }

/-! ## External numeric routines -/

/-- The three radius statistics of `get_radii` (means/maxima of
floating-point norms). -/
structure Radii where
  average_all : ℚ
  max_ca_dist : ℚ
  max_heavy_dist : ℚ
deriving DecidableEq, Repr

/-- Numeric routines external to the repository: `fit fixed moving` is
`Bio.PDB.Superimposer` (`set_atoms(fixed, moving)` followed by `rotran`),
`inv4` is `np.linalg.inv` on a homogeneous `[[R, t], [0, 1]]` matrix
(whose inverse has the same block shape), and `radiiOf` is the
floating-point distance-statistics loop of `get_radii` (dbgen.py lines
503-529). -/
structure Externals where
  fit : List Vec3 → List Vec3 → Mat3 × Vec3
  inv4 : HTx → HTx
  radiiOf : PStructure → Radii

/-! ## Geometry routines of `XDBGenerator` -/

/-- `XDBGenerator.get_rot_trans` (dbgen.py lines 566-621): slice
`match_count` residues at the given offsets out of the moving and fixed
chains, take their alpha-carbon coordinates, and superimpose.
`Superimposer.set_atoms` raises when the two atom lists differ in
length. -/
def get_rot_trans (ext : Externals) (moving : PStructure) (moving_chain_id : String)
    (fixed : PStructure) (fixed_chain_id : String)
    (moving_resi_offset fixed_resi_offset match_count : ℤ) : Exc (Mat3 × Vec3) := do
  let moving_chain ← get_chain moving moving_chain_id
  let moving_residues := pySlice moving_chain.residues moving_resi_offset
    (moving_resi_offset + match_count)
  let ma ← caCoords moving_residues
  let fixed_chain ← get_chain fixed fixed_chain_id
  let fixed_residues := pySlice fixed_chain.residues fixed_resi_offset
    (fixed_resi_offset + match_count)
  let fa ← caCoords fixed_residues
  if fa.length ≠ ma.length then
    .error "Superimposer: fixed and moving atom lists differ in size"
  else
    pure (ext.fit fa ma)

/-- `XDBGenerator.get_centre_of_mass` (dbgen.py lines 448-487): the mean
alpha-carbon coordinate over all residues of `child`; when a `mother` is
given, the translation component (only) of the windowed fit of `child`
onto `mother` is added. -/
def get_centre_of_mass (ext : Externals) (child : PStructure)
    (mother : Option PStructure)
    (child_resi_offset mother_resi_offset match_count : ℤ) : Exc Vec3 := do
  let cas ← caCoords (allResidues child)
  let com := vmean cas
  match mother with
  | none => pure com
  | some m => do
      let rt ← get_rot_trans ext child "A" m "A" child_resi_offset
        mother_resi_offset match_count
      pure (com.add rt.2)

/-- `XDBGenerator.move_to_origin` (dbgen.py lines 531-539): translate by
minus the centre of mass (identity rotation) and set the `at_origin`
tag. -/
def move_to_origin (ext : Externals) (pdb : PStructure) : Exc PStructure := do
  let com ← get_centre_of_mass ext pdb none 0 0 (-1)
  pure { pdb.transform Mat3.identity com.neg with at_origin := true }

/-- `XDBGenerator.align` (dbgen.py lines 541-564): fit, then transform
the moving structure in place (chain ids default to `'A'`). -/
def align (ext : Externals) (moving fixed : PStructure)
    (moving_resi_offset fixed_resi_offset match_count : ℤ) : Exc PStructure := do
  let rt ← get_rot_trans ext moving "A" fixed "A" moving_resi_offset
    fixed_resi_offset match_count
  pure (moving.transform rt.1 rt.2)

/-- `XDBGenerator.get_radii` (dbgen.py lines 489-529): precondition
check on the `at_origin` tag, then the external distance statistics. -/
def get_radii (ext : Externals) (pose : PStructure) : Exc Radii :=
  if pose.at_origin then .ok (ext.radiiOf pose) else
    .error "get_radii() must be called with centered modules."

/-- `XDBGenerator.find_tip` (dbgen.py lines 66-86): sum the alpha-carbon
coordinates of the terminal-sixth residue window and divide by
`end_idx - start_idx - 1` (note: one less than the window size).  Python
`assert` failures become errors; in the divisor-zero case numpy would
produce non-finite floats where rational division yields zero. -/
def find_tip (term : String) (struct : PStructure) (chain_id : String) : Exc Vec3 := do
  let term := term.toLower
  if ¬(term = "c" ∨ term = "n") then
    .error "AssertionError: term"
  else do
    let chain ← get_chain struct chain_id
    let residues := chain.residues
    let n : ℤ := residues.length
    let divider : ℤ := 6
    if residues.length = 0 then
      .error "AssertionError: n > 0"
    else do
      let se : ℤ × ℤ := if term = "n" then (0, n / divider) else ((divider - 1) * n / divider, n)
      let window := pySlice residues se.1 se.2
      let cas ← caCoords window
      let sum_coord := vsum cas
      pure (sum_coord.divQ ((se.2 - se.1 - 1 : ℤ) : ℚ))

/-! ## Transform records and the metadata model

`nested_dict` levels of the Python metadata become insertion-ordered
association lists; a Python dict assignment overwrites in place when the
key exists and appends otherwise.  `Option` fields model keys that a
`nested_dict` only acquires when assigned (`none` is the initial
auto-vivified empty mapping). -/

/-- Ghost tag: which code path created a transform record. -/
inductive TxSource where
  | pair
  | hubC
  | hubN
deriving DecidableEq, Repr

/-- A transform record (`create_tx`, dbgen.py lines 89-99).  The fields
`tx_id` and `source` are ghost instrumentation: `tx_id` is the id the
generator computes at the creation site, `source` tags the creating code
path; neither is serialized. -/
structure Tx where
  mod_a : String
  mod_a_chain : String
  mod_b : String
  mod_b_chain : String
  rot : Mat3
  tran : Vec3
  tx_id : ℕ
  source : TxSource
deriving DecidableEq, Repr

/-- `XDBGenerator.create_tx` with the two ghost fields appended. -/
def create_tx (mod_a a_chain mod_b b_chain : String) (rot : Mat3) (tran : Vec3)
    (ghost_id : ℕ) (ghost_src : TxSource) : Tx :=
  ⟨mod_a, a_chain, mod_b, b_chain, rot, tran, ghost_id, ghost_src⟩

/-- Insertion-ordered association list lookup (Python `d[k]` read). -/
def alookup {κ ν : Type} [DecidableEq κ] (m : List (κ × ν)) (k : κ) : Option ν :=
  (m.find? (fun e => e.1 = k)).map (fun e => e.2)

/-- Python dict assignment `d[k] = v`: overwrite in place when present,
append otherwise. -/
def aset {κ ν : Type} [DecidableEq κ] (m : List (κ × ν)) (k : κ) (v : ν) : List (κ × ν) :=
  match m with
  | [] => [(k, v)]
  | e :: rest => if e.1 = k then (k, v) :: rest else e :: aset rest k v

/-- A neighbor map: (neighbor unit name, neighbor chain id) to transform
id.  In Python this is a two-level `nested_dict`; the flattened key pair
preserves lookup/assignment behaviour for the accesses the code makes. -/
abbrev NMap := List ((String × String) × ℕ)

/-- Per-chain metadata of a standalone module (`process_single`, dbgen.py
lines 420-429).  `n_residues = none` only on auto-vivified entries. -/
structure SingleChainMeta where
  n : NMap
  c : NMap
  n_residues : Option ℕ
deriving DecidableEq, Repr

/-- Metadata of a standalone module.  `radii = none` only on
auto-vivified entries. -/
structure SingleMeta where
  chains : List (String × SingleChainMeta)
  radii : Option Radii
deriving DecidableEq, Repr

/-- Per-chain metadata of a hub (`process_hub`, dbgen.py lines 123-132).
`n_tip`/`c_tip` are `none` while they still hold their initial
auto-vivified empty mapping, `some v` once a tip vector is assigned. -/
structure HubChainMeta where
  single_name : Option String
  n : NMap
  n_tip : Option Vec3
  c : NMap
  c_tip : Option Vec3
  n_residues : Option ℕ
deriving DecidableEq, Repr

structure HubMeta where
  chains : List (String × HubChainMeta)
  radii : Option Radii
deriving DecidableEq, Repr

/-- One chain's entry in `hub_info[hub]['component_data']`
(consumed at dbgen.py lines 121, 138-142, 227). -/
structure ChainData where
  single_name : String
  c_free : Bool
  n_free : Bool
deriving DecidableEq, Repr

/-- One hub's entry in the `hub_info.json` metadata map. -/
structure HubInfoEntry where
  component_data : List (String × ChainData)
deriving DecidableEq, Repr

abbrev HubInfo := List (String × HubInfoEntry)

/-- The mutable state of an `XDBGenerator` (dbgen.py lines 54-64):
`self.modules['singles']` / `self.modules['hubs']`, the two transform
lists, the two structure caches, and the aligned-output structure store
(`save_pdb` writes, keyed by path). -/
structure GenState where
  modules_singles : List (String × SingleMeta)
  modules_hubs : List (String × HubMeta)
  n_to_c_tx : List Tx
  hub_tx : List Tx
  single_pdbs : List (String × PStructure)
  double_pdbs : List ((String × String) × PStructure)
  aligned_out : List (String × PStructure)
deriving DecidableEq, Repr

def GenState.init : GenState := ⟨[], [], [], [], [], [], []⟩

/-! ### Nested metadata updates

Each helper mirrors one nested Python assignment.  The outermost
`modules['singles']` / `modules['hubs']` level is a `nested_dict`, so a
missing unit name auto-vivifies; the `['chains']` level is a plain dict
written once with all its keys, so a missing chain id raises `KeyError`
(auto-vivification below a vivified unit name differs, but a complete
run never reaches that case: every write site is dominated by a cache
lookup that has already aborted when the unit was never processed). -/

/-- `self.modules['singles'][name]['chains'][ch][side][nb_name][nb_chain] = v`. -/
def setSingleNMapEntry (ms : List (String × SingleMeta)) (name ch : String)
    (cSide : Bool) (key : String × String) (v : ℕ) : Exc (List (String × SingleMeta)) :=
  match alookup ms name with
  | none =>
      .ok (aset ms name
        { chains := [(ch,
            if cSide then ⟨[], [(key, v)], none⟩ else ⟨[(key, v)], [], none⟩)],
          radii := none })
  | some meta =>
      match alookup meta.chains ch with
      | none => .error "KeyError: chain in singles metadata"
      | some cm =>
          let cm' := if cSide then { cm with c := aset cm.c key v }
            else { cm with n := aset cm.n key v }
          .ok (aset ms name { meta with chains := aset meta.chains ch cm' })

/-- `self.modules['hubs'][hub]['chains'][ch][side][nb_name][nb_chain] = v`. -/
def setHubNMapEntry (ms : List (String × HubMeta)) (name ch : String)
    (cSide : Bool) (key : String × String) (v : ℕ) : Exc (List (String × HubMeta)) :=
  match alookup ms name with
  | none =>
      .ok (aset ms name
        { chains := [(ch,
            if cSide then ⟨none, [], none, [(key, v)], none, none⟩
            else ⟨none, [(key, v)], none, [], none, none⟩)],
          radii := none })
  | some meta =>
      match alookup meta.chains ch with
      | none => .error "KeyError: chain in hubs metadata"
      | some cm =>
          let cm' := if cSide then { cm with c := aset cm.c key v }
            else { cm with n := aset cm.n key v }
          .ok (aset ms name { meta with chains := aset meta.chains ch cm' })

/-- `self.modules['hubs'][hub]['chains'][ch]['c_tip'] = tip` (or `n_tip`). -/
def setHubTip (ms : List (String × HubMeta)) (name ch : String)
    (cSide : Bool) (tip : Vec3) : Exc (List (String × HubMeta)) :=
  match alookup ms name with
  | none =>
      .ok (aset ms name
        { chains := [(ch,
            if cSide then ⟨none, [], none, [], some tip, none⟩
            else ⟨none, [], some tip, [], none, none⟩)],
          radii := none })
  | some meta =>
      match alookup meta.chains ch with
      | none => .error "KeyError: chain in hubs metadata"
      | some cm =>
          let cm' := if cSide then { cm with c_tip := some tip }
            else { cm with n_tip := some tip }
          .ok (aset ms name { meta with chains := aset meta.chains ch cm' })

/-- Read `self.modules['singles'][name]['chains'][ch]['c'][b][b_ch]`
(dbgen.py lines 166-168); a miss at any level ends, after the
`is not None` assert passes vacuously on the vivified `{}`, in the
`self.n_to_c_tx[{}]` type error, so it is modelled as an error. -/
def lookupSingleCMapEntry (ms : List (String × SingleMeta)) (name ch : String)
    (key : String × String) : Exc ℕ :=
  match alookup ms name with
  | none => .error "TypeError: vivified transform id"
  | some meta =>
      match alookup meta.chains ch with
      | none => .error "TypeError: vivified transform id"
      | some cm =>
          match alookup cm.c key with
          | none => .error "TypeError: vivified transform id"
          | some v => .ok v

/-- Python expression that raises on a missing value (`KeyError`,
`AttributeError`, `IndexError`, a failed `assert x is not None`, ...). -/
def expectSome {α : Type} (o : Option α) (msg : String) : Exc α :=
  match o with
  | some v => .ok v
  | none => .error msg

/-- `single_a_name, single_b_name = double_name.split('-')` (dbgen.py
line 305): `ValueError` unless the split has exactly two parts. -/
def splitDoubleName (s : String) : Exc (String × String) :=
  match s.splitOn "-" with
  | [a, b] => .ok (a, b)
  | _ => .error "ValueError: double name does not split into two"

/-- `file_name.split('/')[-1].replace('.pdb', '')` (dbgen.py lines 304,
403; `os.path.basename` at line 114 agrees on the paths used). -/
def moduleNameOfFile (file_name : String) : String :=
  (((file_name.splitOn "/").getLast? ).getD "").replace ".pdb" ""

/-- `list(struct.get_chains())[0].id` (dbgen.py lines 161-164, 263-264,
381-382); `IndexError` on an empty chain list. -/
def headChainId (s : PStructure) : Exc String :=
  match s.chains.head? with
  | some c => .ok c.id
  | none => .error "IndexError: chain list is empty"

/-! ## Fusion-count and window arithmetic (dbgen.py lines 112, 152-154,
231-233, 314-320, 323-353) -/

/-- `dbl_fusion_factor = 8` (dbgen.py line 318). -/
def dbl_fusion_factor : ℚ := 8

/-- `hub_fusion_factor = 4` (dbgen.py line 112). -/
def hub_fusion_factor : ℚ := 4

/-- `int_ceil(float(rc) / dbl_fusion_factor)` (dbgen.py lines 319-320). -/
def double_fusion_count (rc : ℕ) : ℤ := int_ceil ((rc : ℚ) / dbl_fusion_factor)

/-- `int_ceil(float(rc) / hub_fusion_factor)` (dbgen.py lines 154, 233). -/
def hub_fusion_count (rc : ℕ) : ℤ := int_ceil ((rc : ℚ) / hub_fusion_factor)

/-- `rc_a_half = int_floor(float(rc_a)/2)` (dbgen.py line 314). -/
def rc_half_floor (rc : ℕ) : ℤ := int_floor ((rc : ℚ) / 2)

/-- `rc_b_half = int_ceil(float(rc_b)/2)` (dbgen.py line 315). -/
def rc_half_ceil (rc : ℕ) : ℤ := int_ceil ((rc : ℚ) / 2)

/-- A residue window handed to `get_rot_trans`: slice offset and residue
count. -/
structure Window where
  offset : ℤ
  count : ℤ
deriving DecidableEq, Repr

/-- Window used on both the fixed single A and the moving double in the
`align` call of `process_double` (dbgen.py lines 323-329). -/
def double_align_window (rc_a : ℕ) : Window :=
  ⟨rc_half_floor rc_a - double_fusion_count rc_a, double_fusion_count rc_a⟩

/-- Child-side window of the `get_centre_of_mass` call and fixed-side
window of the step-4 `get_rot_trans` call (dbgen.py lines 332-338,
347-353). -/
def double_b_child_window (rc_b : ℕ) : Window :=
  ⟨rc_half_ceil rc_b - double_fusion_count rc_b, double_fusion_count rc_b⟩

/-- Mother/moving-side window inside the double for part B (dbgen.py
lines 336, 350). -/
def double_b_mother_window (rc_a rc_b : ℕ) : Window :=
  ⟨(rc_a : ℤ) + rc_half_ceil rc_b - double_fusion_count rc_b, double_fusion_count rc_b⟩

/-- Fixed-side (hub chain) window of the `c_free` hub fit (dbgen.py
lines 179-186). -/
def hub_cfree_fixed_window (rc_hub_a rc_dbl_a : ℕ) : Window :=
  ⟨(rc_hub_a : ℤ) - hub_fusion_count rc_dbl_a, hub_fusion_count rc_dbl_a⟩

/-- Moving-side (double) window of the `c_free` hub fit (dbgen.py lines
179-186). -/
def hub_cfree_moving_window (rc_dbl_a : ℕ) : Window :=
  ⟨(rc_dbl_a : ℤ) - hub_fusion_count rc_dbl_a, hub_fusion_count rc_dbl_a⟩

/-- Fixed-side (hub chain) window of the `n_free` hub fit (dbgen.py
lines 240-247). -/
def hub_nfree_fixed_window (rc_b : ℕ) : Window :=
  ⟨0, hub_fusion_count rc_b⟩

/-- Moving-side (double) window of the `n_free` hub fit (dbgen.py lines
240-247). -/
def hub_nfree_moving_window (rc_a rc_b : ℕ) : Window :=
  ⟨(rc_a : ℤ), hub_fusion_count rc_b⟩

/-! ## The three per-unit-type processors -/

/-- `XDBGenerator.process_single` (dbgen.py lines 401-432).  The parsed
structure stands in for `read_pdb(file_name)`.  The chain-count assert
(line 407) precedes every write to shared state; the duplicate explicit
`raise` at lines 410-412 is unreachable after it. -/
def process_single (ext : Externals) (file_name : String) (single : PStructure)
    (st : GenState) : Exc GenState := do
  let single_name := moduleNameOfFile file_name
  if single.chains.length ≠ 1 then
    .error "AssertionError: single module must have exactly 1 chain"
  else do
    let chain0 ← expectSome single.chains.head? "IndexError: chain_list[0]"
    let single ← move_to_origin ext single
    let radii ← get_radii ext single
    let st := { st with
      aligned_out := aset st.aligned_out ("singles/" ++ single_name ++ ".pdb") single }
    let st := { st with
      modules_singles := aset st.modules_singles single_name
        { chains := [(chain0.id, ⟨[], [], some chain0.residues.length⟩)],
          radii := some radii } }
    pure { st with single_pdbs := aset st.single_pdbs single_name single }

/-- `XDBGenerator.process_double` (dbgen.py lines 294-399).  A
`single_pdbs` miss returns the vivified empty dict in Python and crashes
at the first attribute access, modelled as an error at the lookup. -/
def process_double (ext : Externals) (file_name : String) (double : PStructure)
    (st : GenState) : Exc GenState := do
  if double.chains.length ≠ 1 then
    .error "AssertionError: double module must have exactly 1 chain"
  else do
    let double_name := moduleNameOfFile file_name
    let ab ← splitDoubleName double_name
    let single_a_name := ab.1
    let single_b_name := ab.2
    let single_a ← expectSome (alookup st.single_pdbs single_a_name) "AttributeError: single_pdbs miss"
    let single_b ← expectSome (alookup st.single_pdbs single_b_name) "AttributeError: single_pdbs miss"
    let rc_a := get_pdb_residue_count single_a
    let rc_b := get_pdb_residue_count single_b
    let _rc_double := get_pdb_residue_count double
    let wA := double_align_window rc_a
    let wBc := double_b_child_window rc_b
    let wBm := double_b_mother_window rc_a rc_b
    let double ← align ext double single_a wA.offset wA.offset wA.count
    let _com_b ← get_centre_of_mass ext single_b (some double) wBc.offset wBm.offset wBc.count
    let rt ← get_rot_trans ext double "A" single_b "A" wBm.offset wBc.offset wBc.count
    let rot := rt.1.transpose
    let tmp_tx : HTx := ⟨rot, rt.2⟩
    let inv_tx := ext.inv4 tmp_tx
    let st := { st with
      aligned_out := aset st.aligned_out ("doubles/" ++ double_name ++ ".pdb") double }
    let single_a_chain_id ← headChainId single_a
    let single_b_chain_id ← headChainId single_b
    let tx_id := st.n_to_c_tx.length
    let tx := create_tx single_a_name single_a_chain_id single_b_name single_b_chain_id
      inv_tx.rot inv_tx.tran tx_id TxSource.pair
    let ms ← setSingleNMapEntry st.modules_singles single_a_name single_a_chain_id true
      (single_b_name, single_b_chain_id) tx_id
    let ms ← setSingleNMapEntry ms single_b_name single_b_chain_id false
      (single_a_name, single_a_chain_id) tx_id
    let st := { st with modules_singles := ms, n_to_c_tx := st.n_to_c_tx ++ [tx] }
    pure { st with
      double_pdbs := aset st.double_pdbs (single_a_name, single_b_name) double }

/-- Error-propagating left fold, the shape of every `for` loop in
`run` and `process_hub`. -/
def foldExc {α σ : Type} (f : α → σ → Exc σ) : List α → σ → Exc σ
  | [], st => .ok st
  | x :: xs, st => do foldExc f xs (← f x st)

/-- Body of the `c_free` inner loop of `process_hub` (dbgen.py lines
144-225), for one yielded `single_b_name`. -/
def hubC_step (ext : Externals) (hub_name hub_chain_id comp_name : String)
    (hub : PStructure) (single_b_name : String) (st : GenState) : Exc GenState := do
  let rc_hub_a ← get_chain_residue_count hub hub_chain_id
  let comp_single ← expectSome (alookup st.single_pdbs comp_name) "AttributeError: single_pdbs miss"
  let rc_dbl_a := get_pdb_residue_count comp_single
  let fusion_count := hub_fusion_count rc_dbl_a
  let double ← expectSome (alookup st.double_pdbs (comp_name, single_b_name)) "KeyError: double_pdbs miss"
  let single_b ← expectSome (alookup st.single_pdbs single_b_name) "AttributeError: single_pdbs miss"
  let hub_single_chain_id ← headChainId comp_single
  let single_b_chain_id ← headChainId single_b
  let dbl_tx_id ← lookupSingleCMapEntry st.modules_singles comp_name hub_single_chain_id
    (single_b_name, single_b_chain_id)
  let dbl_n_to_c ← expectSome (st.n_to_c_tx.get? dbl_tx_id) "IndexError: n_to_c_tx"
  let dbl_tx : HTx := ⟨dbl_n_to_c.rot, dbl_n_to_c.tran⟩
  let wF := hub_cfree_fixed_window rc_hub_a rc_dbl_a
  let wM := hub_cfree_moving_window rc_dbl_a
  let rt ← get_rot_trans ext double "A" hub hub_chain_id wM.offset wF.offset fusion_count
  let rot := rt.1.transpose
  let comp_to_single_tx : HTx := ⟨rot, rt.2⟩
  let dbl_raised_tx := comp_to_single_tx.mul dbl_tx
  let tx_id := st.n_to_c_tx.length + st.hub_tx.length
  let tx := create_tx hub_name hub_chain_id single_b_name single_b_chain_id
    dbl_raised_tx.rot dbl_raised_tx.tran tx_id TxSource.hubC
  let mh ← setHubNMapEntry st.modules_hubs hub_name hub_chain_id true
    (single_b_name, single_b_chain_id) tx_id
  let tip ← find_tip "c" hub hub_chain_id
  let mh ← setHubTip mh hub_name hub_chain_id true tip
  let ms ← setSingleNMapEntry st.modules_singles single_b_name single_b_chain_id false
    (hub_name, hub_chain_id) tx_id
  pure { st with
    modules_hubs := mh, modules_singles := ms, hub_tx := st.hub_tx ++ [tx] }

/-- Body of the `n_free` inner loop of `process_hub` (dbgen.py lines
229-287), for one yielded `single_a_name`. -/
def hubN_step (ext : Externals) (hub_name hub_chain_id comp_name : String)
    (hub : PStructure) (single_a_name : String) (st : GenState) : Exc GenState := do
  let single_a ← expectSome (alookup st.single_pdbs single_a_name) "AttributeError: single_pdbs miss"
  let rc_a := get_pdb_residue_count single_a
  let comp_single ← expectSome (alookup st.single_pdbs comp_name) "AttributeError: single_pdbs miss"
  let rc_b := get_pdb_residue_count comp_single
  let fusion_count := hub_fusion_count rc_b
  let double ← expectSome (alookup st.double_pdbs (single_a_name, comp_name)) "KeyError: double_pdbs miss"
  let wF := hub_nfree_fixed_window rc_b
  let wM := hub_nfree_moving_window rc_a rc_b
  let rt ← get_rot_trans ext double "A" hub hub_chain_id wM.offset wF.offset fusion_count
  let rot := rt.1.transpose
  let dbl_to_hub_tx : HTx := ⟨rot, rt.2⟩
  let single_a_chain_id ← headChainId single_a
  let tx_id := st.n_to_c_tx.length + st.hub_tx.length
  let tx := create_tx single_a_name single_a_chain_id hub_name hub_chain_id
    dbl_to_hub_tx.rot dbl_to_hub_tx.tran tx_id TxSource.hubN
  let ms ← setSingleNMapEntry st.modules_singles single_a_name single_a_chain_id true
    (hub_name, hub_chain_id) tx_id
  let mh ← setHubNMapEntry st.modules_hubs hub_name hub_chain_id false
    (single_a_name, single_a_chain_id) tx_id
  let tip ← find_tip "n" hub hub_chain_id
  let mh ← setHubTip mh hub_name hub_chain_id false tip
  pure { st with
    modules_singles := ms, modules_hubs := mh, hub_tx := st.hub_tx ++ [tx] }

/-- One iteration of the `for hub_chain_id in comp_data` loop of
`process_hub` (dbgen.py lines 138-287).  The generators are snapshots of
`self.n_to_c_tx`, which no hub-stage code modifies. -/
def process_hub_chain (ext : Externals) (hub_name : String) (hub : PStructure)
    (entry : String × ChainData) (st : GenState) : Exc GenState := do
  let hub_chain_id := entry.1
  let chain_data := entry.2
  let comp_name := chain_data.single_name
  let st ←
    if chain_data.c_free then
      let b_names := (st.n_to_c_tx.filter (fun tx => tx.mod_a = comp_name)).map
        (fun tx => tx.mod_b)
      foldExc (hubC_step ext hub_name hub_chain_id comp_name hub) b_names st
    else pure st
  if chain_data.n_free then
    let a_names := (st.n_to_c_tx.filter (fun tx => tx.mod_b = comp_name)).map
      (fun tx => tx.mod_a)
    foldExc (hubN_step ext hub_name hub_chain_id comp_name hub) a_names st
  else pure st

/-- The `hub_meta['chains']` dict comprehension of `process_hub`
(dbgen.py lines 123-132): one metadata entry per structure chain, whose
`single_name` comes from the chain's `component_data` record
(`KeyError` when absent). -/
def buildHubChainsMeta (comp_data : List (String × ChainData)) :
    List Chain → Exc (List (String × HubChainMeta))
  | [] => .ok []
  | c :: rest => do
      let cd ← expectSome (alookup comp_data c.id) "KeyError: component_data"
      let rest' ← buildHubChainsMeta comp_data rest
      pure ((c.id,
        (⟨some cd.single_name, [], none, [], none, some c.residues.length⟩
          : HubChainMeta)) :: rest')

/-- `XDBGenerator.process_hub` (dbgen.py lines 101-292). -/
def process_hub (ext : Externals) (hub_info : HubInfo) (file_name : String)
    (hubStruct : PStructure) (st : GenState) : Exc GenState := do
  let hub ← move_to_origin ext hubStruct
  let hub_name := moduleNameOfFile file_name
  let hub_meta ← expectSome (alookup hub_info hub_name) "AssertionError: hub metadata missing"
  let comp_data := hub_meta.component_data
  let chainsMeta ← buildHubChainsMeta comp_data hub.chains
  let radii ← get_radii ext hub
  let st := { st with
    modules_hubs := aset st.modules_hubs hub_name ⟨chainsMeta, some radii⟩ }
  let st ← foldExc (process_hub_chain ext hub_name hub) comp_data st
  pure { st with
    aligned_out := aset st.aligned_out ("hubs/" ++ hub_name ++ ".pdb") hub }

/-- `XDBGenerator.run` (dbgen.py lines 623-656): singles, then doubles,
then hubs, then `self.n_to_c_tx += self.hub_tx`.  The file lists stand
for the three `glob.glob` results, each file paired with its parsed
structure. -/
def dbgen_run (ext : Externals) (hub_info : HubInfo)
    (single_files double_files hub_files : List (String × PStructure)) : Exc GenState := do
  let st ← foldExc (fun fp st => process_single ext fp.1 fp.2 st) single_files GenState.init
  let st ← foldExc (fun fp st => process_double ext fp.1 fp.2 st) double_files st
  let st ← foldExc (fun fp st => process_hub ext hub_info fp.1 fp.2 st) hub_files st
  pure { st with n_to_c_tx := st.n_to_c_tx ++ st.hub_tx }

/-! ## JSON serialization (`dump_xdb`, dbgen.py lines 434-446) -/

inductive JVal where
  | jnull
  | jbool (b : Bool)
  | jnum (q : ℚ)
  | jstr (s : String)
  | jarr (elems : List JVal)
  | jobj (fields : List (String × JVal))

def vecJ (v : Vec3) : JVal := .jarr [.jnum v.x, .jnum v.y, .jnum v.z]

def matJ (m : Mat3) : JVal := .jarr [vecJ m.r0, vecJ m.r1, vecJ m.r2]

/-- One `tx_entry` as built by `create_tx` (dbgen.py lines 89-99); the
ghost fields are not serialized. -/
def txJ (tx : Tx) : JVal :=
  .jobj [("mod_a", .jstr tx.mod_a), ("mod_a_chain", .jstr tx.mod_a_chain),
    ("mod_b", .jstr tx.mod_b), ("mod_b_chain", .jstr tx.mod_b_chain),
    ("rot", matJ tx.rot), ("tran", vecJ tx.tran)]

def radiiJ (r : Radii) : JVal :=
  .jobj [("average_all", .jnum r.average_all), ("max_ca_dist", .jnum r.max_ca_dist),
    ("max_heavy_dist", .jnum r.max_heavy_dist)]

/-- First occurrences of a list of keys, in order. -/
def dedupKeys : List String → List String
  | [] => []
  | x :: xs => x :: (dedupKeys xs).filter (fun y => y ≠ x)

/-- A two-level neighbor `nested_dict` (name, then chain id) as JSON. -/
def nmapJ (m : NMap) : JVal :=
  .jobj ((dedupKeys (m.map (fun e => e.1.1))).map (fun nm =>
    (nm, .jobj ((m.filter (fun e => e.1.1 = nm)).map (fun e => (e.1.2, .jnum e.2))))))

def optKey (k : String) : Option JVal → List (String × JVal)
  | some v => [(k, v)]
  | none => []

/-- A tip attribute: the initial auto-vivified value serializes as the
empty mapping, an assigned tip as the 3-vector list. -/
def tipJ : Option Vec3 → JVal
  | none => .jobj []
  | some v => vecJ v

def singleChainMetaJ (cm : SingleChainMeta) : JVal :=
  .jobj ([("n", nmapJ cm.n), ("c", nmapJ cm.c)] ++
    optKey "n_residues" (cm.n_residues.map (fun k => .jnum k)))

def singleMetaJ (m : SingleMeta) : JVal :=
  .jobj ([("chains", .jobj (m.chains.map (fun e => (e.1, singleChainMetaJ e.2))))] ++
    optKey "radii" (m.radii.map radiiJ))

def hubChainMetaJ (cm : HubChainMeta) : JVal :=
  .jobj (optKey "single_name" (cm.single_name.map (fun s => .jstr s)) ++
    [("n", nmapJ cm.n), ("n_tip", tipJ cm.n_tip), ("c", nmapJ cm.c),
     ("c_tip", tipJ cm.c_tip)] ++
    optKey "n_residues" (cm.n_residues.map (fun k => .jnum k)))

def hubMetaJ (m : HubMeta) : JVal :=
  .jobj ([("chains", .jobj (m.chains.map (fun e => (e.1, hubChainMetaJ e.2))))] ++
    optKey "radii" (m.radii.map radiiJ))

/-- `self.modules`: a `nested_dict` whose `'singles'` and `'hubs'` keys
exist exactly when something was written under them (singles are always
written before hubs in a run). -/
def modulesJ (st : GenState) : JVal :=
  .jobj ((if st.modules_singles.isEmpty then [] else
      [("singles", JVal.jobj (st.modules_singles.map (fun e => (e.1, singleMetaJ e.2))))]) ++
    (if st.modules_hubs.isEmpty then [] else
      [("hubs", JVal.jobj (st.modules_hubs.map (fun e => (e.1, hubMetaJ e.2))))]))

/-- `XDBGenerator.dump_xdb` (dbgen.py lines 434-446): the serialized
database, an ordered JSON object with keys `'modules'` and
`'n_to_c_tx'`. -/
def dump_xdb (st : GenState) : JVal :=
  .jobj [("modules", modulesJ st), ("n_to_c_tx", .jarr (st.n_to_c_tx.map txJ))]

/-- Top-level key list of a JSON object. -/
def jTopKeys : JVal → List String
  | .jobj fields => fields.map (fun e => e.1)
  | _ => []

/-! ## Predicates used by the claim statements -/

/-- All pair-derived records precede all connector-derived records. -/
def pairsFirstB : List TxSource → Bool
  | [] => true
  | TxSource.pair :: rest => pairsFirstB rest
  | _ :: rest => rest.all (fun s => s ≠ TxSource.pair)

/-- Number of entries of a neighbor map holding a given transform id. -/
def nmapCountVal (m : NMap) (v : ℕ) : ℕ :=
  (m.filter (fun e => e.2 = v)).length

/-- Read one neighbor-map entry of a standalone unit's chain
(`c`-side when `cSide`, else `n`-side). -/
def singleMapEntry (st : GenState) (name ch : String) (cSide : Bool)
    (key : String × String) : Option ℕ :=
  (alookup st.modules_singles name).bind (fun meta =>
    (alookup meta.chains ch).bind (fun cm =>
      alookup (if cSide then cm.c else cm.n) key))

/-- How many entries of a standalone chain's neighbor map hold id `v`. -/
def singleMapCount (st : GenState) (name ch : String) (cSide : Bool) (v : ℕ) : ℕ :=
  match alookup st.modules_singles name with
  | none => 0
  | some meta =>
      match alookup meta.chains ch with
      | none => 0
      | some cm => nmapCountVal (if cSide then cm.c else cm.n) v

/-- Read one neighbor-map entry of a hub's chain. -/
def hubMapEntry (st : GenState) (name ch : String) (cSide : Bool)
    (key : String × String) : Option ℕ :=
  (alookup st.modules_hubs name).bind (fun meta =>
    (alookup meta.chains ch).bind (fun cm =>
      alookup (if cSide then cm.c else cm.n) key))

/-- How many entries of a hub chain's neighbor map hold id `v`. -/
def hubMapCount (st : GenState) (name ch : String) (cSide : Bool) (v : ℕ) : ℕ :=
  match alookup st.modules_hubs name with
  | none => 0
  | some meta =>
      match alookup meta.chains ch with
      | none => 0
      | some cm => nmapCountVal (if cSide then cm.c else cm.n) v

/-- The double-placement property of one recorded edge with id `k`: the
id is stored under the partner's key, and is stored exactly once, in the
appropriate side map of each endpoint (`c` of the A endpoint, `n` of the
B endpoint; hubs hold the hub-side entry for connector edges). -/
def EdgeProp (st : GenState) (tx : Tx) (k : ℕ) : Prop :=
  match tx.source with
  | TxSource.pair =>
      singleMapEntry st tx.mod_a tx.mod_a_chain true (tx.mod_b, tx.mod_b_chain) = some k
      ∧ singleMapCount st tx.mod_a tx.mod_a_chain true k = 1
      ∧ singleMapEntry st tx.mod_b tx.mod_b_chain false (tx.mod_a, tx.mod_a_chain) = some k
      ∧ singleMapCount st tx.mod_b tx.mod_b_chain false k = 1
  | TxSource.hubC =>
      hubMapEntry st tx.mod_a tx.mod_a_chain true (tx.mod_b, tx.mod_b_chain) = some k
      ∧ hubMapCount st tx.mod_a tx.mod_a_chain true k = 1
      ∧ singleMapEntry st tx.mod_b tx.mod_b_chain false (tx.mod_a, tx.mod_a_chain) = some k
      ∧ singleMapCount st tx.mod_b tx.mod_b_chain false k = 1
  | TxSource.hubN =>
      singleMapEntry st tx.mod_a tx.mod_a_chain true (tx.mod_b, tx.mod_b_chain) = some k
      ∧ singleMapCount st tx.mod_a tx.mod_a_chain true k = 1
      ∧ hubMapEntry st tx.mod_b tx.mod_b_chain false (tx.mod_a, tx.mod_a_chain) = some k
      ∧ hubMapCount st tx.mod_b tx.mod_b_chain false k = 1

/-- Input sanity facts that hold for any real invocation (the three file
lists come from `glob` over one directory each, so basenames are
distinct; `hub_info.json` is a JSON object, so its keys are unique, as
are chain ids within one parsed PDB structure; hubs and singles live in
different namespaces of the metadata, which the generator relies on by
keying neighbor maps with bare unit names). -/
def WFInputs (hub_info : HubInfo)
    (single_files double_files hub_files : List (String × PStructure)) : Prop :=
  (double_files.map (fun fp => splitDoubleName (moduleNameOfFile fp.1))).Nodup
  ∧ (hub_files.map (fun fp => moduleNameOfFile fp.1)).Nodup
  ∧ (∀ h ∈ hub_files.map (fun fp => moduleNameOfFile fp.1),
      h ∉ single_files.map (fun fp => moduleNameOfFile fp.1))
  ∧ (∀ e ∈ hub_info, (e.2.component_data.map (fun p => p.1)).Nodup)
  ∧ (∀ fp ∈ hub_files, ((fp.2 : PStructure).chains.map (fun c => c.id)).Nodup)

/-- Is a transform-list entry present with `mod_a` equal to `name`
(the `c_free` generator test, dbgen.py line 143)? -/
def hasPairFromA (txs : List Tx) (name : String) : Bool :=
  txs.any (fun tx => tx.mod_a = name)

/-- Is a transform-list entry present with `mod_b` equal to `name`
(the `n_free` generator test, dbgen.py line 228)? -/
def hasPairToB (txs : List Tx) (name : String) : Bool :=
  txs.any (fun tx => tx.mod_b = name)

/-! ## Concrete fixtures for witnesses and counterexamples -/

/-- Witness instantiation of the external numeric routines. -/
def wExt : Externals := ⟨fun _ _ => (Mat3.identity, Vec3.zero), fun t => t, fun _ => ⟨0, 0, 0⟩⟩

/-- A one-atom residue whose alpha carbon sits at `v`. -/
def caRes (v : Vec3) : Residue := ⟨[⟨"CA", "C", v⟩]⟩

def wSingleA : PStructure := ⟨[⟨"A", [caRes ⟨0, 0, 0⟩, caRes ⟨1, 0, 0⟩]⟩], false⟩

def wSingleB : PStructure := ⟨[⟨"A", [caRes ⟨0, 0, 0⟩, caRes ⟨2, 0, 0⟩]⟩], false⟩

def wDouble : PStructure :=
  ⟨[⟨"A", [caRes ⟨0, 0, 0⟩, caRes ⟨1, 0, 0⟩, caRes ⟨2, 0, 0⟩, caRes ⟨3, 0, 0⟩]⟩], false⟩

def wHub : PStructure :=
  ⟨[⟨"X", List.replicate 12 (caRes ⟨1, 1, 1⟩)⟩, ⟨"Y", List.replicate 6 (caRes ⟨0, 1, 0⟩)⟩],
   false⟩

def wHubInfo : HubInfo :=
  [("H", ⟨[("X", ⟨"A", true, false⟩), ("Y", ⟨"B", true, false⟩)]⟩)]

def wSingleFiles : List (String × PStructure) := [("A.pdb", wSingleA), ("B.pdb", wSingleB)]

def wDoubleFiles : List (String × PStructure) := [("A-B.pdb", wDouble)]

def wHubFiles : List (String × PStructure) := [("H.pdb", wHub)]

def wRun : Exc GenState := dbgen_run wExt wHubInfo wSingleFiles wDoubleFiles wHubFiles

def okOr {α : Type} (e : Exc α) (d : α) : α :=
  match e with
  | .ok s => s
  | .error _ => d

/-- The final generator state of the witness run. -/
def wFinal : GenState := okOr wRun GenState.init

/-- A standalone input with two chains, for the malformed-input claim. -/
def wTwoChain : PStructure :=
  ⟨[⟨"A", [caRes ⟨0, 0, 0⟩]⟩, ⟨"B", [caRes ⟨1, 0, 0⟩]⟩], false⟩

/-- A 12-residue chain whose alpha carbons all sit at `(1,1,1)`: the
`find_tip` failing input. -/
def wTipStruct : PStructure := ⟨[⟨"A", List.replicate 12 (caRes ⟨1, 1, 1⟩)⟩], false⟩

/-- A second witness instantiation of the externals whose fit rotation
differs from `wExt`'s but whose fit translation agrees. -/
def wExt2 : Externals :=
  ⟨fun _ _ => (⟨⟨0, 1, 0⟩, ⟨1, 0, 0⟩, ⟨0, 0, 1⟩⟩, Vec3.zero), fun t => t, fun _ => ⟨0, 0, 0⟩⟩

/-- A residue window lies within a chain of `len` residues: offset and
count are nonnegative, the window end does not exceed the length, and
Python slicing at these bounds yields exactly `count` residues. -/
def WindowFits (w : Window) (len : ℕ) : Prop :=
  0 ≤ w.offset ∧ 0 ≤ w.count ∧ w.offset + w.count ≤ (len : ℤ) ∧
  ∀ l : List Residue, l.length = len →
    ((pySlice l w.offset (w.offset + w.count)).length : ℤ) = w.count

/-- All transform records so far, in creation order (pair list then hub
list; during double processing the hub list is empty). -/
def allTx (st : GenState) : List Tx := st.n_to_c_tx ++ st.hub_tx

/-- Ghost-id invariant: the k-th created transform carries id `k`. -/
def IdsOrdered (st : GenState) : Prop :=
  (allTx st).map Tx.tx_id = List.range (allTx st).length

/-- Ghost-source invariant: the `n_to_c_tx` list holds exactly the
pair-derived records, `hub_tx` the connector-derived ones. -/
def SourcesTagged (st : GenState) : Prop :=
  (∀ tx ∈ st.n_to_c_tx, tx.source = TxSource.pair)
  ∧ (∀ tx ∈ st.hub_tx, tx.source ≠ TxSource.pair)

/-- The tip attributes of one hub chain agree with what the generators
make reachable: a tip is assigned exactly when the side is free and at
least one pair edge matches the chain's component single. -/
def TipsMatch (N : List Tx) (cd : ChainData) (cm : HubChainMeta) : Prop :=
  cm.c_tip.isSome = (cd.c_free && hasPairFromA N cd.single_name)
  ∧ cm.n_tip.isSome = (cd.n_free && hasPairToB N cd.single_name)

/-- Concrete metadata pieces of the witness run, read back out of the
final state (with irrelevant defaults for the impossible miss case). -/
def wHubMeta : HubMeta := (alookup wFinal.modules_hubs "H").getD ⟨[], none⟩

def wHi : HubInfoEntry := (alookup wHubInfo "H").getD ⟨[]⟩

def wCdX : ChainData := (alookup wHi.component_data "X").getD ⟨"", false, false⟩

def wCmX : HubChainMeta := (alookup wHubMeta.chains "X").getD ⟨none, [], none, [], none, none⟩

def wCdY : ChainData := (alookup wHi.component_data "Y").getD ⟨"", false, false⟩

def wCmY : HubChainMeta := (alookup wHubMeta.chains "Y").getD ⟨none, [], none, [], none, none⟩

/-- Decidable equality for fallible results, needed to decide the
well-formedness predicate on concrete inputs. -/
instance : DecidableEq (Exc (String × String)) := fun a b =>
  match a, b with
  | Except.ok x, Except.ok y =>
      if h : x = y then isTrue (congrArg Except.ok h)
      else isFalse (fun hc => h (Except.ok.inj hc))
  | Except.error x, Except.error y =>
      if h : x = y then isTrue (congrArg Except.error h)
      else isFalse (fun hc => h (Except.error.inj hc))
  | Except.ok _, Except.error _ => isFalse (fun hc => Except.noConfusion hc)
  | Except.error _, Except.ok _ => isFalse (fun hc => Except.noConfusion hc)

/-- The well-formedness predicate is decidable, so concrete inputs can be
checked by evaluation. -/
instance (hub_info : HubInfo)
    (single_files double_files hub_files : List (String × PStructure)) :
    Decidable (WFInputs hub_info single_files double_files hub_files) := by
  unfold WFInputs
  infer_instance

/-! ## Endpoint-map bookkeeping for the edge-placement claim -/

/-- Component-level read of one standalone-chain neighbor-map entry
(`singleMapEntry` with the map list passed directly). -/
def sEntry (ms : List (String × SingleMeta)) (name ch : String) (cSide : Bool)
    (key : String × String) : Option ℕ :=
  (alookup ms name).bind (fun meta =>
    (alookup meta.chains ch).bind (fun cm =>
      alookup (if cSide then cm.c else cm.n) key))

/-- Component-level read of one hub-chain neighbor-map entry. -/
def hEntry (mh : List (String × HubMeta)) (name ch : String) (cSide : Bool)
    (key : String × String) : Option ℕ :=
  (alookup mh name).bind (fun meta =>
    (alookup meta.chains ch).bind (fun cm =>
      alookup (if cSide then cm.c else cm.n) key))

/-- Component-level count of standalone-chain neighbor-map entries
holding id `v`. -/
def sCount (ms : List (String × SingleMeta)) (name ch : String) (cSide : Bool) (v : ℕ) : ℕ :=
  match alookup ms name with
  | none => 0
  | some meta =>
      match alookup meta.chains ch with
      | none => 0
      | some cm => nmapCountVal (if cSide then cm.c else cm.n) v

/-- Component-level count of hub-chain neighbor-map entries holding `v`. -/
def hCount (mh : List (String × HubMeta)) (name ch : String) (cSide : Bool) (v : ℕ) : ℕ :=
  match alookup mh name with
  | none => 0
  | some meta =>
      match alookup meta.chains ch with
      | none => 0
      | some cm => nmapCountVal (if cSide then cm.c else cm.n) v

/-- A `c`-map entry holds the id of the transform recorded at that index,
and its key names that transform's B endpoint. -/
def COriginOf (T : List Tx) (e : (String × String) × ℕ) : Prop :=
  ∃ tx, T.get? e.2 = some tx ∧ e.1 = (tx.mod_b, tx.mod_b_chain)

/-- An `n`-map entry holds the id of the transform recorded at that
index, and its key names that transform's A endpoint. -/
def NOriginOf (T : List Tx) (e : (String × String) × ℕ) : Prop :=
  ∃ tx, T.get? e.2 = some tx ∧ e.1 = (tx.mod_a, tx.mod_a_chain)

/-- Every entry of every standalone neighbor map points back at the
recorded transform list. -/
def SOrigins (T : List Tx) (ms : List (String × SingleMeta)) : Prop :=
  ∀ n meta, alookup ms n = some meta → ∀ ch cm, alookup meta.chains ch = some cm →
    (∀ e ∈ cm.c, COriginOf T e) ∧ (∀ e ∈ cm.n, NOriginOf T e)

/-- Every entry of every hub neighbor map points back at the recorded
transform list. -/
def HOrigins (T : List Tx) (mh : List (String × HubMeta)) : Prop :=
  ∀ n meta, alookup mh n = some meta → ∀ ch cm, alookup meta.chains ch = some cm →
    (∀ e ∈ cm.c, COriginOf T e) ∧ (∀ e ∈ cm.n, NOriginOf T e)

/-- Neighbor-map keys of every standalone chain are distinct. -/
def SKeysND (ms : List (String × SingleMeta)) : Prop :=
  ∀ n meta, alookup ms n = some meta → ∀ ch cm, alookup meta.chains ch = some cm →
    (cm.c.map Prod.fst).Nodup ∧ (cm.n.map Prod.fst).Nodup

/-- Neighbor-map keys of every hub chain are distinct. -/
def HKeysND (mh : List (String × HubMeta)) : Prop :=
  ∀ n meta, alookup mh n = some meta → ∀ ch cm, alookup meta.chains ch = some cm →
    (cm.c.map Prod.fst).Nodup ∧ (cm.n.map Prod.fst).Nodup

/-- Every recorded transform's id sits at its two designated endpoint
entries: the `c` map of the A endpoint under the B key, and the `n` map
of the B endpoint under the A key; a `c_free` hub record keeps its A
entry in the hub map, an `n_free` one its B entry. -/
def FwdEntries (T : List Tx) (ms : List (String × SingleMeta))
    (mh : List (String × HubMeta)) : Prop :=
  ∀ k tx, T.get? k = some tx →
    (if tx.source = TxSource.hubC
      then hEntry mh tx.mod_a tx.mod_a_chain true (tx.mod_b, tx.mod_b_chain)
      else sEntry ms tx.mod_a tx.mod_a_chain true (tx.mod_b, tx.mod_b_chain)) = some k
    ∧ (if tx.source = TxSource.hubN
      then hEntry mh tx.mod_b tx.mod_b_chain false (tx.mod_a, tx.mod_a_chain)
      else sEntry ms tx.mod_b tx.mod_b_chain false (tx.mod_a, tx.mod_a_chain)) = some k

/-- The full endpoint-map invariant of the generator state. -/
def MapsInv (T : List Tx) (ms : List (String × SingleMeta))
    (mh : List (String × HubMeta)) : Prop :=
  FwdEntries T ms mh ∧ SOrigins T ms ∧ HOrigins T mh ∧ SKeysND ms ∧ HKeysND mh

/-- Both endpoint names of every pair record are standalone names. -/
def EndpointsFrom (names : List String) (N : List Tx) : Prop :=
  ∀ t ∈ N, t.mod_a ∈ names ∧ t.mod_b ∈ names

/-- The (A, B) name combinations of the pair records are distinct. -/
def PairCombosND (N : List Tx) : Prop :=
  (N.map (fun t => (t.mod_a, t.mod_b))).Nodup

/-- The hub-side endpoint name of a connector record. -/
def hubSideName (t : Tx) : String :=
  if t.source = TxSource.hubC then t.mod_a else t.mod_b

/-- The hub-side endpoint chain id of a connector record. -/
def hubSideChain (t : Tx) : String :=
  if t.source = TxSource.hubC then t.mod_a_chain else t.mod_b_chain

/-- The double-name parse applied to one input file entry. -/
def DblMapFn (fp : String × PStructure) : Exc (String × String) :=
  splitDoubleName (moduleNameOfFile fp.1)

/-- State facts carried through the double and hub phases. -/
def CoreInv (sNames : List String) (st : GenState) : Prop :=
  MapsInv (allTx st) st.modules_singles st.modules_hubs
  ∧ (∀ t ∈ st.n_to_c_tx, t.source = TxSource.pair)
  ∧ EndpointsFrom sNames st.n_to_c_tx
  ∧ PairCombosND st.n_to_c_tx

/-- Connector records are non-pair and their hub endpoints avoid the
not-yet-processed hub files. -/
def HubTxNames (fileRem : List String) (st : GenState) : Prop :=
  ∀ t ∈ st.hub_tx, t.source ≠ TxSource.pair ∧ hubSideName t ∉ fileRem

/-- Connector records of hub `H` avoid the not-yet-processed chains. -/
def HubTxChains (H : String) (chainRem : List String) (st : GenState) : Prop :=
  ∀ t ∈ st.hub_tx, hubSideName t = H → hubSideChain t ∉ chainRem

/-- During the `c_free` loop of hub `H` chain `ch`: every connector
record of that chain is `c`-side and avoids the remaining B names. -/
def HubTxCSide (H ch : String) (bRem : List String) (st : GenState) : Prop :=
  ∀ t ∈ st.hub_tx, hubSideName t = H → hubSideChain t = ch →
    t.source = TxSource.hubC ∧ t.mod_b ∉ bRem

/-- During the `n_free` loop of hub `H` chain `ch`: every connector
record of that chain is `c`-side, or `n`-side avoiding the remaining A
names. -/
def HubTxNSide (H ch : String) (aRem : List String) (st : GenState) : Prop :=
  ∀ t ∈ st.hub_tx, hubSideName t = H → hubSideChain t = ch →
    t.source = TxSource.hubC ∨ (t.source = TxSource.hubN ∧ t.mod_a ∉ aRem)

/-- All standalone chain neighbor maps are still empty. -/
def SinglesMapsEmpty (st : GenState) : Prop :=
  ∀ n meta, alookup st.modules_singles n = some meta →
    ∀ ch cm, alookup meta.chains ch = some cm → cm.c = [] ∧ cm.n = []

/-- The structure-cache keys are standalone names. -/
def PdbsNamed (names : List String) (st : GenState) : Prop :=
  ∀ p ∈ st.single_pdbs, p.1 ∈ names

def wTxDefault : Tx := ⟨"", "", "", "", Mat3.identity, Vec3.zero, 0, TxSource.pair⟩

/-- The first recorded edge of the witness run (the A-B pair). -/
def wTx0 : Tx := (wFinal.n_to_c_tx.get? 0).getD wTxDefault

/-- The second recorded edge of the witness run (the hub connector). -/
def wTx1 : Tx := (wFinal.n_to_c_tx.get? 1).getD wTxDefault

/-! # Theorems -/

/-! ## Generic inversion and map lemmas -/

theorem bind_ok_iff {α β : Type} {x : Exc α} {f : α → Exc β} {b : β} :
    x >>= f = Except.ok b ↔ ∃ a, x = Except.ok a ∧ f a = Except.ok b := by
  cases x <;> simp [Bind.bind, Except.bind]

theorem pure_ok_iff {α : Type} {a b : α} : (pure a : Exc α) = Except.ok b ↔ a = b := by
  simp [pure, Except.pure]

theorem expectSome_ok_iff {α : Type} {o : Option α} {msg : String} {v : α} :
    expectSome o msg = Except.ok v ↔ o = some v := by
  cases o <;> simp [expectSome]

theorem int_ceil_div8 (R : ℕ) : int_ceil ((R : ℚ) / 8) = (((R + 7) / 8 : ℕ) : ℤ) := by
  have hq1 : (((R + 7) / 8 : ℕ) : ℚ) * 8 < (R : ℚ) + 8 := by
    exact_mod_cast (by omega : ((R + 7) / 8) * 8 < R + 8)
  have hq2 : (R : ℚ) ≤ (((R + 7) / 8 : ℕ) : ℚ) * 8 := by
    exact_mod_cast (by omega : R ≤ ((R + 7) / 8) * 8)
  rw [int_ceil, Int.ceil_eq_iff]
  constructor
  · rw [Int.cast_natCast]
    linarith
  · rw [Int.cast_natCast]
    linarith

theorem int_ceil_div4 (R : ℕ) : int_ceil ((R : ℚ) / 4) = (((R + 3) / 4 : ℕ) : ℤ) := by
  have hq1 : (((R + 3) / 4 : ℕ) : ℚ) * 4 < (R : ℚ) + 4 := by
    exact_mod_cast (by omega : ((R + 3) / 4) * 4 < R + 4)
  have hq2 : (R : ℚ) ≤ (((R + 3) / 4 : ℕ) : ℚ) * 4 := by
    exact_mod_cast (by omega : R ≤ ((R + 3) / 4) * 4)
  rw [int_ceil, Int.ceil_eq_iff]
  constructor
  · rw [Int.cast_natCast]
    linarith
  · rw [Int.cast_natCast]
    linarith

theorem int_ceil_div2 (R : ℕ) : int_ceil ((R : ℚ) / 2) = (((R + 1) / 2 : ℕ) : ℤ) := by
  have hq1 : (((R + 1) / 2 : ℕ) : ℚ) * 2 < (R : ℚ) + 2 := by
    exact_mod_cast (by omega : ((R + 1) / 2) * 2 < R + 2)
  have hq2 : (R : ℚ) ≤ (((R + 1) / 2 : ℕ) : ℚ) * 2 := by
    exact_mod_cast (by omega : R ≤ ((R + 1) / 2) * 2)
  rw [int_ceil, Int.ceil_eq_iff]
  constructor
  · rw [Int.cast_natCast]
    linarith
  · rw [Int.cast_natCast]
    linarith

theorem int_floor_div2 (R : ℕ) : int_floor ((R : ℚ) / 2) = ((R / 2 : ℕ) : ℤ) := by
  have hq1 : ((R / 2 : ℕ) : ℚ) * 2 ≤ (R : ℚ) := by
    exact_mod_cast (by omega : (R / 2) * 2 ≤ R)
  have hq2 : (R : ℚ) < ((R / 2 : ℕ) : ℚ) * 2 + 2 := by
    exact_mod_cast (by omega : R < (R / 2) * 2 + 2)
  rw [int_floor, Int.floor_eq_iff]
  constructor
  · rw [Int.cast_natCast]
    linarith
  · rw [Int.cast_natCast]
    linarith

theorem double_fusion_count_eq (R : ℕ) : double_fusion_count R = (((R + 7) / 8 : ℕ) : ℤ) := by
  unfold double_fusion_count
  rw [show dbl_fusion_factor = (8 : ℚ) from rfl]
  exact int_ceil_div8 R

theorem hub_fusion_count_eq (R : ℕ) : hub_fusion_count R = (((R + 3) / 4 : ℕ) : ℤ) := by
  unfold hub_fusion_count
  rw [show hub_fusion_factor = (4 : ℚ) from rfl]
  exact int_ceil_div4 R

theorem rc_half_floor_eq (R : ℕ) : rc_half_floor R = ((R / 2 : ℕ) : ℤ) := by
  unfold rc_half_floor
  exact int_floor_div2 R

theorem rc_half_ceil_eq (R : ℕ) : rc_half_ceil R = (((R + 1) / 2 : ℕ) : ℤ) := by
  unfold rc_half_ceil
  exact int_ceil_div2 R

theorem pySlice_exact {α : Type} (l : List α) (a c : ℤ) (h0 : 0 ≤ a) (hc : 0 ≤ c)
    (h1 : a + c ≤ (l.length : ℤ)) :
    ((pySlice l a (a + c)).length : ℤ) = c := by
  unfold pySlice pyIndex
  rw [if_neg (show ¬(a + c < 0) by omega), if_neg (show ¬(a < 0) by omega),
    List.length_drop, List.length_take]
  omega

theorem windowFits_of_bounds (w : Window) (len : ℕ) (h0 : 0 ≤ w.offset)
    (hc : 0 ≤ w.count) (h1 : w.offset + w.count ≤ (len : ℤ)) : WindowFits w len := by
  refine ⟨h0, hc, h1, ?_⟩
  intro l hl
  exact pySlice_exact l w.offset w.count h0 hc (by rw [hl]; exact h1)

/-- C4: for every interface side with residue count `R ≥ 1`, the
computed `fusion_count` is `ceil(R / F)` (characterized here as the
integer `(R + F - 1) / F`, which also lies between `1` and `R`); the
factor is `8` in double (pair) processing and `4` in hub (connector)
processing. -/
theorem fusion_count_correct (R : ℕ) (h : 1 ≤ R) :
    double_fusion_count R = (((R + 7) / 8 : ℕ) : ℤ)
    ∧ 1 ≤ double_fusion_count R ∧ double_fusion_count R ≤ (R : ℤ)
    ∧ hub_fusion_count R = (((R + 3) / 4 : ℕ) : ℤ)
    ∧ 1 ≤ hub_fusion_count R ∧ hub_fusion_count R ≤ (R : ℤ) := by
  rw [double_fusion_count_eq, hub_fusion_count_eq]
  refine ⟨rfl, ?_, ?_, rfl, ?_, ?_⟩
  · exact_mod_cast (by omega : 1 ≤ (R + 7) / 8)
  · exact_mod_cast (by omega : (R + 7) / 8 ≤ R)
  · exact_mod_cast (by omega : 1 ≤ (R + 3) / 4)
  · exact_mod_cast (by omega : (R + 3) / 4 ≤ R)

theorem fusion_count_correct_witness :
    double_fusion_count 5 = (((5 + 7) / 8 : ℕ) : ℤ)
    ∧ 1 ≤ double_fusion_count 5 ∧ double_fusion_count 5 ≤ (5 : ℤ)
    ∧ hub_fusion_count 5 = (((5 + 3) / 4 : ℕ) : ℤ)
    ∧ 1 ≤ hub_fusion_count 5 ∧ hub_fusion_count 5 ≤ (5 : ℤ) :=
  fusion_count_correct 5 (by norm_num)

/-- C5 counterexample: for A-side residue count 1 (accepted by the
pipeline: no check rejects it), the window used by the `align` call of
`process_double` has offset `floor(1/2) - ceil(1/8) = -1 < 0`, and the
Python slice it induces on the 1-residue chain is empty instead of
holding `fusion_count = 1` residues. -/
theorem double_align_window_violates_bounds_at_one :
    (double_align_window 1).offset = -1
    ∧ (double_align_window 1).count = 1
    ∧ pySlice [caRes ⟨0, 0, 0⟩] (double_align_window 1).offset
        ((double_align_window 1).offset + (double_align_window 1).count) = [] := by
  refine ⟨?_, ?_, ?_⟩ <;> with_unfolding_all rfl

/-- C5 amended: every alignment window of double and hub processing lies
within the bounds of the chain it indexes — quantified over A-side
residue counts `≥ 2` for double processing (count 1 produces the
negative offset above) and over residue counts `≥ 1` for hub processing
(with the hub chain holding as many residues as its component single,
and a double holding the sum of its two parents' counts). -/
theorem windows_in_bounds :
    (∀ rc_a rc_b : ℕ, 2 ≤ rc_a → 1 ≤ rc_b →
      WindowFits (double_align_window rc_a) rc_a
      ∧ WindowFits (double_align_window rc_a) (rc_a + rc_b)
      ∧ WindowFits (double_b_child_window rc_b) rc_b
      ∧ WindowFits (double_b_mother_window rc_a rc_b) (rc_a + rc_b))
    ∧ (∀ rc rc_other : ℕ, 1 ≤ rc →
      WindowFits (hub_cfree_fixed_window rc rc) rc
      ∧ WindowFits (hub_cfree_moving_window rc) (rc + rc_other)
      ∧ WindowFits (hub_nfree_fixed_window rc) rc
      ∧ WindowFits (hub_nfree_moving_window rc_other rc) (rc_other + rc)) := by
  constructor
  · intro rc_a rc_b ha hb
    refine ⟨?_, ?_, ?_, ?_⟩ <;>
      · apply windowFits_of_bounds <;>
          simp only [double_align_window, double_b_child_window, double_b_mother_window,
            double_fusion_count_eq, rc_half_floor_eq, rc_half_ceil_eq] <;>
          omega
  · intro rc rc_other h
    refine ⟨?_, ?_, ?_, ?_⟩ <;>
      · apply windowFits_of_bounds <;>
          simp only [hub_cfree_fixed_window, hub_cfree_moving_window,
            hub_nfree_fixed_window, hub_nfree_moving_window, hub_fusion_count_eq] <;>
          omega

theorem windows_in_bounds_witness :
    (WindowFits (double_align_window 2) 2
      ∧ WindowFits (double_align_window 2) (2 + 2)
      ∧ WindowFits (double_b_child_window 2) 2
      ∧ WindowFits (double_b_mother_window 2 2) (2 + 2))
    ∧ (WindowFits (hub_cfree_fixed_window 2 2) 2
      ∧ WindowFits (hub_cfree_moving_window 2) (2 + 2)
      ∧ WindowFits (hub_nfree_fixed_window 2) 2
      ∧ WindowFits (hub_nfree_moving_window 2 2) (2 + 2)) :=
  ⟨windows_in_bounds.1 2 2 (by norm_num) (by norm_num),
   windows_in_bounds.2 2 2 (by norm_num)⟩

/-- C6 (code bug): on a 12-residue chain whose alpha carbons all sit at
`(1,1,1)`, the n-terminus window is the 2 residues `[0, 12 / 6)`, whose
mean alpha-carbon coordinate is `(1,1,1)`; `find_tip` instead divides
the window sum by `end_idx - start_idx - 1 = 1` (dbgen.py line 84) and
returns `(2,2,2)`. -/
theorem find_tip_not_mean_on_twelve :
    find_tip "n" wTipStruct "A" = Except.ok ⟨2, 2, 2⟩
    ∧ vmean [⟨1, 1, 1⟩, ⟨1, 1, 1⟩] = (⟨1, 1, 1⟩ : Vec3)
    ∧ ((⟨2, 2, 2⟩ : Vec3) ≠ (⟨1, 1, 1⟩ : Vec3)) := by
  refine ⟨?_, ?_, ?_⟩ <;> with_unfolding_all first | rfl | decide

/-- C8: a standalone input whose chain count is not exactly 1 makes
`process_single` abort at the chain-count assertion (dbgen.py line 407),
which precedes every write: the output store, the unit-metadata map and
the single-structure cache are untouched (the embedding returns the
error before any state update, mirroring the statement order of the
source). -/
theorem process_single_rejects_bad_chain_count (ext : Externals) (file_name : String)
    (s : PStructure) (st : GenState) (h : s.chains.length ≠ 1) :
    process_single ext file_name s st =
      Except.error "AssertionError: single module must have exactly 1 chain" := by
  simp [process_single, h]

theorem process_single_rejects_bad_chain_count_witness :
    process_single wExt "X.pdb" wTwoChain GenState.init =
      Except.error "AssertionError: single module must have exactly 1 chain" :=
  process_single_rejects_bad_chain_count wExt "X.pdb" wTwoChain GenState.init
    (by with_unfolding_all decide)

/-! ## Vector algebra and centering lemmas -/

theorem vec_add_comm (a b : Vec3) : a.add b = b.add a := by
  simp [Vec3.add]
  refine ⟨by ring, by ring, by ring⟩

theorem vec_add_assoc (a b c : Vec3) : (a.add b).add c = a.add (b.add c) := by
  simp [Vec3.add]
  refine ⟨by ring, by ring, by ring⟩

theorem vec_add_zero (a : Vec3) : a.add Vec3.zero = a := by
  simp [Vec3.add, Vec3.zero]

theorem vec_zero_add (a : Vec3) : Vec3.zero.add a = a := by
  simp [Vec3.add, Vec3.zero]

theorem vec_add_neg (a : Vec3) : a.add a.neg = Vec3.zero := by
  simp [Vec3.add, Vec3.neg, Vec3.zero]

theorem rowMul_identity (v : Vec3) : v.rowMul Mat3.identity = v := by
  simp [Vec3.rowMul, Mat3.identity]

theorem foldl_vec_add_eq (l : List Vec3) (init : Vec3) :
    l.foldl Vec3.add init = init.add (vsum l) := by
  induction l generalizing init with
  | nil => simp [vsum, vec_add_zero]
  | cons x xs ih =>
      rw [List.foldl_cons, ih (init.add x)]
      have hv : vsum (x :: xs) = x.add (vsum xs) := by
        rw [vsum, List.foldl_cons, ih (Vec3.zero.add x), vec_zero_add]
      rw [hv, vec_add_assoc]

theorem vsum_cons (x : Vec3) (xs : List Vec3) : vsum (x :: xs) = x.add (vsum xs) := by
  rw [vsum, List.foldl_cons, foldl_vec_add_eq, vec_zero_add]

theorem vsum_map_add (l : List Vec3) (t : Vec3) :
    vsum (l.map (fun v => v.add t)) = (vsum l).add (Vec3.smul (l.length : ℚ) t) := by
  induction l with
  | nil => simp [vsum, Vec3.smul, Vec3.add, Vec3.zero]
  | cons x xs ih =>
      rw [List.map_cons, vsum_cons, ih, vsum_cons]
      simp [Vec3.add, Vec3.smul, List.length_cons]
      refine ⟨by ring, by ring, by ring⟩

theorem vmean_map_add (l : List Vec3) (t : Vec3) (hl : l ≠ []) :
    vmean (l.map (fun v => v.add t)) = (vmean l).add t := by
  have hn : ((l.length : ℚ)) ≠ 0 := by
    simp [List.length_eq_zero]
    exact hl
  rw [vmean, vmean, vsum_map_add, List.length_map]
  simp [Vec3.divQ, Vec3.add, Vec3.smul]
  refine ⟨?_, ?_, ?_⟩ <;> (field_simp; try ring)

theorem caCoord_transformResidue (rot : Mat3) (t : Vec3) (r : Residue) :
    (transformResidue rot t r).caCoord =
      r.caCoord.map (fun v => (v.rowMul rot).add t) := by
  rcases r with ⟨atoms⟩
  induction atoms with
  | nil => simp [transformResidue, Residue.caCoord, Except.map]
  | cons a as ih =>
      simp only [transformResidue, Residue.caCoord, List.map_cons, List.find?_cons] at *
      by_cases ha : a.atom_name = "CA"
      · simp [transformAtom, ha, Except.map]
      · simp only [transformAtom, ha]
        simpa [transformAtom, ha] using ih

theorem caCoords_map_transform (rot : Mat3) (t : Vec3) (rs : List Residue) :
    caCoords (rs.map (transformResidue rot t)) =
      (caCoords rs).map (List.map (fun v => (v.rowMul rot).add t)) := by
  induction rs with
  | nil => simp [caCoords, Except.map]
  | cons r rest ih =>
      simp only [List.map_cons, caCoords]
      rw [caCoord_transformResidue]
      cases hr : r.caCoord with
      | error e => simp [Except.map, Bind.bind, Except.bind]
      | ok v =>
          simp only [Except.map, Bind.bind, Except.bind]
          rw [ih]
          cases hrest : caCoords rest with
          | error e => simp [Except.map]
          | ok vs => simp [Except.map, pure, Except.pure]

theorem allResidues_transform (s : PStructure) (rot : Mat3) (t : Vec3) :
    allResidues (s.transform rot t) = (allResidues s).map (transformResidue rot t) := by
  rcases s with ⟨chains, flag⟩
  induction chains with
  | nil => simp [allResidues, PStructure.transform]
  | cons c cs ih =>
      simp only [allResidues, PStructure.transform, List.map_cons, List.flatMap_cons,
        List.map_append, transformChain] at ih ⊢
      rw [ih]

theorem caCoords_ok_length (rs : List Residue) (cas : List Vec3)
    (h : caCoords rs = Except.ok cas) : cas.length = rs.length := by
  induction rs generalizing cas with
  | nil =>
      simp [caCoords] at h
      simp [← h]
  | cons r rest ih =>
      simp only [caCoords, Bind.bind] at h
      cases hr : r.caCoord with
      | error e => simp [hr, Except.bind] at h
      | ok v =>
          rw [hr] at h
          simp only [Except.bind] at h
          cases hrest : caCoords rest with
          | error e => simp [hrest] at h
          | ok vs =>
              rw [hrest] at h
              simp only [pure, Except.pure, Except.ok.injEq] at h
              rw [← h, List.length_cons, List.length_cons, ih vs hrest]

/-- C7: after `move_to_origin`, the mean alpha-carbon coordinate of the
structure is exactly the zero vector (exact rational arithmetic stands
in for floating point), and the `at_origin` flag is set. -/
theorem move_to_origin_centers (ext : Externals) (s s' : PStructure)
    (hne : allResidues s ≠ [])
    (h : move_to_origin ext s = Except.ok s') :
    get_centre_of_mass ext s' none 0 0 (-1) = Except.ok Vec3.zero
    ∧ s'.at_origin = true := by
  unfold move_to_origin at h
  rw [bind_ok_iff] at h
  obtain ⟨com, hcom, hpure⟩ := h
  rw [pure_ok_iff] at hpure
  unfold get_centre_of_mass at hcom
  rw [bind_ok_iff] at hcom
  obtain ⟨cas, hcas, hpure2⟩ := hcom
  simp only [pure_ok_iff] at hpure2
  have hlen : cas.length = (allResidues s).length := caCoords_ok_length _ _ hcas
  have hcasne : cas ≠ [] := by
    intro hnil
    apply hne
    rw [hnil] at hlen
    simpa [List.length_eq_zero] using hlen.symm
  constructor
  · unfold get_centre_of_mass
    have hchains : allResidues s' = (allResidues s).map (transformResidue Mat3.identity com.neg) := by
      rw [← hpure]
      have : allResidues { s.transform Mat3.identity com.neg with at_origin := true }
          = allResidues (s.transform Mat3.identity com.neg) := rfl
      rw [this, allResidues_transform]
    rw [hchains, caCoords_map_transform, hcas]
    have hfun : (fun (v : Vec3) => (v.rowMul Mat3.identity).add com.neg)
        = (fun v => v.add com.neg) := by
      funext v
      rw [rowMul_identity]
    rw [hfun]
    simp only [Except.map, bind_ok_iff]
    refine ⟨cas.map (fun v => v.add com.neg), rfl, ?_⟩
    rw [pure_ok_iff, vmean_map_add cas com.neg hcasne, ← hpure2, vec_add_neg]
  · rw [← hpure]

theorem move_to_origin_centers_witness :
    get_centre_of_mass wExt (okOr (move_to_origin wExt wSingleA) wSingleA) none 0 0 (-1)
      = Except.ok Vec3.zero
    ∧ (okOr (move_to_origin wExt wSingleA) wSingleA).at_origin = true :=
  move_to_origin_centers wExt wSingleA (okOr (move_to_origin wExt wSingleA) wSingleA)
    (by with_unfolding_all decide) (by with_unfolding_all rfl)

theorem get_rot_trans_tran_eq (e1 e2 : Externals)
    (hfit : ∀ fa ma, (e1.fit fa ma).2 = (e2.fit fa ma).2)
    (moving : PStructure) (mc : String) (fixed : PStructure) (fc : String)
    (mo fo cnt : ℤ) :
    (get_rot_trans e1 moving mc fixed fc mo fo cnt).map Prod.snd
      = (get_rot_trans e2 moving mc fixed fc mo fo cnt).map Prod.snd := by
  unfold get_rot_trans
  cases h1 : get_chain moving mc with
  | error e => simp [h1, Bind.bind, Except.bind, Except.map]
  | ok mchain =>
      simp only [h1, Bind.bind, Except.bind]
      cases h2 : caCoords (pySlice mchain.residues mo (mo + cnt)) with
      | error e => simp [h2, Except.map]
      | ok ma =>
          simp only [h2]
          cases h3 : get_chain fixed fc with
          | error e => simp [h3, Except.map]
          | ok fchain =>
              simp only [h3]
              cases h4 : caCoords (pySlice fchain.residues fo (fo + cnt)) with
              | error e => simp [h4, Except.map]
              | ok fa =>
                  simp only [h4]
                  by_cases h5 : fa.length = ma.length
                  · simp [h5, Except.map, pure, Except.pure, hfit fa ma]
                  · simp [h5, Except.map]

/-- C10: `get_centre_of_mass` with a mother structure is the mean
alpha-carbon coordinate over all residues of the child — independent of
the window offsets — plus only the translation component of the
windowed fit of the child onto the mother; the fit's rotation component
never touches the centroid (two externals whose fits agree on
translation but may differ arbitrarily in rotation give identical
results). -/
theorem gcom_mother_translation_only (e1 e2 : Externals) (child m : PStructure)
    (o1 o2 cnt : ℤ)
    (hfit : ∀ fa ma, (e1.fit fa ma).2 = (e2.fit fa ma).2) :
    get_centre_of_mass e1 child (some m) o1 o2 cnt
      = get_centre_of_mass e2 child (some m) o1 o2 cnt
    ∧ (∀ a b c : ℤ, get_centre_of_mass e1 child none a b c
        = get_centre_of_mass e1 child none 0 0 (-1))
    ∧ get_centre_of_mass e1 child (some m) o1 o2 cnt
      = (get_centre_of_mass e1 child none 0 0 (-1) >>= fun com =>
          (get_rot_trans e1 child "A" m "A" o1 o2 cnt).map (fun rt => com.add rt.2)) := by
  have htr := get_rot_trans_tran_eq e1 e2 hfit child "A" m "A" o1 o2 cnt
  refine ⟨?_, ?_, ?_⟩
  · unfold get_centre_of_mass
    cases hc : caCoords (allResidues child) with
    | error e => simp [Bind.bind, Except.bind]
    | ok cas =>
        simp only [Bind.bind, Except.bind]
        cases hg1 : get_rot_trans e1 child "A" m "A" o1 o2 cnt with
        | error e =>
            rw [hg1] at htr
            cases hg2 : get_rot_trans e2 child "A" m "A" o1 o2 cnt with
            | error e2m =>
                rw [hg2] at htr
                simp [Except.map] at htr
                simp [htr]
            | ok rt2 =>
                rw [hg2] at htr
                simp [Except.map] at htr
        | ok rt1 =>
            rw [hg1] at htr
            cases hg2 : get_rot_trans e2 child "A" m "A" o1 o2 cnt with
            | error e2m =>
                rw [hg2] at htr
                simp [Except.map] at htr
            | ok rt2 =>
                rw [hg2] at htr
                simp only [Except.map, Except.ok.injEq] at htr
                simp [htr]
  · intro a b c
    rfl
  · unfold get_centre_of_mass
    cases hc : caCoords (allResidues child) with
    | error e => simp [Bind.bind, Except.bind]
    | ok cas =>
        simp only [Bind.bind, Except.bind, pure, Except.pure]
        cases hg1 : get_rot_trans e1 child "A" m "A" o1 o2 cnt with
        | error e => simp [Except.map]
        | ok rt1 => simp [Except.map, pure, Except.pure]

theorem gcom_mother_translation_only_witness :
    (get_centre_of_mass wExt wSingleA (some wDouble) 0 0 1
      = get_centre_of_mass wExt2 wSingleA (some wDouble) 0 0 1)
    ∧ (get_centre_of_mass wExt wSingleA none 5 7 2
      = get_centre_of_mass wExt wSingleA none 0 0 (-1))
    ∧ get_centre_of_mass wExt wSingleA (some wDouble) 0 0 1
      = (get_centre_of_mass wExt wSingleA none 0 0 (-1) >>= fun com =>
          (get_rot_trans wExt wSingleA "A" wDouble "A" 0 0 1).map (fun rt => com.add rt.2)) := by
  have H := gcom_mother_translation_only wExt wExt2 wSingleA wDouble 0 0 1 (fun _ _ => rfl)
  exact ⟨H.1, H.2.1 5 7 2, H.2.2⟩

theorem process_single_ok {ext : Externals} {fn : String} {s : PStructure}
    {st st' : GenState} (h : process_single ext fn s st = Except.ok st') :
    ∃ c0 s1 radii,
      s.chains.head? = some c0
      ∧ move_to_origin ext s = Except.ok s1
      ∧ st' = { st with
          aligned_out := aset st.aligned_out ("singles/" ++ moduleNameOfFile fn ++ ".pdb") s1,
          modules_singles := aset st.modules_singles (moduleNameOfFile fn)
            ⟨[(c0.id, ⟨[], [], some c0.residues.length⟩)], some radii⟩,
          single_pdbs := aset st.single_pdbs (moduleNameOfFile fn) s1 } := by
  unfold process_single at h
  split at h
  · simp at h
  · rw [bind_ok_iff] at h
    obtain ⟨c0, hc0, h⟩ := h
    rw [expectSome_ok_iff] at hc0
    rw [bind_ok_iff] at h
    obtain ⟨s1, hmv, h⟩ := h
    rw [bind_ok_iff] at h
    obtain ⟨radii, hrad, h⟩ := h
    rw [pure_ok_iff] at h
    exact ⟨c0, s1, radii, hc0, hmv, h.symm⟩

theorem process_double_ok {ext : Externals} {fn : String} {d : PStructure}
    {st st' : GenState} (h : process_double ext fn d st = Except.ok st') :
    ∃ a b sa sb a_ch b_ch rot tran d1 ms1 ms2,
      splitDoubleName (moduleNameOfFile fn) = Except.ok (a, b)
      ∧ alookup st.single_pdbs a = some sa
      ∧ alookup st.single_pdbs b = some sb
      ∧ headChainId sa = Except.ok a_ch
      ∧ headChainId sb = Except.ok b_ch
      ∧ setSingleNMapEntry st.modules_singles a a_ch true (b, b_ch)
          st.n_to_c_tx.length = Except.ok ms1
      ∧ setSingleNMapEntry ms1 b b_ch false (a, a_ch)
          st.n_to_c_tx.length = Except.ok ms2
      ∧ st' = { st with
          aligned_out := aset st.aligned_out ("doubles/" ++ moduleNameOfFile fn ++ ".pdb") d1,
          modules_singles := ms2,
          n_to_c_tx := st.n_to_c_tx ++
            [create_tx a a_ch b b_ch rot tran st.n_to_c_tx.length TxSource.pair],
          double_pdbs := aset st.double_pdbs (a, b) d1 } := by
  unfold process_double at h
  split at h
  · simp at h
  · rw [bind_ok_iff] at h
    obtain ⟨ab, hab, h⟩ := h
    rw [bind_ok_iff] at h
    obtain ⟨sa, hsa, h⟩ := h
    rw [expectSome_ok_iff] at hsa
    rw [bind_ok_iff] at h
    obtain ⟨sb, hsb, h⟩ := h
    rw [expectSome_ok_iff] at hsb
    rw [bind_ok_iff] at h
    obtain ⟨dal, hdal, h⟩ := h
    rw [bind_ok_iff] at h
    obtain ⟨cb, hcb, h⟩ := h
    rw [bind_ok_iff] at h
    obtain ⟨rt, hrt, h⟩ := h
    rw [bind_ok_iff] at h
    obtain ⟨a_ch, hach, h⟩ := h
    rw [bind_ok_iff] at h
    obtain ⟨b_ch, hbch, h⟩ := h
    rw [bind_ok_iff] at h
    obtain ⟨ms1, hms1, h⟩ := h
    rw [bind_ok_iff] at h
    obtain ⟨ms2, hms2, h⟩ := h
    rw [pure_ok_iff] at h
    refine ⟨ab.1, ab.2, sa, sb, a_ch, b_ch, _, _, dal, ms1, ms2, ?_, hsa, hsb, hach, hbch,
      hms1, hms2, h.symm⟩
    rw [← hab]

theorem hubC_step_ok {ext : Externals} {hub_name hub_chain_id comp_name : String}
    {hub : PStructure} {b_name : String} {st st' : GenState}
    (h : hubC_step ext hub_name hub_chain_id comp_name hub b_name st = Except.ok st') :
    ∃ sb b_ch rot tran tip mh1 mh2 ms1,
      alookup st.single_pdbs b_name = some sb
      ∧ headChainId sb = Except.ok b_ch
      ∧ setHubNMapEntry st.modules_hubs hub_name hub_chain_id true (b_name, b_ch)
          (st.n_to_c_tx.length + st.hub_tx.length) = Except.ok mh1
      ∧ setHubTip mh1 hub_name hub_chain_id true tip = Except.ok mh2
      ∧ setSingleNMapEntry st.modules_singles b_name b_ch false (hub_name, hub_chain_id)
          (st.n_to_c_tx.length + st.hub_tx.length) = Except.ok ms1
      ∧ st' = { st with
          modules_hubs := mh2, modules_singles := ms1,
          hub_tx := st.hub_tx ++
            [create_tx hub_name hub_chain_id b_name b_ch rot tran
              (st.n_to_c_tx.length + st.hub_tx.length) TxSource.hubC] } := by
  unfold hubC_step at h
  rw [bind_ok_iff] at h
  obtain ⟨rch, hrch, h⟩ := h
  rw [bind_ok_iff] at h
  obtain ⟨cs, hcs, h⟩ := h
  rw [bind_ok_iff] at h
  obtain ⟨dbl, hdbl, h⟩ := h
  rw [bind_ok_iff] at h
  obtain ⟨sb, hsb, h⟩ := h
  rw [expectSome_ok_iff] at hsb
  rw [bind_ok_iff] at h
  obtain ⟨hsc, hhsc, h⟩ := h
  rw [bind_ok_iff] at h
  obtain ⟨b_ch, hbch, h⟩ := h
  rw [bind_ok_iff] at h
  obtain ⟨dtid, hdtid, h⟩ := h
  rw [bind_ok_iff] at h
  obtain ⟨dntc, hdntc, h⟩ := h
  rw [bind_ok_iff] at h
  obtain ⟨rt, hrt, h⟩ := h
  rw [bind_ok_iff] at h
  obtain ⟨mh1, hmh1, h⟩ := h
  rw [bind_ok_iff] at h
  obtain ⟨tip, htip, h⟩ := h
  rw [bind_ok_iff] at h
  obtain ⟨mh2, hmh2, h⟩ := h
  rw [bind_ok_iff] at h
  obtain ⟨ms1, hms1, h⟩ := h
  rw [pure_ok_iff] at h
  exact ⟨sb, b_ch, _, _, tip, mh1, mh2, ms1, hsb, hbch, hmh1, hmh2, hms1, h.symm⟩

theorem hubN_step_ok {ext : Externals} {hub_name hub_chain_id comp_name : String}
    {hub : PStructure} {a_name : String} {st st' : GenState}
    (h : hubN_step ext hub_name hub_chain_id comp_name hub a_name st = Except.ok st') :
    ∃ sa a_ch rot tran tip ms1 mh1 mh2,
      alookup st.single_pdbs a_name = some sa
      ∧ headChainId sa = Except.ok a_ch
      ∧ setSingleNMapEntry st.modules_singles a_name a_ch true (hub_name, hub_chain_id)
          (st.n_to_c_tx.length + st.hub_tx.length) = Except.ok ms1
      ∧ setHubNMapEntry st.modules_hubs hub_name hub_chain_id false (a_name, a_ch)
          (st.n_to_c_tx.length + st.hub_tx.length) = Except.ok mh1
      ∧ setHubTip mh1 hub_name hub_chain_id false tip = Except.ok mh2
      ∧ st' = { st with
          modules_singles := ms1, modules_hubs := mh2,
          hub_tx := st.hub_tx ++
            [create_tx a_name a_ch hub_name hub_chain_id rot tran
              (st.n_to_c_tx.length + st.hub_tx.length) TxSource.hubN] } := by
  unfold hubN_step at h
  rw [bind_ok_iff] at h
  obtain ⟨sa, hsa, h⟩ := h
  rw [expectSome_ok_iff] at hsa
  rw [bind_ok_iff] at h
  obtain ⟨cs, hcs, h⟩ := h
  rw [bind_ok_iff] at h
  obtain ⟨dbl, hdbl, h⟩ := h
  rw [bind_ok_iff] at h
  obtain ⟨rt, hrt, h⟩ := h
  rw [bind_ok_iff] at h
  obtain ⟨a_ch, hach, h⟩ := h
  rw [bind_ok_iff] at h
  obtain ⟨ms1, hms1, h⟩ := h
  rw [bind_ok_iff] at h
  obtain ⟨mh1, hmh1, h⟩ := h
  rw [bind_ok_iff] at h
  obtain ⟨tip, htip, h⟩ := h
  rw [bind_ok_iff] at h
  obtain ⟨mh2, hmh2, h⟩ := h
  rw [pure_ok_iff] at h
  exact ⟨sa, a_ch, _, _, tip, ms1, mh1, mh2, hsa, hach, hms1, hmh1, hmh2, h.symm⟩

theorem process_hub_ok {ext : Externals} {hub_info : HubInfo} {fn : String}
    {hs : PStructure} {st st' : GenState}
    (h : process_hub ext hub_info fn hs st = Except.ok st') :
    ∃ hub hub_meta chainsMeta radii stMid,
      move_to_origin ext hs = Except.ok hub
      ∧ alookup hub_info (moduleNameOfFile fn) = some hub_meta
      ∧ buildHubChainsMeta hub_meta.component_data hub.chains = Except.ok chainsMeta
      ∧ foldExc (process_hub_chain ext (moduleNameOfFile fn) hub) hub_meta.component_data
          { st with
            modules_hubs := aset st.modules_hubs (moduleNameOfFile fn) ⟨chainsMeta, some radii⟩ }
          = Except.ok stMid
      ∧ st' = { stMid with
          aligned_out := aset stMid.aligned_out ("hubs/" ++ moduleNameOfFile fn ++ ".pdb") hub }
      := by
  unfold process_hub at h
  rw [bind_ok_iff] at h
  obtain ⟨hub, hmv, h⟩ := h
  rw [bind_ok_iff] at h
  obtain ⟨hub_meta, hhm, h⟩ := h
  rw [expectSome_ok_iff] at hhm
  rw [bind_ok_iff] at h
  obtain ⟨chainsMeta, hcm, h⟩ := h
  rw [bind_ok_iff] at h
  obtain ⟨radii, hrad, h⟩ := h
  rw [bind_ok_iff] at h
  obtain ⟨stMid, hfold, h⟩ := h
  rw [pure_ok_iff] at h
  exact ⟨hub, hub_meta, chainsMeta, radii, stMid, hmv, hhm, hcm, hfold, h.symm⟩

theorem process_hub_chain_ok {ext : Externals} {hub_name : String} {hub : PStructure}
    {entry : String × ChainData} {st st' : GenState}
    (h : process_hub_chain ext hub_name hub entry st = Except.ok st') :
    ∃ stc,
      ((entry.2.c_free = true
          ∧ foldExc (hubC_step ext hub_name entry.1 entry.2.single_name hub)
              ((st.n_to_c_tx.filter (fun tx => tx.mod_a = entry.2.single_name)).map
                (fun tx => tx.mod_b)) st = Except.ok stc)
        ∨ (entry.2.c_free = false ∧ stc = st))
      ∧ ((entry.2.n_free = true
          ∧ foldExc (hubN_step ext hub_name entry.1 entry.2.single_name hub)
              ((stc.n_to_c_tx.filter (fun tx => tx.mod_b = entry.2.single_name)).map
                (fun tx => tx.mod_a)) stc = Except.ok st')
        ∨ (entry.2.n_free = false ∧ st' = stc)) := by
  unfold process_hub_chain at h
  cases hcv : entry.2.c_free with
  | false =>
      simp only [hcv, Bool.false_eq_true, if_false, Bind.bind, Except.bind, pure,
        Except.pure] at h
      cases hnv : entry.2.n_free with
      | false =>
          simp only [hnv, Bool.false_eq_true, if_false, pure, Except.pure,
            Except.ok.injEq] at h
          exact ⟨st, Or.inr ⟨rfl, rfl⟩, Or.inr ⟨rfl, h.symm⟩⟩
      | true =>
          simp only [hnv, if_true] at h
          exact ⟨st, Or.inr ⟨rfl, rfl⟩, Or.inl ⟨rfl, h⟩⟩
  | true =>
      simp only [hcv, if_true, Bind.bind, Except.bind] at h
      cases hf : foldExc (hubC_step ext hub_name entry.1 entry.2.single_name hub)
          ((st.n_to_c_tx.filter (fun tx => tx.mod_a = entry.2.single_name)).map
            (fun tx => tx.mod_b)) st with
      | error e =>
          rw [hf] at h
          simp at h
      | ok stc =>
          rw [hf] at h
          cases hnv : entry.2.n_free with
          | false =>
              simp only [hnv, Bool.false_eq_true, if_false, pure, Except.pure,
                Except.ok.injEq] at h
              exact ⟨stc, Or.inl ⟨rfl, rfl⟩, Or.inr ⟨rfl, h.symm⟩⟩
          | true =>
              simp only [hnv, if_true] at h
              exact ⟨stc, Or.inl ⟨rfl, rfl⟩, Or.inl ⟨rfl, h⟩⟩

theorem foldExc_nil_ok {α σ : Type} {f : α → σ → Exc σ} {s s' : σ}
    (h : foldExc f [] s = Except.ok s') : s' = s := by
  simp [foldExc, pure, Except.pure] at h
  exact h.symm

theorem foldExc_cons_ok {α σ : Type} {f : α → σ → Exc σ} {x : α} {xs : List α} {s s' : σ} :
    foldExc f (x :: xs) s = Except.ok s' ↔
      ∃ s1, f x s = Except.ok s1 ∧ foldExc f xs s1 = Except.ok s' := by
  rw [foldExc]
  exact bind_ok_iff

/-- Invariant preservation through an error-propagating fold, with the
invariant allowed to depend on the remaining input list. -/
theorem foldExc_rem {α σ : Type} (f : α → σ → Exc σ) (P : List α → σ → Prop)
    (hstep : ∀ x xs s s', P (x :: xs) s → f x s = Except.ok s' → P xs s') :
    ∀ l s s', P l s → foldExc f l s = Except.ok s' → P [] s' := by
  intro l
  induction l with
  | nil =>
      intro s s' hp h
      rw [foldExc_nil_ok h]
      exact hp
  | cons x xs ih =>
      intro s s' hp h
      rw [foldExc_cons_ok] at h
      obtain ⟨s1, hx, h⟩ := h
      exact ih s1 s' (hstep x xs s s1 hp hx) h

/-- Plain invariant preservation through an error-propagating fold. -/
theorem foldExc_inv {α σ : Type} (f : α → σ → Exc σ) (P : σ → Prop)
    (hstep : ∀ x s s', P s → f x s = Except.ok s' → P s') :
    ∀ l s s', P s → foldExc f l s = Except.ok s' → P s' := by
  intro l s s' hp h
  exact foldExc_rem f (fun _ t => P t) (fun x xs a b hpa hf => hstep x a b hpa hf) l s s' hp h

theorem ids_append_pair {st st' : GenState} {tx : Tx}
    (hN : st'.n_to_c_tx = st.n_to_c_tx ++ [tx]) (hH : st'.hub_tx = st.hub_tx)
    (hHE : st.hub_tx = []) (hid : tx.tx_id = st.n_to_c_tx.length)
    (h : IdsOrdered st) : IdsOrdered st' := by
  unfold IdsOrdered allTx at h ⊢
  rw [hHE, List.append_nil] at h
  rw [hN, hH, hHE, List.append_nil, List.map_append, h, List.map_cons, List.map_nil,
    List.length_append, hid, List.length_cons, List.length_nil]
  rw [List.range_succ]

theorem ids_append_hub {st st' : GenState} {tx : Tx}
    (hN : st'.n_to_c_tx = st.n_to_c_tx) (hH : st'.hub_tx = st.hub_tx ++ [tx])
    (hid : tx.tx_id = st.n_to_c_tx.length + st.hub_tx.length)
    (h : IdsOrdered st) : IdsOrdered st' := by
  unfold IdsOrdered allTx at h ⊢
  rw [hN, hH, ← List.append_assoc, List.map_append, h, List.map_cons, List.map_nil,
    List.length_append, List.length_append, List.length_append, hid, List.length_cons,
    List.length_nil, ← List.length_append]
  simp [List.range_succ]

theorem sources_append_pair {st st' : GenState} {tx : Tx}
    (hN : st'.n_to_c_tx = st.n_to_c_tx ++ [tx]) (hH : st'.hub_tx = st.hub_tx)
    (hsrc : tx.source = TxSource.pair) (h : SourcesTagged st) : SourcesTagged st' := by
  obtain ⟨h1, h2⟩ := h
  constructor
  · intro t ht
    rw [hN] at ht
    rcases List.mem_append.mp ht with hl | hr
    · exact h1 t hl
    · rw [List.mem_singleton.mp hr]
      exact hsrc
  · intro t ht
    rw [hH] at ht
    exact h2 t ht

theorem sources_append_hub {st st' : GenState} {tx : Tx}
    (hN : st'.n_to_c_tx = st.n_to_c_tx) (hH : st'.hub_tx = st.hub_tx ++ [tx])
    (hsrc : tx.source ≠ TxSource.pair) (h : SourcesTagged st) : SourcesTagged st' := by
  obtain ⟨h1, h2⟩ := h
  constructor
  · intro t ht
    rw [hN] at ht
    exact h1 t ht
  · intro t ht
    rw [hH] at ht
    rcases List.mem_append.mp ht with hl | hr
    · exact h2 t hl
    · rw [List.mem_singleton.mp hr]
      exact hsrc

/-- What one `process_single` call does to the transform bookkeeping:
nothing. -/
theorem process_single_tx_pres {ext : Externals} {fn : String} {s : PStructure}
    {st st' : GenState} (h : process_single ext fn s st = Except.ok st') :
    st'.n_to_c_tx = st.n_to_c_tx ∧ st'.hub_tx = st.hub_tx
    ∧ st'.modules_hubs = st.modules_hubs := by
  obtain ⟨c0, s1, radii, _, _, hst⟩ := process_single_ok h
  rw [hst]
  exact ⟨rfl, rfl, rfl⟩

/-- What one `process_double` call does to the transform bookkeeping:
append one pair-tagged record carrying id `len(n_to_c_tx)`. -/
theorem process_double_tx_pres {ext : Externals} {fn : String} {d : PStructure}
    {st st' : GenState} (h : process_double ext fn d st = Except.ok st') :
    ∃ tx, st'.n_to_c_tx = st.n_to_c_tx ++ [tx]
      ∧ tx.tx_id = st.n_to_c_tx.length ∧ tx.source = TxSource.pair
      ∧ st'.hub_tx = st.hub_tx ∧ st'.modules_hubs = st.modules_hubs := by
  obtain ⟨a, b, sa, sb, a_ch, b_ch, rot, tran, d1, ms1, ms2, _, _, _, _, _, _, _, hst⟩ :=
    process_double_ok h
  rw [hst]
  exact ⟨_, rfl, rfl, rfl, rfl, rfl⟩

theorem hubC_step_tx_pres {ext : Externals} {hub_name hub_chain_id comp_name : String}
    {hub : PStructure} {b_name : String} {st st' : GenState}
    (h : hubC_step ext hub_name hub_chain_id comp_name hub b_name st = Except.ok st') :
    ∃ tx, st'.hub_tx = st.hub_tx ++ [tx]
      ∧ tx.tx_id = st.n_to_c_tx.length + st.hub_tx.length ∧ tx.source = TxSource.hubC
      ∧ st'.n_to_c_tx = st.n_to_c_tx := by
  obtain ⟨sb, b_ch, rot, tran, tip, mh1, mh2, ms1, _, _, _, _, _, hst⟩ := hubC_step_ok h
  rw [hst]
  exact ⟨_, rfl, rfl, rfl, rfl⟩

theorem hubN_step_tx_pres {ext : Externals} {hub_name hub_chain_id comp_name : String}
    {hub : PStructure} {a_name : String} {st st' : GenState}
    (h : hubN_step ext hub_name hub_chain_id comp_name hub a_name st = Except.ok st') :
    ∃ tx, st'.hub_tx = st.hub_tx ++ [tx]
      ∧ tx.tx_id = st.n_to_c_tx.length + st.hub_tx.length ∧ tx.source = TxSource.hubN
      ∧ st'.n_to_c_tx = st.n_to_c_tx := by
  obtain ⟨sa, a_ch, rot, tran, tip, ms1, mh1, mh2, _, _, _, _, _, hst⟩ := hubN_step_ok h
  rw [hst]
  exact ⟨_, rfl, rfl, rfl, rfl⟩

theorem dbgen_run_ok_inv {ext : Externals} {hub_info : HubInfo}
    {sf df hf : List (String × PStructure)} {st' : GenState}
    (h : dbgen_run ext hub_info sf df hf = Except.ok st') :
    ∃ st1 st2 st3,
      foldExc (fun fp st => process_single ext fp.1 fp.2 st) sf GenState.init = Except.ok st1
      ∧ foldExc (fun fp st => process_double ext fp.1 fp.2 st) df st1 = Except.ok st2
      ∧ foldExc (fun fp st => process_hub ext hub_info fp.1 fp.2 st) hf st2 = Except.ok st3
      ∧ st' = { st3 with n_to_c_tx := st3.n_to_c_tx ++ st3.hub_tx } := by
  unfold dbgen_run at h
  rw [bind_ok_iff] at h
  obtain ⟨st1, h1, h⟩ := h
  rw [bind_ok_iff] at h
  obtain ⟨st2, h2, h⟩ := h
  rw [bind_ok_iff] at h
  obtain ⟨st3, h3, h⟩ := h
  rw [pure_ok_iff] at h
  exact ⟨st1, st2, st3, h1, h2, h3, h.symm⟩

theorem hubC_step_core_pres {ext : Externals} {hub_name hub_chain_id comp_name : String}
    {hub : PStructure} {b_name : String} {st st' : GenState}
    (hp : IdsOrdered st ∧ SourcesTagged st)
    (h : hubC_step ext hub_name hub_chain_id comp_name hub b_name st = Except.ok st') :
    IdsOrdered st' ∧ SourcesTagged st' := by
  obtain ⟨tx, hH, hid, hsrc, hN⟩ := hubC_step_tx_pres h
  exact ⟨ids_append_hub hN hH hid hp.1,
    sources_append_hub hN hH (by rw [hsrc]; decide) hp.2⟩

theorem hubN_step_core_pres {ext : Externals} {hub_name hub_chain_id comp_name : String}
    {hub : PStructure} {a_name : String} {st st' : GenState}
    (hp : IdsOrdered st ∧ SourcesTagged st)
    (h : hubN_step ext hub_name hub_chain_id comp_name hub a_name st = Except.ok st') :
    IdsOrdered st' ∧ SourcesTagged st' := by
  obtain ⟨tx, hH, hid, hsrc, hN⟩ := hubN_step_tx_pres h
  exact ⟨ids_append_hub hN hH hid hp.1,
    sources_append_hub hN hH (by rw [hsrc]; decide) hp.2⟩

theorem process_hub_chain_core_pres {ext : Externals} {hub_name : String}
    {hub : PStructure} {entry : String × ChainData} {st st' : GenState}
    (hp : IdsOrdered st ∧ SourcesTagged st)
    (h : process_hub_chain ext hub_name hub entry st = Except.ok st') :
    IdsOrdered st' ∧ SourcesTagged st' := by
  obtain ⟨stc, hc, hn⟩ := process_hub_chain_ok h
  have hpc : IdsOrdered stc ∧ SourcesTagged stc := by
    rcases hc with ⟨_, hfold⟩ | ⟨_, heq⟩
    · exact foldExc_inv _ _ (fun x s s' hP hf => hubC_step_core_pres hP hf) _ st stc hp hfold
    · rw [heq]
      exact hp
  rcases hn with ⟨_, hfold⟩ | ⟨_, heq⟩
  · exact foldExc_inv _ _ (fun x s s' hP hf => hubN_step_core_pres hP hf) _ stc st' hpc hfold
  · rw [heq]
    exact hpc

theorem process_hub_core_pres {ext : Externals} {hub_info : HubInfo} {fn : String}
    {hs : PStructure} {st st' : GenState}
    (hp : IdsOrdered st ∧ SourcesTagged st)
    (h : process_hub ext hub_info fn hs st = Except.ok st') :
    IdsOrdered st' ∧ SourcesTagged st' := by
  obtain ⟨hub, hub_meta, chainsMeta, radii, stMid, _, _, _, hfold, hst⟩ := process_hub_ok h
  have hpre : IdsOrdered { st with modules_hubs := aset st.modules_hubs (moduleNameOfFile fn) ⟨chainsMeta, some radii⟩ } ∧ SourcesTagged { st with modules_hubs := aset st.modules_hubs (moduleNameOfFile fn) ⟨chainsMeta, some radii⟩ } := by
    exact hp
  have hmid := foldExc_inv _ _ (fun x s s' hP hf => process_hub_chain_core_pres hP hf)
    _ _ stMid hpre hfold
  rw [hst]
  exact hmid

/-- C1: in a completed run (all doubles processed before any hub), the
ghost-recorded id that the generator computed at each edge's creation
time — `len(n_to_c_tx)` for a pair edge while `hub_tx` is still empty,
`len(n_to_c_tx) + len(hub_tx)` for a connector edge — equals that edge's
index in the final flat transform list, so ids are globally unique. -/
theorem tx_ids_are_final_positions {ext : Externals} {hub_info : HubInfo}
    {sf df hf : List (String × PStructure)} {st' : GenState}
    (h : dbgen_run ext hub_info sf df hf = Except.ok st') :
    st'.n_to_c_tx.map Tx.tx_id = List.range st'.n_to_c_tx.length := by
  obtain ⟨st1, st2, st3, h1, h2, h3, hfin⟩ := dbgen_run_ok_inv h
  have P0 : (IdsOrdered GenState.init ∧ SourcesTagged GenState.init)
      ∧ GenState.init.hub_tx = [] := by
    refine ⟨⟨?_, ?_, ?_⟩, rfl⟩
    · rfl
    · intro tx htx
      simp [GenState.init] at htx
    · intro tx htx
      simp [GenState.init] at htx
  have P1 := foldExc_inv _
    (fun s => (IdsOrdered s ∧ SourcesTagged s) ∧ s.hub_tx = [])
    (fun fp s s' hP hf => by
      obtain ⟨hN, hH, _⟩ := process_single_tx_pres hf
      refine ⟨⟨?_, ?_, ?_⟩, ?_⟩
      · unfold IdsOrdered allTx at hP ⊢
        rw [hN, hH]
        exact hP.1.1
      · intro tx htx
        rw [hN] at htx
        exact hP.1.2.1 tx htx
      · intro tx htx
        rw [hH] at htx
        exact hP.1.2.2 tx htx
      · rw [hH]
        exact hP.2)
    sf GenState.init st1 P0 h1
  have P2 := foldExc_inv _
    (fun s => (IdsOrdered s ∧ SourcesTagged s) ∧ s.hub_tx = [])
    (fun fp s s' hP hf => by
      obtain ⟨tx, hN, hid, hsrc, hH, _⟩ := process_double_tx_pres hf
      refine ⟨⟨ids_append_pair hN hH hP.2 hid hP.1.1,
        sources_append_pair hN hH hsrc hP.1.2⟩, ?_⟩
      · rw [hH]
        exact hP.2)
    df st1 st2 P1 h2
  have P3 := foldExc_inv _
    (fun s => IdsOrdered s ∧ SourcesTagged s)
    (fun fp s s' hP hf => process_hub_core_pres hP hf)
    hf st2 st3 P2.1 h3
  rw [hfin]
  exact P3.1

theorem tx_ids_are_final_positions_witness :
    wFinal.n_to_c_tx.map Tx.tx_id = List.range wFinal.n_to_c_tx.length :=
  tx_ids_are_final_positions (by with_unfolding_all rfl :
    dbgen_run wExt wHubInfo wSingleFiles wDoubleFiles wHubFiles = Except.ok wFinal)

/-- Core facts about any completed run: the final state is the
pre-concatenation state with `hub_tx` appended to `n_to_c_tx`, ids are
positional and sources are phase-tagged. -/
theorem run_core_facts {ext : Externals} {hub_info : HubInfo}
    {sf df hf : List (String × PStructure)} {st' : GenState}
    (h : dbgen_run ext hub_info sf df hf = Except.ok st') :
    ∃ st3, st' = { st3 with n_to_c_tx := st3.n_to_c_tx ++ st3.hub_tx }
      ∧ IdsOrdered st3 ∧ SourcesTagged st3 := by
  obtain ⟨st1, st2, st3, h1, h2, h3, hfin⟩ := dbgen_run_ok_inv h
  have P0 : (IdsOrdered GenState.init ∧ SourcesTagged GenState.init)
      ∧ GenState.init.hub_tx = [] := by
    refine ⟨⟨?_, ?_, ?_⟩, rfl⟩
    · rfl
    · intro tx htx
      simp [GenState.init] at htx
    · intro tx htx
      simp [GenState.init] at htx
  have P1 := foldExc_inv _
    (fun s => (IdsOrdered s ∧ SourcesTagged s) ∧ s.hub_tx = [])
    (fun fp s s' hP hf0 => by
      obtain ⟨hN, hH, _⟩ := process_single_tx_pres hf0
      refine ⟨⟨?_, ?_, ?_⟩, ?_⟩
      · unfold IdsOrdered allTx at hP ⊢
        rw [hN, hH]
        exact hP.1.1
      · intro tx htx
        rw [hN] at htx
        exact hP.1.2.1 tx htx
      · intro tx htx
        rw [hH] at htx
        exact hP.1.2.2 tx htx
      · rw [hH]
        exact hP.2)
    sf GenState.init st1 P0 h1
  have P2 := foldExc_inv _
    (fun s => (IdsOrdered s ∧ SourcesTagged s) ∧ s.hub_tx = [])
    (fun fp s s' hP hf0 => by
      obtain ⟨tx, hN, hid, hsrc, hH, _⟩ := process_double_tx_pres hf0
      refine ⟨⟨ids_append_pair hN hH hP.2 hid hP.1.1,
        sources_append_pair hN hH hsrc hP.1.2⟩, ?_⟩
      · rw [hH]
        exact hP.2)
    df st1 st2 P1 h2
  have P3 := foldExc_inv _
    (fun s => IdsOrdered s ∧ SourcesTagged s)
    (fun fp s s' hP hf0 => process_hub_core_pres hP hf0)
    hf st2 st3 P2.1 h3
  exact ⟨st3, hfin, P3⟩

theorem pairsFirstB_append (l1 l2 : List TxSource)
    (h1 : ∀ s ∈ l1, s = TxSource.pair) (h2 : ∀ s ∈ l2, s ≠ TxSource.pair) :
    pairsFirstB (l1 ++ l2) = true := by
  induction l1 with
  | nil =>
      cases l2 with
      | nil => rfl
      | cons x r =>
          have hx := h2 x (List.mem_cons_self x r)
          cases x with
          | pair => exact absurd rfl hx
          | hubC =>
              simp only [List.nil_append, pairsFirstB, List.all_eq_true]
              intro s hs
              simpa using h2 s (List.mem_cons_of_mem _ hs)
          | hubN =>
              simp only [List.nil_append, pairsFirstB, List.all_eq_true]
              intro s hs
              simpa using h2 s (List.mem_cons_of_mem _ hs)
  | cons x xs ih =>
      have hx := h1 x (List.mem_cons_self x xs)
      subst hx
      rw [List.cons_append]
      show pairsFirstB (xs ++ l2) = true
      exact ih (fun s hs => h1 s (List.mem_cons_of_mem _ hs))

/-- C3 counterexample: the empty run completes, and the two top-level
keys of its serialized database are `modules` and `n_to_c_tx`, not
`units` and `transforms` as the claim states. -/
theorem dump_keys_not_units_and_transforms :
    dbgen_run wExt wHubInfo [] [] [] = Except.ok GenState.init
    ∧ jTopKeys (dump_xdb GenState.init) = ["modules", "n_to_c_tx"]
    ∧ ["modules", "n_to_c_tx"] ≠ ["units", "transforms"] := by
  refine ⟨?_, ?_, ?_⟩
  · with_unfolding_all rfl
  · with_unfolding_all rfl
  · decide

/-- C3 amended: for every completed run the serialized database is a
JSON object with exactly the two top-level keys `modules` (the nested
unit-metadata map) and `n_to_c_tx` (the flat ordered edge list, with all
pair-derived records before all connector-derived records). -/
theorem dump_shape {ext : Externals} {hub_info : HubInfo}
    {sf df hf : List (String × PStructure)} {st' : GenState}
    (h : dbgen_run ext hub_info sf df hf = Except.ok st') :
    jTopKeys (dump_xdb st') = ["modules", "n_to_c_tx"]
    ∧ dump_xdb st' = JVal.jobj [("modules", modulesJ st'),
        ("n_to_c_tx", JVal.jarr (st'.n_to_c_tx.map txJ))]
    ∧ pairsFirstB (st'.n_to_c_tx.map Tx.source) = true := by
  obtain ⟨st3, hfin, hids, hsrc⟩ := run_core_facts h
  refine ⟨rfl, rfl, ?_⟩
  rw [hfin]
  show pairsFirstB ((st3.n_to_c_tx ++ st3.hub_tx).map Tx.source) = true
  rw [List.map_append]
  exact pairsFirstB_append _ _
    (fun s hs => by
      obtain ⟨tx, htx, hmap⟩ := List.mem_map.mp hs
      rw [← hmap]
      exact hsrc.1 tx htx)
    (fun s hs => by
      obtain ⟨tx, htx, hmap⟩ := List.mem_map.mp hs
      rw [← hmap]
      exact hsrc.2 tx htx)

theorem dump_shape_witness :
    jTopKeys (dump_xdb wFinal) = ["modules", "n_to_c_tx"]
    ∧ dump_xdb wFinal = JVal.jobj [("modules", modulesJ wFinal),
        ("n_to_c_tx", JVal.jarr (wFinal.n_to_c_tx.map txJ))]
    ∧ pairsFirstB (wFinal.n_to_c_tx.map Tx.source) = true :=
  dump_shape (by with_unfolding_all rfl :
    dbgen_run wExt wHubInfo wSingleFiles wDoubleFiles wHubFiles = Except.ok wFinal)

/-! ## Association-map lemmas -/

theorem alookup_aset_self {κ ν : Type} [DecidableEq κ] (m : List (κ × ν)) (k : κ) (v : ν) :
    alookup (aset m k v) k = some v := by
  induction m with
  | nil => simp [aset, alookup]
  | cons e rest ih =>
      by_cases he : e.1 = k
      · simp [aset, he, alookup]
      · simp only [aset, he, if_false]
        simp only [alookup, List.find?_cons]
        rw [show (decide (e.1 = k)) = false from by simp [he]]
        exact ih

theorem alookup_aset_ne {κ ν : Type} [DecidableEq κ] (m : List (κ × ν)) (k k' : κ) (v : ν)
    (h : k' ≠ k) : alookup (aset m k v) k' = alookup m k' := by
  induction m with
  | nil => simp [aset, alookup, Ne.symm h]
  | cons e rest ih =>
      by_cases he : e.1 = k
      · simp only [aset, he, if_true]
        simp only [alookup, List.find?_cons]
        rw [show (decide (k = k')) = false from by simp [Ne.symm h],
          show (decide (e.1 = k')) = false from by rw [he]; simp [Ne.symm h]]
      · simp only [aset, he, if_false]
        simp only [alookup, List.find?_cons]
        cases hek : decide (e.1 = k') with
        | true => rfl
        | false => exact ih

theorem mem_aset {κ ν : Type} [DecidableEq κ] {m : List (κ × ν)} {k : κ} {v : ν}
    {e : κ × ν} (hnd : (m.map Prod.fst).Nodup) (h : e ∈ aset m k v) :
    e = (k, v) ∨ (e ∈ m ∧ e.1 ≠ k) := by
  induction m with
  | nil =>
      simp [aset] at h
      left
      simp [h]
  | cons f rest ih =>
      have hnd' : (rest.map Prod.fst).Nodup := (List.nodup_cons.mp hnd).2
      by_cases hf : f.1 = k
      · simp only [aset, hf, if_true] at h
        rcases List.mem_cons.mp h with h1 | h2
        · left
          simp [h1]
        · right
          have hkmem : e.1 ∈ rest.map Prod.fst := List.mem_map_of_mem Prod.fst h2
          have hne : e.1 ≠ k := by
            intro hk
            apply (List.nodup_cons.mp hnd).1
            rw [hf, ← hk]
            exact hkmem
          exact ⟨List.mem_cons_of_mem _ h2, hne⟩
      · simp only [aset, hf, if_false] at h
        rcases List.mem_cons.mp h with h1 | h2
        · right
          subst h1
          exact ⟨List.mem_cons_self _ _, hf⟩
        · rcases ih hnd' h2 with h3 | h3
          · left
            exact h3
          · right
            exact ⟨List.mem_cons_of_mem _ h3.1, h3.2⟩

theorem aset_keys_nodup {κ ν : Type} [DecidableEq κ] {m : List (κ × ν)} (k : κ) (v : ν)
    (hnd : (m.map Prod.fst).Nodup) : ((aset m k v).map Prod.fst).Nodup := by
  induction m with
  | nil => simp [aset]
  | cons f rest ih =>
      have hhead := (List.nodup_cons.mp hnd).1
      have hnd' := (List.nodup_cons.mp hnd).2
      by_cases hf : f.1 = k
      · simp only [aset, hf, if_true, List.map_cons]
        rw [List.nodup_cons]
        refine ⟨?_, hnd'⟩
        rw [← hf]
        exact hhead
      · simp only [aset, hf, if_false, List.map_cons]
        rw [List.nodup_cons]
        refine ⟨?_, ih hnd'⟩
        intro hmem
        obtain ⟨e, he, hfst⟩ := List.mem_map.mp hmem
        rcases mem_aset hnd' he with h1 | h1
        · apply hf
          rw [← hfst, h1]
        · apply hhead
          rw [← hfst]
          exact List.mem_map_of_mem Prod.fst h1.1

theorem alookup_mem {κ ν : Type} [DecidableEq κ] {m : List (κ × ν)} {k : κ} {v : ν}
    (h : alookup m k = some v) : (k, v) ∈ m := by
  induction m with
  | nil => simp [alookup] at h
  | cons f rest ih =>
      simp only [alookup, List.find?_cons] at h
      cases hf : decide (f.1 = k) with
      | true =>
          rw [hf] at h
          simp at h
          have h1 : f.1 = k := of_decide_eq_true hf
          exact List.mem_cons.mpr (Or.inl (by
            rw [Prod.ext_iff]
            exact ⟨h1.symm, h.symm⟩))
      | false =>
          rw [hf] at h
          right
          exact ih h

theorem alookup_isSome_of_mem {κ ν : Type} [DecidableEq κ] {m : List (κ × ν)} {k : κ} {v : ν}
    (h : (k, v) ∈ m) : ∃ v', alookup m k = some v' := by
  induction m with
  | nil => simp at h
  | cons f rest ih =>
      by_cases hf : f.1 = k
      · exact ⟨f.2, by simp [alookup, List.find?_cons, hf]⟩
      · rcases List.mem_cons.mp h with h1 | h2
        · exact absurd (by rw [← h1]) hf
        · obtain ⟨v', hv'⟩ := ih h2
          refine ⟨v', ?_⟩
          simp only [alookup, List.find?_cons]
          rw [show (decide (f.1 = k)) = false from by simp [hf]]
          exact hv'

theorem alookup_of_mem_nodup {κ ν : Type} [DecidableEq κ] {m : List (κ × ν)} {k : κ} {v : ν}
    (hnd : (m.map Prod.fst).Nodup) (h : (k, v) ∈ m) : alookup m k = some v := by
  induction m with
  | nil => simp at h
  | cons f rest ih =>
      rcases List.mem_cons.mp h with h1 | h2
      · rw [← h1]
        simp [alookup, List.find?_cons]
      · have hne : f.1 ≠ k := by
          intro hk
          apply (List.nodup_cons.mp hnd).1
          rw [hk]
          exact List.mem_map_of_mem Prod.fst h2
        simp only [alookup, List.find?_cons]
        rw [show (decide (f.1 = k)) = false from by simp [hne]]
        exact ih (List.nodup_cons.mp hnd).2 h2

theorem setHubNMapEntry_ok_present {ms : List (String × HubMeta)} {name ch : String}
    {cSide : Bool} {key : String × String} {v : ℕ} {ms' : List (String × HubMeta)}
    {meta : HubMeta} (hm : alookup ms name = some meta)
    (h : setHubNMapEntry ms name ch cSide key v = Except.ok ms') :
    ∃ cm, alookup meta.chains ch = some cm
      ∧ ms' = aset ms name
          { meta with
            chains := aset meta.chains ch
              (if cSide then { cm with c := aset cm.c key v }
                else { cm with n := aset cm.n key v }) } := by
  unfold setHubNMapEntry at h
  split at h
  next heq =>
    rw [hm] at heq
    exact absurd heq (by simp)
  next m2 heq =>
    rw [hm] at heq
    injection heq with heq
    subst heq
    split at h
    next heq2 => simp at h
    next cm heq2 =>
      simp only [Except.ok.injEq] at h
      exact ⟨cm, heq2, h.symm⟩

theorem setHubTip_ok_present {ms : List (String × HubMeta)} {name ch : String}
    {cSide : Bool} {tip : Vec3} {ms' : List (String × HubMeta)}
    {meta : HubMeta} (hm : alookup ms name = some meta)
    (h : setHubTip ms name ch cSide tip = Except.ok ms') :
    ∃ cm, alookup meta.chains ch = some cm
      ∧ ms' = aset ms name
          { meta with
            chains := aset meta.chains ch
              (if cSide then { cm with c_tip := some tip }
                else { cm with n_tip := some tip }) } := by
  unfold setHubTip at h
  split at h
  next heq =>
    rw [hm] at heq
    exact absurd heq (by simp)
  next m2 heq =>
    rw [hm] at heq
    injection heq with heq
    subst heq
    split at h
    next heq2 => simp at h
    next cm heq2 =>
      simp only [Except.ok.injEq] at h
      exact ⟨cm, heq2, h.symm⟩

theorem setSingleNMapEntry_ok_present {ms : List (String × SingleMeta)} {name ch : String}
    {cSide : Bool} {key : String × String} {v : ℕ} {ms' : List (String × SingleMeta)}
    {meta : SingleMeta} (hm : alookup ms name = some meta)
    (h : setSingleNMapEntry ms name ch cSide key v = Except.ok ms') :
    ∃ cm, alookup meta.chains ch = some cm
      ∧ ms' = aset ms name
          { meta with
            chains := aset meta.chains ch
              (if cSide then { cm with c := aset cm.c key v }
                else { cm with n := aset cm.n key v }) } := by
  unfold setSingleNMapEntry at h
  split at h
  next heq =>
    rw [hm] at heq
    exact absurd heq (by simp)
  next m2 heq =>
    rw [hm] at heq
    injection heq with heq
    subst heq
    split at h
    next heq2 => simp at h
    next cm heq2 =>
      simp only [Except.ok.injEq] at h
      exact ⟨cm, heq2, h.symm⟩

theorem setHubNMapEntry_shape {ms : List (String × HubMeta)} {name ch : String}
    {cSide : Bool} {key : String × String} {v : ℕ} {ms' : List (String × HubMeta)}
    (h : setHubNMapEntry ms name ch cSide key v = Except.ok ms') :
    ∃ meta', ms' = aset ms name meta' := by
  unfold setHubNMapEntry at h
  split at h
  next heq =>
    simp only [Except.ok.injEq] at h
    exact ⟨_, h.symm⟩
  next m2 heq =>
    split at h
    next heq2 => simp at h
    next cm heq2 =>
      simp only [Except.ok.injEq] at h
      exact ⟨_, h.symm⟩

theorem setHubTip_shape {ms : List (String × HubMeta)} {name ch : String}
    {cSide : Bool} {tip : Vec3} {ms' : List (String × HubMeta)}
    (h : setHubTip ms name ch cSide tip = Except.ok ms') :
    ∃ meta', ms' = aset ms name meta' := by
  unfold setHubTip at h
  split at h
  next heq =>
    simp only [Except.ok.injEq] at h
    exact ⟨_, h.symm⟩
  next m2 heq =>
    split at h
    next heq2 => simp at h
    next cm heq2 =>
      simp only [Except.ok.injEq] at h
      exact ⟨_, h.symm⟩

theorem setSingleNMapEntry_shape {ms : List (String × SingleMeta)} {name ch : String}
    {cSide : Bool} {key : String × String} {v : ℕ} {ms' : List (String × SingleMeta)}
    (h : setSingleNMapEntry ms name ch cSide key v = Except.ok ms') :
    ∃ meta', ms' = aset ms name meta' := by
  unfold setSingleNMapEntry at h
  split at h
  next heq =>
    simp only [Except.ok.injEq] at h
    exact ⟨_, h.symm⟩
  next m2 heq =>
    split at h
    next heq2 => simp at h
    next cm heq2 =>
      simp only [Except.ok.injEq] at h
      exact ⟨_, h.symm⟩

theorem buildHubChainsMeta_tips {comp_data : List (String × ChainData)}
    {chains : List Chain} {res : List (String × HubChainMeta)}
    (h : buildHubChainsMeta comp_data chains = Except.ok res) :
    ∀ ch cm, alookup res ch = some cm → cm.c_tip = none ∧ cm.n_tip = none := by
  induction chains generalizing res with
  | nil =>
      simp only [buildHubChainsMeta, Except.ok.injEq] at h
      intro ch cm hcm
      rw [← h] at hcm
      simp [alookup] at hcm
  | cons c rest ih =>
      simp only [buildHubChainsMeta] at h
      rw [bind_ok_iff] at h
      obtain ⟨cd, hcd, h⟩ := h
      rw [bind_ok_iff] at h
      obtain ⟨rest', hrest, h⟩ := h
      rw [pure_ok_iff] at h
      intro ch cm hcm
      rw [← h] at hcm
      simp only [alookup, List.find?_cons] at hcm
      by_cases hch : c.id = ch
      · rw [show (decide ((c.id, (⟨some cd.single_name, [], none, [], none,
            some c.residues.length⟩ : HubChainMeta)).1 = ch)) = true from by simp [hch]] at hcm
        simp at hcm
        rw [← hcm]
        exact ⟨rfl, rfl⟩
      · rw [show (decide ((c.id, (⟨some cd.single_name, [], none, [], none,
            some c.residues.length⟩ : HubChainMeta)).1 = ch)) = false from by simp [hch]] at hcm
        exact ih hrest ch cm hcm


theorem setHubNMapEntry_effects {ms : List (String × HubMeta)} {name ch : String}
    {cSide : Bool} {key : String × String} {v : ℕ} {ms' : List (String × HubMeta)}
    {meta : HubMeta} (hm : alookup ms name = some meta)
    (h : setHubNMapEntry ms name ch cSide key v = Except.ok ms') :
    (∀ n', n' ≠ name → alookup ms' n' = alookup ms n')
    ∧ ∃ meta', alookup ms' name = some meta'
        ∧ (∀ ch', ch' ≠ ch → alookup meta'.chains ch' = alookup meta.chains ch')
        ∧ ∃ cm cm', alookup meta.chains ch = some cm
            ∧ alookup meta'.chains ch = some cm'
            ∧ cm'.c_tip = cm.c_tip ∧ cm'.n_tip = cm.n_tip
            ∧ cm'.single_name = cm.single_name ∧ cm'.n_residues = cm.n_residues := by
  obtain ⟨cm, hcm, heq⟩ := setHubNMapEntry_ok_present hm h
  subst heq
  refine ⟨fun n' hne => alookup_aset_ne _ _ _ _ hne, _, alookup_aset_self _ _ _, ?_, ?_⟩
  · intro ch' hne
    exact alookup_aset_ne _ _ _ _ hne
  · refine ⟨cm, _, hcm, alookup_aset_self _ _ _, ?_, ?_, ?_, ?_⟩ <;> cases cSide <;> simp

theorem setHubTip_effects {ms : List (String × HubMeta)} {name ch : String}
    {cSide : Bool} {tip : Vec3} {ms' : List (String × HubMeta)}
    {meta : HubMeta} (hm : alookup ms name = some meta)
    (h : setHubTip ms name ch cSide tip = Except.ok ms') :
    (∀ n', n' ≠ name → alookup ms' n' = alookup ms n')
    ∧ ∃ meta', alookup ms' name = some meta'
        ∧ (∀ ch', ch' ≠ ch → alookup meta'.chains ch' = alookup meta.chains ch')
        ∧ ∃ cm cm', alookup meta.chains ch = some cm
            ∧ alookup meta'.chains ch = some cm'
            ∧ cm'.c_tip = (if cSide then some tip else cm.c_tip)
            ∧ cm'.n_tip = (if cSide then cm.n_tip else some tip) := by
  obtain ⟨cm, hcm, heq⟩ := setHubTip_ok_present hm h
  subst heq
  refine ⟨fun n' hne => alookup_aset_ne _ _ _ _ hne, _, alookup_aset_self _ _ _, ?_, ?_⟩
  · intro ch' hne
    exact alookup_aset_ne _ _ _ _ hne
  · refine ⟨cm, _, hcm, alookup_aset_self _ _ _, ?_, ?_⟩ <;> cases cSide <;> simp


theorem hubCfold_tips {ext : Externals} {h0 ch comp : String} {hub : PStructure}
    (b_names : List String) : ∀ {s s' : GenState} {hm : HubMeta},
    alookup s.modules_hubs h0 = some hm →
    foldExc (hubC_step ext h0 ch comp hub) b_names s = Except.ok s' →
    s'.n_to_c_tx = s.n_to_c_tx
    ∧ (∀ n', n' ≠ h0 → alookup s'.modules_hubs n' = alookup s.modules_hubs n')
    ∧ ∃ hm', alookup s'.modules_hubs h0 = some hm'
        ∧ (∀ ch', ch' ≠ ch → alookup hm'.chains ch' = alookup hm.chains ch')
        ∧ ((b_names = [] ∧ hm' = hm)
          ∨ (b_names ≠ [] ∧ ∃ cm cm', alookup hm.chains ch = some cm
              ∧ alookup hm'.chains ch = some cm'
              ∧ cm'.n_tip = cm.n_tip ∧ cm'.c_tip.isSome = true)) := by
  induction b_names with
  | nil =>
      intro s s' hm hhm hfold
      rw [foldExc_nil_ok hfold]
      exact ⟨rfl, fun _ _ => rfl, hm, hhm, fun _ _ => rfl, Or.inl ⟨rfl, rfl⟩⟩
  | cons b bs ih =>
      intro s s' hm hhm hfold
      rw [foldExc_cons_ok] at hfold
      obtain ⟨s1, hstep, hrest⟩ := hfold
      obtain ⟨sb, b_ch, rot, tran, tip, mh1, mh2, ms1, hsb, hbch, hmh1, hmh2, hms1, hs1⟩ :=
        hubC_step_ok hstep
      obtain ⟨hoth1, hmA, hlkA, hchA, cm, cmA, hcm, hcmA, hctA, hntA, _, _⟩ :=
        setHubNMapEntry_effects hhm hmh1
      obtain ⟨hoth2, hmB, hlkB, hchB, cm2, cmB, hcm2, hcmB, hctB, hntB⟩ :=
        setHubTip_effects hlkA hmh2
      have hcm2A : cm2 = cmA := by
        rw [hcmA] at hcm2
        exact (Option.some.inj hcm2).symm
      have hs1mh : s1.modules_hubs = mh2 := by rw [hs1]
      have hs1n : s1.n_to_c_tx = s.n_to_c_tx := by rw [hs1]
      have hlkB1 : alookup s1.modules_hubs h0 = some hmB := by rw [hs1mh]; exact hlkB
      obtain ⟨hn', hoth', hm'', hlk'', hch'', hdisj''⟩ := ih hlkB1 hrest
      refine ⟨by rw [hn', hs1n], ?_, hm'', hlk'', ?_, ?_⟩
      · intro n' hne
        rw [hoth' n' hne, hs1mh, hoth2 n' hne, hoth1 n' hne]
      · intro ch' hne
        rw [hch'' ch' hne, hchB ch' hne, hchA ch' hne]
      · right
        refine ⟨by simp, cm, ?_⟩
        rcases hdisj'' with ⟨hbs, heqm⟩ | ⟨hbs, cmX, cm', hcmX, hcm', hnt', hct'⟩
        · subst heqm
          refine ⟨cmB, hcm, hcmB, ?_, ?_⟩
          · rw [hntB, hcm2A, hntA]
            simp
          · rw [hctB]
            simp
        · have hcmXB : cmX = cmB := by
            rw [hcmB] at hcmX
            exact (Option.some.inj hcmX).symm
          refine ⟨cm', hcm, hcm', ?_, hct'⟩
          rw [hnt', hcmXB, hntB, hcm2A, hntA]
          simp

theorem hubNfold_tips {ext : Externals} {h0 ch comp : String} {hub : PStructure}
    (a_names : List String) : ∀ {s s' : GenState} {hm : HubMeta},
    alookup s.modules_hubs h0 = some hm →
    foldExc (hubN_step ext h0 ch comp hub) a_names s = Except.ok s' →
    s'.n_to_c_tx = s.n_to_c_tx
    ∧ (∀ n', n' ≠ h0 → alookup s'.modules_hubs n' = alookup s.modules_hubs n')
    ∧ ∃ hm', alookup s'.modules_hubs h0 = some hm'
        ∧ (∀ ch', ch' ≠ ch → alookup hm'.chains ch' = alookup hm.chains ch')
        ∧ ((a_names = [] ∧ hm' = hm)
          ∨ (a_names ≠ [] ∧ ∃ cm cm', alookup hm.chains ch = some cm
              ∧ alookup hm'.chains ch = some cm'
              ∧ cm'.c_tip = cm.c_tip ∧ cm'.n_tip.isSome = true)) := by
  induction a_names with
  | nil =>
      intro s s' hm hhm hfold
      rw [foldExc_nil_ok hfold]
      exact ⟨rfl, fun _ _ => rfl, hm, hhm, fun _ _ => rfl, Or.inl ⟨rfl, rfl⟩⟩
  | cons a as ih =>
      intro s s' hm hhm hfold
      rw [foldExc_cons_ok] at hfold
      obtain ⟨s1, hstep, hrest⟩ := hfold
      obtain ⟨sa, a_ch, rot, tran, tip, ms1, mh1, mh2, hsa, hach, hms1, hmh1, hmh2, hs1⟩ :=
        hubN_step_ok hstep
      obtain ⟨hoth1, hmA, hlkA, hchA, cm, cmA, hcm, hcmA, hctA, hntA, _, _⟩ :=
        setHubNMapEntry_effects hhm hmh1
      obtain ⟨hoth2, hmB, hlkB, hchB, cm2, cmB, hcm2, hcmB, hctB, hntB⟩ :=
        setHubTip_effects hlkA hmh2
      have hcm2A : cm2 = cmA := by
        rw [hcmA] at hcm2
        exact (Option.some.inj hcm2).symm
      have hs1mh : s1.modules_hubs = mh2 := by rw [hs1]
      have hs1n : s1.n_to_c_tx = s.n_to_c_tx := by rw [hs1]
      have hlkB1 : alookup s1.modules_hubs h0 = some hmB := by rw [hs1mh]; exact hlkB
      obtain ⟨hn', hoth', hm'', hlk'', hch'', hdisj''⟩ := ih hlkB1 hrest
      refine ⟨by rw [hn', hs1n], ?_, hm'', hlk'', ?_, ?_⟩
      · intro n' hne
        rw [hoth' n' hne, hs1mh, hoth2 n' hne, hoth1 n' hne]
      · intro ch' hne
        rw [hch'' ch' hne, hchB ch' hne, hchA ch' hne]
      · right
        refine ⟨by simp, cm, ?_⟩
        rcases hdisj'' with ⟨hbs, heqm⟩ | ⟨hbs, cmX, cm', hcmX, hcm', hct', hnt'⟩
        · subst heqm
          refine ⟨cmB, hcm, hcmB, ?_, ?_⟩
          · rw [hctB, hcm2A, hctA]
            simp
          · rw [hntB]
            simp
        · have hcmXB : cmX = cmB := by
            rw [hcmB] at hcmX
            exact (Option.some.inj hcmX).symm
          refine ⟨cm', hcm, hcm', ?_, hnt'⟩
          rw [hct', hcmXB, hctB, hcm2A, hctA]
          simp

theorem filter_map_nil_iff_no_pair_a (N : List Tx) (nm : String) :
    ((N.filter (fun tx => tx.mod_a = nm)).map (fun tx => tx.mod_b) = []
      ↔ hasPairFromA N nm = false) := by
  rw [List.map_eq_nil_iff, List.filter_eq_nil_iff, hasPairFromA]
  constructor
  · intro hf
    rw [List.any_eq_false]
    intro tx htx
    simpa using hf tx htx
  · intro hf tx htx
    rw [List.any_eq_false] at hf
    simpa using hf tx htx

theorem filter_map_nil_iff_no_pair_b (N : List Tx) (nm : String) :
    ((N.filter (fun tx => tx.mod_b = nm)).map (fun tx => tx.mod_a) = []
      ↔ hasPairToB N nm = false) := by
  rw [List.map_eq_nil_iff, List.filter_eq_nil_iff, hasPairToB]
  constructor
  · intro hf
    rw [List.any_eq_false]
    intro tx htx
    simpa using hf tx htx
  · intro hf tx htx
    rw [List.any_eq_false] at hf
    simpa using hf tx htx

theorem process_hub_chain_tips {ext : Externals} {h0 : String} {hub : PStructure}
    {entry : String × ChainData} {s s' : GenState} {hm : HubMeta}
    (hhm : alookup s.modules_hubs h0 = some hm)
    (h : process_hub_chain ext h0 hub entry s = Except.ok s') :
    s'.n_to_c_tx = s.n_to_c_tx
    ∧ (∀ n', n' ≠ h0 → alookup s'.modules_hubs n' = alookup s.modules_hubs n')
    ∧ ∃ hm', alookup s'.modules_hubs h0 = some hm'
        ∧ (∀ ch', ch' ≠ entry.1 → alookup hm'.chains ch' = alookup hm.chains ch')
        ∧ (alookup hm.chains entry.1 = none → alookup hm'.chains entry.1 = none)
        ∧ (∀ cm, alookup hm.chains entry.1 = some cm → cm.c_tip = none → cm.n_tip = none →
            ∃ cm', alookup hm'.chains entry.1 = some cm'
              ∧ TipsMatch s.n_to_c_tx entry.2 cm') := by
  obtain ⟨stc, hcdisj, hndisj⟩ := process_hub_chain_ok h
  -- c-side phase
  have hcRes : stc.n_to_c_tx = s.n_to_c_tx
      ∧ (∀ n', n' ≠ h0 → alookup stc.modules_hubs n' = alookup s.modules_hubs n')
      ∧ ∃ hmc, alookup stc.modules_hubs h0 = some hmc
          ∧ (∀ ch', ch' ≠ entry.1 → alookup hmc.chains ch' = alookup hm.chains ch')
          ∧ (alookup hm.chains entry.1 = none → alookup hmc.chains entry.1 = none)
          ∧ (∀ cm, alookup hm.chains entry.1 = some cm → cm.c_tip = none → cm.n_tip = none →
              ∃ cmc, alookup hmc.chains entry.1 = some cmc
                ∧ cmc.n_tip = none
                ∧ cmc.c_tip.isSome
                    = (entry.2.c_free && hasPairFromA s.n_to_c_tx entry.2.single_name)) := by
    rcases hcdisj with ⟨hcf, hfold⟩ | ⟨hcf, heq⟩
    · obtain ⟨hn, hoth, hmc, hlk, hch, hdisj⟩ := hubCfold_tips _ hhm hfold
      refine ⟨hn, hoth, hmc, hlk, hch, ?_, ?_⟩
      · intro hnone
        rcases hdisj with ⟨_, heqm⟩ | ⟨_, cm, cm', hcm, _, _, _⟩
        · rw [heqm]
          exact hnone
        · rw [hcm] at hnone
          exact absurd hnone (by simp)
      · intro cm hcm hct hnt
        rcases hdisj with ⟨hemp, heqm⟩ | ⟨hne, cmX, cmc, hcmX, hcmc, hntc, hctc⟩
        · refine ⟨cm, by rw [heqm]; exact hcm, hnt, ?_⟩
          rw [hct]
          have : hasPairFromA s.n_to_c_tx entry.2.single_name = false :=
            (filter_map_nil_iff_no_pair_a _ _).mp hemp
          rw [this, hcf]
          rfl
        · have hcmXv : cmX = cm := by
            rw [hcm] at hcmX
            exact (Option.some.inj hcmX).symm
          refine ⟨cmc, hcmc, by rw [hntc, hcmXv, hnt], ?_⟩
          have : hasPairFromA s.n_to_c_tx entry.2.single_name = true := by
            by_contra hcon
            rw [Bool.not_eq_true] at hcon
            exact hne ((filter_map_nil_iff_no_pair_a _ _).mpr hcon)
          rw [hctc, this, hcf]
          rfl
    · subst heq
      refine ⟨rfl, fun _ _ => rfl, hm, hhm, fun _ _ => rfl, fun hn => hn, ?_⟩
      intro cm hcm hct hnt
      refine ⟨cm, hcm, hnt, ?_⟩
      rw [hct, hcf]
      rfl
  obtain ⟨hcn, hcoth, hmc, hclk, hcch, hcnone, hctips⟩ := hcRes
  -- n-side phase
  rcases hndisj with ⟨hnf, hfold⟩ | ⟨hnf, heq⟩
  · obtain ⟨hn, hoth, hmn, hlk, hch, hdisj⟩ := hubNfold_tips _ hclk hfold
    refine ⟨by rw [hn, hcn], ?_, hmn, hlk, ?_, ?_, ?_⟩
    · intro n' hne
      rw [hoth n' hne, hcoth n' hne]
    · intro ch' hne
      rw [hch ch' hne, hcch ch' hne]
    · intro hnone
      rcases hdisj with ⟨_, heqm⟩ | ⟨_, cm, cm', hcm, _, _, _⟩
      · rw [heqm]
        exact hcnone hnone
      · rw [hcnone hnone] at hcm
        exact absurd hcm (by simp)
    · intro cm hcm hct hnt
      obtain ⟨cmc, hcmc, hcmcn, hcmcc⟩ := hctips cm hcm hct hnt
      rcases hdisj with ⟨hemp, heqm⟩ | ⟨hne, cmX, cm', hcmX, hcm', hctp, hntp⟩
      · refine ⟨cmc, by rw [heqm]; exact hcmc, hcmcc, ?_⟩
        rw [hcmcn]
        have : hasPairToB stc.n_to_c_tx entry.2.single_name = false :=
          (filter_map_nil_iff_no_pair_b _ _).mp hemp
        rw [hcn] at this
        rw [this, hnf]
        rfl
      · have hcmXv : cmX = cmc := by
          rw [hcmc] at hcmX
          exact (Option.some.inj hcmX).symm
        refine ⟨cm', hcm', by rw [hctp, hcmXv]; exact hcmcc, ?_⟩
        have : hasPairToB stc.n_to_c_tx entry.2.single_name = true := by
          by_contra hcon
          rw [Bool.not_eq_true] at hcon
          exact hne ((filter_map_nil_iff_no_pair_b _ _).mpr hcon)
        rw [hcn] at this
        rw [hntp, this, hnf]
        rfl
  · subst heq
    refine ⟨hcn, hcoth, hmc, hclk, hcch, hcnone, ?_⟩
    intro cm hcm hct hnt
    obtain ⟨cmc, hcmc, hcmcn, hcmcc⟩ := hctips cm hcm hct hnt
    refine ⟨cmc, hcmc, hcmcc, ?_⟩
    rw [hcmcn, hnf]
    rfl

theorem process_hub_tips {ext : Externals} {hub_info : HubInfo} {fn : String}
    {hs : PStructure} {st st' : GenState}
    (hWFc : ∀ e ∈ hub_info, ((e.2.component_data.map Prod.fst).Nodup))
    (h : process_hub ext hub_info fn hs st = Except.ok st') :
    st'.n_to_c_tx = st.n_to_c_tx
    ∧ (∀ n', n' ≠ moduleNameOfFile fn →
        alookup st'.modules_hubs n' = alookup st.modules_hubs n')
    ∧ ∀ hi, alookup hub_info (moduleNameOfFile fn) = some hi →
      ∀ hmeta, alookup st'.modules_hubs (moduleNameOfFile fn) = some hmeta →
      ∀ ch cd, alookup hi.component_data ch = some cd →
      ∀ cm, alookup hmeta.chains ch = some cm → TipsMatch st.n_to_c_tx cd cm := by
  obtain ⟨hub, hub_meta, chainsMeta, radii, stMid, hmv, hhm, hbuild, hfold, hst⟩ :=
    process_hub_ok h
  have hnd : (hub_meta.component_data.map Prod.fst).Nodup :=
    hWFc _ (alookup_mem hhm)
  have hmain := foldExc_rem (process_hub_chain ext (moduleNameOfFile fn) hub)
    (fun rem s =>
      s.n_to_c_tx = st.n_to_c_tx
      ∧ (∀ n', n' ≠ moduleNameOfFile fn →
          alookup s.modules_hubs n' = alookup st.modules_hubs n')
      ∧ (rem.map Prod.fst).Nodup
      ∧ (∀ e ∈ rem, alookup hub_meta.component_data e.1 = some e.2)
      ∧ ∃ hm, alookup s.modules_hubs (moduleNameOfFile fn) = some hm
          ∧ ∀ ch cm, alookup hm.chains ch = some cm →
              (ch ∈ rem.map Prod.fst → cm.c_tip = none ∧ cm.n_tip = none)
              ∧ (ch ∉ rem.map Prod.fst →
                  ∀ cd, alookup hub_meta.component_data ch = some cd →
                    TipsMatch st.n_to_c_tx cd cm))
    (by
      intro e rest s s' hP hstep
      obtain ⟨hsn, hsoth, hndk, hmem, hm, hlk, hprops⟩ := hP
      obtain ⟨hn', hoth', hm', hlk', hch', hnone', htips'⟩ :=
        process_hub_chain_tips hlk hstep
      have hheadnotin : e.1 ∉ rest.map Prod.fst := (List.nodup_cons.mp hndk).1
      refine ⟨by rw [hn', hsn], ?_, (List.nodup_cons.mp hndk).2, ?_, hm', hlk', ?_⟩
      · intro n' hne
        rw [hoth' n' hne, hsoth n' hne]
      · intro e2 he2
        exact hmem e2 (List.mem_cons_of_mem _ he2)
      · intro ch cm hcm
        by_cases hch : ch = e.1
        · subst hch
          constructor
          · intro hmemr
            exact absurd hmemr hheadnotin
          · intro _ cd hcd
            have hcde : cd = e.2 := by
              have := hmem e (List.mem_cons_self _ _)
              rw [this] at hcd
              exact (Option.some.inj hcd).symm
            subst hcde
            cases hold : alookup hm.chains e.1 with
            | none =>
                rw [hnone' hold] at hcm
                exact absurd hcm (by simp)
            | some cm0 =>
                have htipsnone := (hprops e.1 cm0 hold).1
                  (by exact List.mem_map_of_mem Prod.fst (List.mem_cons_self _ _))
                obtain ⟨cm'', hcm'', htm⟩ :=
                  htips' cm0 hold htipsnone.1 htipsnone.2
                have : cm = cm'' := by
                  rw [hcm''] at hcm
                  exact (Option.some.inj hcm).symm
                subst this
                rw [← hsn]
                exact htm
        · have hsame : alookup hm.chains ch = some cm := by
            rw [← hch' ch hch]
            exact hcm
          have hold := hprops ch cm hsame
          constructor
          · intro hmemr
            exact hold.1 (by
              rw [List.map_cons]
              exact List.mem_cons_of_mem _ hmemr)
          · intro hnmem cd hcd
            apply hold.2 ?_ cd hcd
            intro hmemc
            rw [List.map_cons] at hmemc
            rcases List.mem_cons.mp hmemc with h1 | h2
            · exact hch h1
            · exact hnmem h2)
    hub_meta.component_data _ stMid
    (by
      refine ⟨rfl, ?_, hnd, ?_, ?_⟩
      · intro n' hne
        exact alookup_aset_ne _ _ _ _ hne
      · intro e he
        exact alookup_of_mem_nodup hnd he
      · refine ⟨⟨chainsMeta, some radii⟩, alookup_aset_self _ _ _, ?_⟩
        intro ch cm hcm
        constructor
        · intro _
          exact buildHubChainsMeta_tips hbuild ch cm hcm
        · intro hnmem cd hcd
          exact absurd (List.mem_map_of_mem Prod.fst (alookup_mem hcd)) hnmem)
    hfold
  obtain ⟨hn, hoth, _, _, hm, hlk, hprops⟩ := hmain
  have hstn : st'.n_to_c_tx = stMid.n_to_c_tx := by rw [hst]
  have hstmh : st'.modules_hubs = stMid.modules_hubs := by rw [hst]
  refine ⟨by rw [hstn, hn], ?_, ?_⟩
  · intro n' hne
    rw [hstmh, hoth n' hne]
  · intro hi hhi hmeta hlk2 ch cd hcd cm hcm
    have hie : hi = hub_meta := by
      rw [hhm] at hhi
      exact (Option.some.inj hhi).symm
    subst hie
    rw [hstmh] at hlk2
    have : hmeta = hm := by
      rw [hlk] at hlk2
      exact (Option.some.inj hlk2).symm
    subst this
    exact (hprops ch cm hcm).2 (by simp) cd hcd

theorem filter_pair_append {l1 l2 : List Tx}
    (h1 : ∀ tx ∈ l1, tx.source = TxSource.pair)
    (h2 : ∀ tx ∈ l2, tx.source ≠ TxSource.pair) :
    (l1 ++ l2).filter (fun tx => tx.source = TxSource.pair) = l1 := by
  rw [List.filter_append]
  rw [List.filter_eq_self.mpr (by
    intro tx htx
    simpa using h1 tx htx)]
  rw [List.filter_eq_nil_iff.mpr (by
    intro tx htx
    simpa using h2 tx htx)]
  exact List.append_nil l1

/-- C9: in a completed well-formed run, a hub chain's `c_tip`
(respectively `n_tip`) holds a tip vector if and only if the chain is
flagged `c_free` (`n_free`) and at least one pair-derived edge has the
chain's component single as its A endpoint (B endpoint); otherwise it
keeps its initial empty-mapping value. -/
theorem hub_tips_iff {ext : Externals} {hub_info : HubInfo}
    {sf df hf : List (String × PStructure)} {st' : GenState}
    (hWF : WFInputs hub_info sf df hf)
    (h : dbgen_run ext hub_info sf df hf = Except.ok st') :
    ∀ name hmeta, alookup st'.modules_hubs name = some hmeta →
    ∀ hi, alookup hub_info name = some hi →
    ∀ ch cd, alookup hi.component_data ch = some cd →
    ∀ cm, alookup hmeta.chains ch = some cm →
      cm.c_tip.isSome = (cd.c_free && hasPairFromA
        (st'.n_to_c_tx.filter (fun tx => tx.source = TxSource.pair)) cd.single_name)
      ∧ cm.n_tip.isSome = (cd.n_free && hasPairToB
        (st'.n_to_c_tx.filter (fun tx => tx.source = TxSource.pair)) cd.single_name) := by
  obtain ⟨st1, st2, st3, h1, h2, h3, hfin⟩ := dbgen_run_ok_inv h
  obtain ⟨hWFd, hWFh, hWFdisj, hWFc, hWFchains⟩ := hWF
  have P1 := foldExc_inv _
    (fun s => (IdsOrdered s ∧ SourcesTagged s) ∧ s.hub_tx = [] ∧ s.modules_hubs = [])
    (fun fp s s' hP hf0 => by
      obtain ⟨hN, hH, hMH⟩ := process_single_tx_pres hf0
      refine ⟨⟨?_, ?_, ?_⟩, by rw [hH]; exact hP.2.1, by rw [hMH]; exact hP.2.2⟩
      · unfold IdsOrdered allTx at hP ⊢
        rw [hN, hH]
        exact hP.1.1
      · intro tx htx
        rw [hN] at htx
        exact hP.1.2.1 tx htx
      · intro tx htx
        rw [hH] at htx
        exact hP.1.2.2 tx htx)
    sf GenState.init st1
    ⟨⟨rfl, by intro tx htx; simp [GenState.init] at htx,
      by intro tx htx; simp [GenState.init] at htx⟩, rfl, rfl⟩ h1
  have P2 := foldExc_inv _
    (fun s => (IdsOrdered s ∧ SourcesTagged s) ∧ s.hub_tx = [] ∧ s.modules_hubs = [])
    (fun fp s s' hP hf0 => by
      obtain ⟨tx, hN, hid, hsrc, hH, hMH⟩ := process_double_tx_pres hf0
      exact ⟨⟨ids_append_pair hN hH hP.2.1 hid hP.1.1,
        sources_append_pair hN hH hsrc hP.1.2⟩,
        by rw [hH]; exact hP.2.1, by rw [hMH]; exact hP.2.2⟩)
    df st1 st2 P1 h2
  have P3 := foldExc_rem _
    (fun rem s =>
      (IdsOrdered s ∧ SourcesTagged s)
      ∧ (rem.map (fun fp => moduleNameOfFile fp.1)).Nodup
      ∧ (∀ name hmeta, alookup s.modules_hubs name = some hmeta →
          name ∉ rem.map (fun fp => moduleNameOfFile fp.1))
      ∧ s.n_to_c_tx = st2.n_to_c_tx
      ∧ (∀ name hmeta, alookup s.modules_hubs name = some hmeta →
          ∀ hi, alookup hub_info name = some hi →
          ∀ ch cd, alookup hi.component_data ch = some cd →
          ∀ cm, alookup hmeta.chains ch = some cm →
            TipsMatch st2.n_to_c_tx cd cm))
    (fun fp rest s s' hP hstep => by
      obtain ⟨hcore, hndk, hdom, hsn, htips⟩ := hP
      have hcore' := process_hub_core_pres hcore hstep
      obtain ⟨hn', hoth', hown⟩ := process_hub_tips hWFc hstep
      refine ⟨hcore', (List.nodup_cons.mp hndk).2, ?_, by rw [hn', hsn], ?_⟩
      · intro name hmeta hlk
        by_cases hname : name = moduleNameOfFile fp.1
        · subst hname
          exact (List.nodup_cons.mp hndk).1
        · rw [hoth' name hname] at hlk
          intro hmem
          exact hdom name hmeta hlk (List.mem_cons_of_mem _ hmem)
      · intro name hmeta hlk hi hhi ch cd hcd cm hcm
        by_cases hname : name = moduleNameOfFile fp.1
        · subst hname
          have := hown hi hhi hmeta hlk ch cd hcd cm hcm
          rw [hsn] at this
          exact this
        · rw [hoth' name hname] at hlk
          exact htips name hmeta hlk hi hhi ch cd hcd cm hcm)
    hf st2 st3
    ⟨P2.1, hWFh, ?_, rfl, ?_⟩ h3
  rotate_left
  · intro name hmeta hlk
    rw [P2.2.2] at hlk
    simp [alookup] at hlk
  · intro name hmeta hlk
    rw [P2.2.2] at hlk
    simp [alookup] at hlk
  obtain ⟨hcore3, _, _, hn3, htips3⟩ := P3
  have hmh : st'.modules_hubs = st3.modules_hubs := by rw [hfin]
  have hflt : st'.n_to_c_tx.filter (fun tx => tx.source = TxSource.pair)
      = st2.n_to_c_tx := by
    have : st'.n_to_c_tx = st3.n_to_c_tx ++ st3.hub_tx := by rw [hfin]
    rw [this, filter_pair_append hcore3.2.1 hcore3.2.2, hn3]
  intro name hmeta hlk hi hhi ch cd hcd cm hcm
  rw [hmh] at hlk
  have := htips3 name hmeta hlk hi hhi ch cd hcd cm hcm
  rw [hflt]
  exact this

theorem hub_tips_iff_witness :
    (wCmX.c_tip.isSome = (wCdX.c_free && hasPairFromA
        (wFinal.n_to_c_tx.filter (fun tx => tx.source = TxSource.pair)) wCdX.single_name)
      ∧ wCmX.n_tip.isSome = (wCdX.n_free && hasPairToB
        (wFinal.n_to_c_tx.filter (fun tx => tx.source = TxSource.pair)) wCdX.single_name))
    ∧ (wCmY.c_tip.isSome = (wCdY.c_free && hasPairFromA
        (wFinal.n_to_c_tx.filter (fun tx => tx.source = TxSource.pair)) wCdY.single_name)
      ∧ wCmY.n_tip.isSome = (wCdY.n_free && hasPairToB
        (wFinal.n_to_c_tx.filter (fun tx => tx.source = TxSource.pair)) wCdY.single_name)) :=
  ⟨hub_tips_iff (by with_unfolding_all decide)
      (by with_unfolding_all rfl :
        dbgen_run wExt wHubInfo wSingleFiles wDoubleFiles wHubFiles = Except.ok wFinal)
      "H" wHubMeta (by with_unfolding_all rfl) wHi (by with_unfolding_all rfl)
      "X" wCdX (by with_unfolding_all rfl) wCmX (by with_unfolding_all rfl),
   hub_tips_iff (by with_unfolding_all decide)
      (by with_unfolding_all rfl :
        dbgen_run wExt wHubInfo wSingleFiles wDoubleFiles wHubFiles = Except.ok wFinal)
      "H" wHubMeta (by with_unfolding_all rfl) wHi (by with_unfolding_all rfl)
      "Y" wCdY (by with_unfolding_all rfl) wCmY (by with_unfolding_all rfl)⟩

theorem alookup_cons {κ ν : Type} [DecidableEq κ] (e : κ × ν) (m : List (κ × ν)) (k : κ) :
    alookup (e :: m) k = if e.1 = k then some e.2 else alookup m k := by
  by_cases h : e.1 = k
  · simp [alookup, List.find?_cons, h]
  · simp only [alookup, List.find?_cons]
    rw [show (decide (e.1 = k)) = false from by simp [h], if_neg h]

theorem aset_mem_weak {κ ν : Type} [DecidableEq κ] {m : List (κ × ν)} {k : κ} {v : ν}
    {e : κ × ν} (h : e ∈ aset m k v) : e = (k, v) ∨ e ∈ m := by
  induction m with
  | nil =>
      simp [aset] at h
      exact Or.inl h
  | cons f rest ih =>
      by_cases hf : f.1 = k
      · simp only [aset, hf, if_true] at h
        rcases List.mem_cons.mp h with h1 | h2
        · exact Or.inl h1
        · exact Or.inr (List.mem_cons_of_mem _ h2)
      · simp only [aset, hf, if_false] at h
        rcases List.mem_cons.mp h with h1 | h2
        · exact Or.inr (h1 ▸ List.mem_cons_self _ _)
        · rcases ih h2 with h3 | h3
          · exact Or.inl h3
          · exact Or.inr (List.mem_cons_of_mem _ h3)

theorem nmapCountVal_eq_one {m : NMap} {K : String × String} {k : ℕ}
    (hl : alookup m K = some k) (hnd : (m.map Prod.fst).Nodup)
    (huniq : ∀ e ∈ m, e.2 = k → e.1 = K) : nmapCountVal m k = 1 := by
  induction m with
  | nil => simp [alookup] at hl
  | cons e rest ih =>
      have hhead := (List.nodup_cons.mp hnd).1
      have hnd' := (List.nodup_cons.mp hnd).2
      by_cases he : e.1 = K
      · have hv : e.2 = k := by
          rw [alookup_cons, if_pos he] at hl
          exact Option.some.inj hl
        have hrest : rest.filter (fun f => decide (f.2 = k)) = [] := by
          apply List.filter_eq_nil.mpr
          intro f hf
          simp only [decide_eq_true_eq]
          intro hfk
          apply hhead
          have hfK : f.1 = K := huniq f (List.mem_cons_of_mem _ hf) hfk
          rw [he, ← hfK]
          exact List.mem_map_of_mem Prod.fst hf
        unfold nmapCountVal
        rw [List.filter_cons, if_pos (by simp [hv]), hrest]
        rfl
      · have hv : e.2 ≠ k := fun hk => he (huniq e (List.mem_cons_self _ _) hk)
        have hl' : alookup rest K = some k := by
          rw [alookup_cons, if_neg he] at hl
          exact hl
        have := ih hl' hnd' (fun f hf => huniq f (List.mem_cons_of_mem _ hf))
        unfold nmapCountVal at this ⊢
        rw [List.filter_cons, if_neg (by simp [hv])]
        exact this

theorem get?_append_left {α : Type} {l l2 : List α} {j : ℕ} {a : α}
    (h : l.get? j = some a) : (l ++ l2).get? j = some a := by
  have hj : j < l.length := by
    by_contra hge
    rw [List.get?_eq_none.mpr (Nat.le_of_not_lt hge)] at h
    exact Option.noConfusion h
  rw [List.get?_append hj]
  exact h

theorem get?_concat {α : Type} (l : List α) (a : α) :
    (l ++ [a]).get? l.length = some a := List.get?_concat_length l a

theorem sEntry_set_self {ms ms' : List (String × SingleMeta)} {name ch : String}
    {cSide : Bool} {key : String × String} {v : ℕ}
    (h : setSingleNMapEntry ms name ch cSide key v = Except.ok ms') :
    sEntry ms' name ch cSide key = some v := by
  unfold setSingleNMapEntry at h
  split at h
  next hnone =>
    simp only [Except.ok.injEq] at h
    subst h
    unfold sEntry
    rw [alookup_aset_self]
    cases cSide <;>
      simp [alookup_cons, alookup]
  next meta hsome =>
    split at h
    next => simp at h
    next cm hcm =>
      simp only [Except.ok.injEq] at h
      subst h
      unfold sEntry
      rw [alookup_aset_self]
      simp only [Option.some_bind]
      rw [alookup_aset_self]
      simp only [Option.some_bind]
      cases cSide <;> simp [alookup_aset_self]

theorem sEntry_set_ne {ms ms' : List (String × SingleMeta)} {name ch : String}
    {cSide : Bool} {key : String × String} {v : ℕ} {n' ch' : String} {s' : Bool}
    {k' : String × String}
    (h : setSingleNMapEntry ms name ch cSide key v = Except.ok ms')
    (hne : ¬(n' = name ∧ ch' = ch ∧ s' = cSide ∧ k' = key)) :
    sEntry ms' n' ch' s' k' = sEntry ms n' ch' s' k' := by
  by_cases h1 : n' = name
  · subst h1
    unfold setSingleNMapEntry at h
    split at h
    next hnone =>
      simp only [Except.ok.injEq] at h
      subst h
      unfold sEntry
      rw [alookup_aset_self, hnone]
      simp only [Option.some_bind, Option.none_bind]
      by_cases h2 : ch' = ch
      · subst h2
        rw [alookup_cons, if_pos rfl]
        simp only [Option.some_bind]
        by_cases h3 : s' = cSide
        · subst h3
          have h4 : k' ≠ key := fun hk => hne ⟨rfl, rfl, rfl, hk⟩
          cases s' <;>
            simp [alookup_cons, alookup, Ne.symm h4]
        · cases cSide <;> cases s' <;> simp_all <;> simp [alookup]
      · rw [alookup_cons, if_neg (fun hc => h2 hc.symm)]
        simp [alookup]
    next meta hsome =>
      split at h
      next => simp at h
      next cm hcm =>
        simp only [Except.ok.injEq] at h
        subst h
        unfold sEntry
        rw [alookup_aset_self, hsome]
        simp only [Option.some_bind]
        by_cases h2 : ch' = ch
        · subst h2
          rw [alookup_aset_self, hcm]
          simp only [Option.some_bind]
          by_cases h3 : s' = cSide
          · subst h3
            have h4 : k' ≠ key := fun hk => hne ⟨rfl, rfl, rfl, hk⟩
            cases s' <;> simp [alookup_aset_ne _ _ _ _ h4]
          · cases cSide <;> cases s' <;> simp_all
        · rw [alookup_aset_ne _ _ _ _ h2]
  · obtain ⟨meta', hm⟩ := setSingleNMapEntry_shape h
    subst hm
    unfold sEntry
    rw [alookup_aset_ne _ _ _ _ h1]

theorem hEntry_set_self {mh mh' : List (String × HubMeta)} {name ch : String}
    {cSide : Bool} {key : String × String} {v : ℕ}
    (h : setHubNMapEntry mh name ch cSide key v = Except.ok mh') :
    hEntry mh' name ch cSide key = some v := by
  unfold setHubNMapEntry at h
  split at h
  next hnone =>
    simp only [Except.ok.injEq] at h
    subst h
    unfold hEntry
    rw [alookup_aset_self]
    cases cSide <;>
      simp [alookup_cons, alookup]
  next meta hsome =>
    split at h
    next => simp at h
    next cm hcm =>
      simp only [Except.ok.injEq] at h
      subst h
      unfold hEntry
      rw [alookup_aset_self]
      simp only [Option.some_bind]
      rw [alookup_aset_self]
      simp only [Option.some_bind]
      cases cSide <;> simp [alookup_aset_self]

theorem hEntry_set_ne {mh mh' : List (String × HubMeta)} {name ch : String}
    {cSide : Bool} {key : String × String} {v : ℕ} {n' ch' : String} {s' : Bool}
    {k' : String × String}
    (h : setHubNMapEntry mh name ch cSide key v = Except.ok mh')
    (hne : ¬(n' = name ∧ ch' = ch ∧ s' = cSide ∧ k' = key)) :
    hEntry mh' n' ch' s' k' = hEntry mh n' ch' s' k' := by
  by_cases h1 : n' = name
  · subst h1
    unfold setHubNMapEntry at h
    split at h
    next hnone =>
      simp only [Except.ok.injEq] at h
      subst h
      unfold hEntry
      rw [alookup_aset_self, hnone]
      simp only [Option.some_bind, Option.none_bind]
      by_cases h2 : ch' = ch
      · subst h2
        rw [alookup_cons, if_pos rfl]
        simp only [Option.some_bind]
        by_cases h3 : s' = cSide
        · subst h3
          have h4 : k' ≠ key := fun hk => hne ⟨rfl, rfl, rfl, hk⟩
          cases s' <;>
            simp [alookup_cons, alookup, Ne.symm h4]
        · cases cSide <;> cases s' <;> simp_all <;> simp [alookup]
      · rw [alookup_cons, if_neg (fun hc => h2 hc.symm)]
        simp [alookup]
    next meta hsome =>
      split at h
      next => simp at h
      next cm hcm =>
        simp only [Except.ok.injEq] at h
        subst h
        unfold hEntry
        rw [alookup_aset_self, hsome]
        simp only [Option.some_bind]
        by_cases h2 : ch' = ch
        · subst h2
          rw [alookup_aset_self, hcm]
          simp only [Option.some_bind]
          by_cases h3 : s' = cSide
          · subst h3
            have h4 : k' ≠ key := fun hk => hne ⟨rfl, rfl, rfl, hk⟩
            cases s' <;> simp [alookup_aset_ne _ _ _ _ h4]
          · cases cSide <;> cases s' <;> simp_all
        · rw [alookup_aset_ne _ _ _ _ h2]
  · obtain ⟨meta', hm⟩ := setHubNMapEntry_shape h
    subst hm
    unfold hEntry
    rw [alookup_aset_ne _ _ _ _ h1]

theorem hEntry_tip_eq {mh mh' : List (String × HubMeta)} {name ch : String}
    {cSide : Bool} {tip : Vec3}
    (h : setHubTip mh name ch cSide tip = Except.ok mh') :
    ∀ n' ch' s' k', hEntry mh' n' ch' s' k' = hEntry mh n' ch' s' k' := by
  intro n' ch' s' k'
  by_cases h1 : n' = name
  · subst h1
    unfold setHubTip at h
    split at h
    next hnone =>
      simp only [Except.ok.injEq] at h
      subst h
      unfold hEntry
      rw [alookup_aset_self, hnone]
      simp only [Option.some_bind, Option.none_bind]
      by_cases h2 : ch' = ch
      · subst h2
        rw [alookup_cons, if_pos rfl]
        simp only [Option.some_bind]
        cases cSide <;> cases s' <;> simp [alookup]
      · rw [alookup_cons, if_neg (fun hc => h2 hc.symm)]
        simp [alookup]
    next meta hsome =>
      split at h
      next => simp at h
      next cm hcm =>
        simp only [Except.ok.injEq] at h
        subst h
        unfold hEntry
        rw [alookup_aset_self, hsome]
        simp only [Option.some_bind]
        by_cases h2 : ch' = ch
        · subst h2
          rw [alookup_aset_self, hcm]
          simp only [Option.some_bind]
          cases cSide <;> cases s' <;> simp
        · rw [alookup_aset_ne _ _ _ _ h2]
  · obtain ⟨meta', hm⟩ := setHubTip_shape h
    subst hm
    unfold hEntry
    rw [alookup_aset_ne _ _ _ _ h1]

theorem fwd_sset {T : List Tx} {ms ms' : List (String × SingleMeta)}
    {mh : List (String × HubMeta)} {name ch : String} {cSide : Bool}
    {key : String × String} {v : ℕ}
    (hset : setSingleNMapEntry ms name ch cSide key v = Except.ok ms')
    (hF : FwdEntries T ms mh)
    (hfresh : ∀ j t, T.get? j = some t →
      if cSide
      then ¬(t.source ≠ TxSource.hubC ∧ t.mod_a = name ∧ t.mod_a_chain = ch
          ∧ (t.mod_b, t.mod_b_chain) = key)
      else ¬(t.source ≠ TxSource.hubN ∧ t.mod_b = name ∧ t.mod_b_chain = ch
          ∧ (t.mod_a, t.mod_a_chain) = key)) :
    FwdEntries T ms' mh := by
  intro j t hj
  obtain ⟨hA, hB⟩ := hF j t hj
  have hfr := hfresh j t hj
  constructor
  · by_cases hs : t.source = TxSource.hubC
    · rw [if_pos hs] at hA ⊢
      exact hA
    · rw [if_neg hs] at hA ⊢
      rw [sEntry_set_ne hset ?_]
      · exact hA
      · intro ⟨h1, h2, h3, h4⟩
        cases cSide with
        | true => exact (if_pos rfl ▸ hfr : ¬_) ⟨hs, h1, h2, h4⟩
        | false => exact Bool.noConfusion h3
  · by_cases hs : t.source = TxSource.hubN
    · rw [if_pos hs] at hB ⊢
      exact hB
    · rw [if_neg hs] at hB ⊢
      rw [sEntry_set_ne hset ?_]
      · exact hB
      · intro ⟨h1, h2, h3, h4⟩
        cases cSide with
        | true => exact Bool.noConfusion h3
        | false => exact (if_neg (Bool.false_ne_true) ▸ hfr : ¬_) ⟨hs, h1, h2, h4⟩

theorem fwd_hset {T : List Tx} {ms : List (String × SingleMeta)}
    {mh mh' : List (String × HubMeta)} {name ch : String} {cSide : Bool}
    {key : String × String} {v : ℕ}
    (hset : setHubNMapEntry mh name ch cSide key v = Except.ok mh')
    (hF : FwdEntries T ms mh)
    (hfresh : ∀ j t, T.get? j = some t →
      if cSide
      then ¬(t.source = TxSource.hubC ∧ t.mod_a = name ∧ t.mod_a_chain = ch
          ∧ (t.mod_b, t.mod_b_chain) = key)
      else ¬(t.source = TxSource.hubN ∧ t.mod_b = name ∧ t.mod_b_chain = ch
          ∧ (t.mod_a, t.mod_a_chain) = key)) :
    FwdEntries T ms mh' := by
  intro j t hj
  obtain ⟨hA, hB⟩ := hF j t hj
  have hfr := hfresh j t hj
  constructor
  · by_cases hs : t.source = TxSource.hubC
    · rw [if_pos hs] at hA ⊢
      rw [hEntry_set_ne hset ?_]
      · exact hA
      · intro ⟨h1, h2, h3, h4⟩
        cases cSide with
        | true => exact (if_pos rfl ▸ hfr : ¬_) ⟨hs, h1, h2, h4⟩
        | false => exact Bool.noConfusion h3
    · rw [if_neg hs] at hA ⊢
      exact hA
  · by_cases hs : t.source = TxSource.hubN
    · rw [if_pos hs] at hB ⊢
      rw [hEntry_set_ne hset ?_]
      · exact hB
      · intro ⟨h1, h2, h3, h4⟩
        cases cSide with
        | true => exact Bool.noConfusion h3
        | false => exact (if_neg (Bool.false_ne_true) ▸ hfr : ¬_) ⟨hs, h1, h2, h4⟩
    · rw [if_neg hs] at hB ⊢
      exact hB

theorem fwd_htip {T : List Tx} {ms : List (String × SingleMeta)}
    {mh mh' : List (String × HubMeta)} {name ch : String} {cSide : Bool} {tip : Vec3}
    (hset : setHubTip mh name ch cSide tip = Except.ok mh')
    (hF : FwdEntries T ms mh) : FwdEntries T ms mh' := by
  intro j t hj
  obtain ⟨hA, hB⟩ := hF j t hj
  rw [← hEntry_tip_eq hset t.mod_a t.mod_a_chain true (t.mod_b, t.mod_b_chain)] at hA
  rw [← hEntry_tip_eq hset t.mod_b t.mod_b_chain false (t.mod_a, t.mod_a_chain)] at hB
  exact ⟨hA, hB⟩

theorem fwd_snoc {T : List Tx} {ms : List (String × SingleMeta)}
    {mh : List (String × HubMeta)} {tx : Tx}
    (hF : FwdEntries T ms mh)
    (hA : (if tx.source = TxSource.hubC
      then hEntry mh tx.mod_a tx.mod_a_chain true (tx.mod_b, tx.mod_b_chain)
      else sEntry ms tx.mod_a tx.mod_a_chain true (tx.mod_b, tx.mod_b_chain))
        = some T.length)
    (hB : (if tx.source = TxSource.hubN
      then hEntry mh tx.mod_b tx.mod_b_chain false (tx.mod_a, tx.mod_a_chain)
      else sEntry ms tx.mod_b tx.mod_b_chain false (tx.mod_a, tx.mod_a_chain))
        = some T.length) :
    FwdEntries (T ++ [tx]) ms mh := by
  intro j t hj
  rcases lt_trichotomy j T.length with hlt | heq | hgt
  · rw [List.get?_append hlt] at hj
    exact hF j t hj
  · subst heq
    rw [get?_concat] at hj
    have ht : t = tx := (Option.some.inj hj).symm
    subst ht
    exact ⟨hA, hB⟩
  · exfalso
    have : (T ++ [tx]).get? j = none := by
      apply List.get?_eq_none.mpr
      rw [List.length_append, List.length_singleton]
      omega
    rw [this] at hj
    exact Option.noConfusion hj

theorem fwd_hoverwrite {T : List Tx} {ms : List (String × SingleMeta)}
    {mh : List (String × HubMeta)} {H : String} {meta0 : HubMeta}
    (hF : FwdEntries T ms mh)
    (hfresh : ∀ j t, T.get? j = some t →
        (t.source = TxSource.hubC → t.mod_a ≠ H)
        ∧ (t.source = TxSource.hubN → t.mod_b ≠ H)) :
    FwdEntries T ms (aset mh H meta0) := by
  intro j t hj
  obtain ⟨hA, hB⟩ := hF j t hj
  have hfr := hfresh j t hj
  constructor
  · by_cases hs : t.source = TxSource.hubC
    · rw [if_pos hs] at hA ⊢
      unfold hEntry at hA ⊢
      rw [alookup_aset_ne _ _ _ _ (hfr.1 hs)]
      exact hA
    · rw [if_neg hs] at hA ⊢
      exact hA
  · by_cases hs : t.source = TxSource.hubN
    · rw [if_pos hs] at hB ⊢
      unfold hEntry at hB ⊢
      rw [alookup_aset_ne _ _ _ _ (hfr.2 hs)]
      exact hB
    · rw [if_neg hs] at hB ⊢
      exact hB

theorem sOrigins_ext {T T' : List Tx} {ms : List (String × SingleMeta)}
    (h : SOrigins T ms)
    (hext : ∀ j t, T.get? j = some t → T'.get? j = some t) : SOrigins T' ms := by
  intro n meta hm ch cm hcm
  obtain ⟨hc, hn⟩ := h n meta hm ch cm hcm
  constructor
  · intro e he
    obtain ⟨tx, h1, h2⟩ := hc e he
    exact ⟨tx, hext _ _ h1, h2⟩
  · intro e he
    obtain ⟨tx, h1, h2⟩ := hn e he
    exact ⟨tx, hext _ _ h1, h2⟩

theorem hOrigins_ext {T T' : List Tx} {mh : List (String × HubMeta)}
    (h : HOrigins T mh)
    (hext : ∀ j t, T.get? j = some t → T'.get? j = some t) : HOrigins T' mh := by
  intro n meta hm ch cm hcm
  obtain ⟨hc, hn⟩ := h n meta hm ch cm hcm
  constructor
  · intro e he
    obtain ⟨tx, h1, h2⟩ := hc e he
    exact ⟨tx, hext _ _ h1, h2⟩
  · intro e he
    obtain ⟨tx, h1, h2⟩ := hn e he
    exact ⟨tx, hext _ _ h1, h2⟩

theorem sOrigins_set {T : List Tx} {ms ms' : List (String × SingleMeta)}
    {name ch : String} {cSide : Bool} {key : String × String} {v : ℕ}
    (hset : setSingleNMapEntry ms name ch cSide key v = Except.ok ms')
    (h : SOrigins T ms)
    (hnew : if cSide then COriginOf T (key, v) else NOriginOf T (key, v)) :
    SOrigins T ms' := by
  unfold setSingleNMapEntry at hset
  split at hset
  next hnone =>
    simp only [Except.ok.injEq] at hset
    subst hset
    intro n meta hm ch' cm hcm
    by_cases hn : n = name
    · subst hn
      rw [alookup_aset_self] at hm
      have hmeta := Option.some.inj hm
      subst hmeta
      simp only at hcm
      rw [alookup_cons] at hcm
      by_cases hch : ch = ch'
      · rw [if_pos hch] at hcm
        have hcme := Option.some.inj hcm
        subst hcme
        cases cSide with
        | true =>
            rw [if_pos rfl] at hnew
            constructor
            · intro e he
              simp at he
              subst he
              exact hnew
            · intro e he
              simp at he
        | false =>
            rw [if_neg Bool.false_ne_true] at hnew
            constructor
            · intro e he
              simp at he
            · intro e he
              simp at he
              subst he
              exact hnew
      · rw [if_neg hch] at hcm
        simp [alookup] at hcm
    · rw [alookup_aset_ne _ _ _ _ hn] at hm
      exact h n meta hm ch' cm hcm
  next meta0 hsome =>
    split at hset
    next => simp at hset
    next cm0 hcm0 =>
      simp only [Except.ok.injEq] at hset
      subst hset
      intro n meta hm ch' cm hcm
      by_cases hn : n = name
      · subst hn
        rw [alookup_aset_self] at hm
        have hmeta := Option.some.inj hm
        subst hmeta
        simp only at hcm
        by_cases hch : ch' = ch
        · subst hch
          rw [alookup_aset_self] at hcm
          have hcme := Option.some.inj hcm
          subst hcme
          obtain ⟨hc0, hn0⟩ := h _ meta0 hsome ch' cm0 hcm0
          cases cSide with
          | true =>
              rw [if_pos rfl] at hnew
              simp only [eq_self_iff_true, if_true]
              constructor
              · intro e he
                rcases aset_mem_weak he with h1 | h1
                · subst h1
                  exact hnew
                · exact hc0 e h1
              · intro e he
                exact hn0 e he
          | false =>
              rw [if_neg Bool.false_ne_true] at hnew
              simp only [Bool.false_eq_true, if_false]
              constructor
              · intro e he
                exact hc0 e he
              · intro e he
                rcases aset_mem_weak he with h1 | h1
                · subst h1
                  exact hnew
                · exact hn0 e h1
        · rw [alookup_aset_ne _ _ _ _ hch] at hcm
          exact h _ meta0 hsome ch' cm hcm
      · rw [alookup_aset_ne _ _ _ _ hn] at hm
        exact h n meta hm ch' cm hcm

theorem hOrigins_set {T : List Tx} {mh mh' : List (String × HubMeta)}
    {name ch : String} {cSide : Bool} {key : String × String} {v : ℕ}
    (hset : setHubNMapEntry mh name ch cSide key v = Except.ok mh')
    (h : HOrigins T mh)
    (hnew : if cSide then COriginOf T (key, v) else NOriginOf T (key, v)) :
    HOrigins T mh' := by
  unfold setHubNMapEntry at hset
  split at hset
  next hnone =>
    simp only [Except.ok.injEq] at hset
    subst hset
    intro n meta hm ch' cm hcm
    by_cases hn : n = name
    · subst hn
      rw [alookup_aset_self] at hm
      have hmeta := Option.some.inj hm
      subst hmeta
      simp only at hcm
      rw [alookup_cons] at hcm
      by_cases hch : ch = ch'
      · rw [if_pos hch] at hcm
        have hcme := Option.some.inj hcm
        subst hcme
        cases cSide with
        | true =>
            rw [if_pos rfl] at hnew
            constructor
            · intro e he
              simp at he
              subst he
              exact hnew
            · intro e he
              simp at he
        | false =>
            rw [if_neg Bool.false_ne_true] at hnew
            constructor
            · intro e he
              simp at he
            · intro e he
              simp at he
              subst he
              exact hnew
      · rw [if_neg hch] at hcm
        simp [alookup] at hcm
    · rw [alookup_aset_ne _ _ _ _ hn] at hm
      exact h n meta hm ch' cm hcm
  next meta0 hsome =>
    split at hset
    next => simp at hset
    next cm0 hcm0 =>
      simp only [Except.ok.injEq] at hset
      subst hset
      intro n meta hm ch' cm hcm
      by_cases hn : n = name
      · subst hn
        rw [alookup_aset_self] at hm
        have hmeta := Option.some.inj hm
        subst hmeta
        simp only at hcm
        by_cases hch : ch' = ch
        · subst hch
          rw [alookup_aset_self] at hcm
          have hcme := Option.some.inj hcm
          subst hcme
          obtain ⟨hc0, hn0⟩ := h _ meta0 hsome ch' cm0 hcm0
          cases cSide with
          | true =>
              rw [if_pos rfl] at hnew
              simp only [eq_self_iff_true, if_true]
              constructor
              · intro e he
                rcases aset_mem_weak he with h1 | h1
                · subst h1
                  exact hnew
                · exact hc0 e h1
              · intro e he
                exact hn0 e he
          | false =>
              rw [if_neg Bool.false_ne_true] at hnew
              simp only [Bool.false_eq_true, if_false]
              constructor
              · intro e he
                exact hc0 e he
              · intro e he
                rcases aset_mem_weak he with h1 | h1
                · subst h1
                  exact hnew
                · exact hn0 e h1
        · rw [alookup_aset_ne _ _ _ _ hch] at hcm
          exact h _ meta0 hsome ch' cm hcm
      · rw [alookup_aset_ne _ _ _ _ hn] at hm
        exact h n meta hm ch' cm hcm

theorem hOrigins_tip {T : List Tx} {mh mh' : List (String × HubMeta)}
    {name ch : String} {cSide : Bool} {tip : Vec3}
    (hset : setHubTip mh name ch cSide tip = Except.ok mh')
    (h : HOrigins T mh) : HOrigins T mh' := by
  unfold setHubTip at hset
  split at hset
  next hnone =>
    simp only [Except.ok.injEq] at hset
    subst hset
    intro n meta hm ch' cm hcm
    by_cases hn : n = name
    · subst hn
      rw [alookup_aset_self] at hm
      have hmeta := Option.some.inj hm
      subst hmeta
      simp only at hcm
      rw [alookup_cons] at hcm
      by_cases hch : ch = ch'
      · rw [if_pos hch] at hcm
        have hcme := Option.some.inj hcm
        subst hcme
        cases cSide <;> exact ⟨fun e he => by simp at he, fun e he => by simp at he⟩
      · rw [if_neg hch] at hcm
        simp [alookup] at hcm
    · rw [alookup_aset_ne _ _ _ _ hn] at hm
      exact h n meta hm ch' cm hcm
  next meta0 hsome =>
    split at hset
    next => simp at hset
    next cm0 hcm0 =>
      simp only [Except.ok.injEq] at hset
      subst hset
      intro n meta hm ch' cm hcm
      by_cases hn : n = name
      · subst hn
        rw [alookup_aset_self] at hm
        have hmeta := Option.some.inj hm
        subst hmeta
        simp only at hcm
        by_cases hch : ch' = ch
        · subst hch
          rw [alookup_aset_self] at hcm
          have hcme := Option.some.inj hcm
          subst hcme
          obtain ⟨hc0, hn0⟩ := h _ meta0 hsome ch' cm0 hcm0
          cases cSide with
          | true => exact ⟨fun e he => hc0 e he, fun e he => hn0 e he⟩
          | false => exact ⟨fun e he => hc0 e he, fun e he => hn0 e he⟩
        · rw [alookup_aset_ne _ _ _ _ hch] at hcm
          exact h _ meta0 hsome ch' cm hcm
      · rw [alookup_aset_ne _ _ _ _ hn] at hm
        exact h n meta hm ch' cm hcm

theorem hOrigins_aset_empty {T : List Tx} {mh : List (String × HubMeta)}
    {H : String} {meta0 : HubMeta}
    (h : HOrigins T mh)
    (hempty : ∀ ch cm, alookup meta0.chains ch = some cm → cm.c = [] ∧ cm.n = []) :
    HOrigins T (aset mh H meta0) := by
  intro n meta hm ch cm hcm
  by_cases hn : n = H
  · subst hn
    rw [alookup_aset_self] at hm
    have hmeta := Option.some.inj hm
    subst hmeta
    obtain ⟨hc, hn2⟩ := hempty ch cm hcm
    rw [hc, hn2]
    exact ⟨fun e he => by simp at he, fun e he => by simp at he⟩
  · rw [alookup_aset_ne _ _ _ _ hn] at hm
    exact h n meta hm ch cm hcm

theorem sKeysND_set {ms ms' : List (String × SingleMeta)}
    {name ch : String} {cSide : Bool} {key : String × String} {v : ℕ}
    (hset : setSingleNMapEntry ms name ch cSide key v = Except.ok ms')
    (h : SKeysND ms) : SKeysND ms' := by
  unfold setSingleNMapEntry at hset
  split at hset
  next hnone =>
    simp only [Except.ok.injEq] at hset
    subst hset
    intro n meta hm ch' cm hcm
    by_cases hn : n = name
    · subst hn
      rw [alookup_aset_self] at hm
      have hmeta := Option.some.inj hm
      subst hmeta
      simp only at hcm
      rw [alookup_cons] at hcm
      by_cases hch : ch = ch'
      · rw [if_pos hch] at hcm
        have hcme := Option.some.inj hcm
        subst hcme
        cases cSide <;> simp
      · rw [if_neg hch] at hcm
        simp [alookup] at hcm
    · rw [alookup_aset_ne _ _ _ _ hn] at hm
      exact h n meta hm ch' cm hcm
  next meta0 hsome =>
    split at hset
    next => simp at hset
    next cm0 hcm0 =>
      simp only [Except.ok.injEq] at hset
      subst hset
      intro n meta hm ch' cm hcm
      by_cases hn : n = name
      · subst hn
        rw [alookup_aset_self] at hm
        have hmeta := Option.some.inj hm
        subst hmeta
        simp only at hcm
        by_cases hch : ch' = ch
        · subst hch
          rw [alookup_aset_self] at hcm
          have hcme := Option.some.inj hcm
          subst hcme
          obtain ⟨hc0, hn0⟩ := h _ meta0 hsome ch' cm0 hcm0
          cases cSide with
          | true =>
              simp only [eq_self_iff_true, if_true]
              exact ⟨aset_keys_nodup _ _ hc0, hn0⟩
          | false =>
              simp only [Bool.false_eq_true, if_false]
              exact ⟨hc0, aset_keys_nodup _ _ hn0⟩
        · rw [alookup_aset_ne _ _ _ _ hch] at hcm
          exact h _ meta0 hsome ch' cm hcm
      · rw [alookup_aset_ne _ _ _ _ hn] at hm
        exact h n meta hm ch' cm hcm

theorem hKeysND_set {mh mh' : List (String × HubMeta)}
    {name ch : String} {cSide : Bool} {key : String × String} {v : ℕ}
    (hset : setHubNMapEntry mh name ch cSide key v = Except.ok mh')
    (h : HKeysND mh) : HKeysND mh' := by
  unfold setHubNMapEntry at hset
  split at hset
  next hnone =>
    simp only [Except.ok.injEq] at hset
    subst hset
    intro n meta hm ch' cm hcm
    by_cases hn : n = name
    · subst hn
      rw [alookup_aset_self] at hm
      have hmeta := Option.some.inj hm
      subst hmeta
      simp only at hcm
      rw [alookup_cons] at hcm
      by_cases hch : ch = ch'
      · rw [if_pos hch] at hcm
        have hcme := Option.some.inj hcm
        subst hcme
        cases cSide <;> simp
      · rw [if_neg hch] at hcm
        simp [alookup] at hcm
    · rw [alookup_aset_ne _ _ _ _ hn] at hm
      exact h n meta hm ch' cm hcm
  next meta0 hsome =>
    split at hset
    next => simp at hset
    next cm0 hcm0 =>
      simp only [Except.ok.injEq] at hset
      subst hset
      intro n meta hm ch' cm hcm
      by_cases hn : n = name
      · subst hn
        rw [alookup_aset_self] at hm
        have hmeta := Option.some.inj hm
        subst hmeta
        simp only at hcm
        by_cases hch : ch' = ch
        · subst hch
          rw [alookup_aset_self] at hcm
          have hcme := Option.some.inj hcm
          subst hcme
          obtain ⟨hc0, hn0⟩ := h _ meta0 hsome ch' cm0 hcm0
          cases cSide with
          | true =>
              simp only [eq_self_iff_true, if_true]
              exact ⟨aset_keys_nodup _ _ hc0, hn0⟩
          | false =>
              simp only [Bool.false_eq_true, if_false]
              exact ⟨hc0, aset_keys_nodup _ _ hn0⟩
        · rw [alookup_aset_ne _ _ _ _ hch] at hcm
          exact h _ meta0 hsome ch' cm hcm
      · rw [alookup_aset_ne _ _ _ _ hn] at hm
        exact h n meta hm ch' cm hcm

theorem hKeysND_tip {mh mh' : List (String × HubMeta)}
    {name ch : String} {cSide : Bool} {tip : Vec3}
    (hset : setHubTip mh name ch cSide tip = Except.ok mh')
    (h : HKeysND mh) : HKeysND mh' := by
  unfold setHubTip at hset
  split at hset
  next hnone =>
    simp only [Except.ok.injEq] at hset
    subst hset
    intro n meta hm ch' cm hcm
    by_cases hn : n = name
    · subst hn
      rw [alookup_aset_self] at hm
      have hmeta := Option.some.inj hm
      subst hmeta
      simp only at hcm
      rw [alookup_cons] at hcm
      by_cases hch : ch = ch'
      · rw [if_pos hch] at hcm
        have hcme := Option.some.inj hcm
        subst hcme
        cases cSide <;> simp
      · rw [if_neg hch] at hcm
        simp [alookup] at hcm
    · rw [alookup_aset_ne _ _ _ _ hn] at hm
      exact h n meta hm ch' cm hcm
  next meta0 hsome =>
    split at hset
    next => simp at hset
    next cm0 hcm0 =>
      simp only [Except.ok.injEq] at hset
      subst hset
      intro n meta hm ch' cm hcm
      by_cases hn : n = name
      · subst hn
        rw [alookup_aset_self] at hm
        have hmeta := Option.some.inj hm
        subst hmeta
        simp only at hcm
        by_cases hch : ch' = ch
        · subst hch
          rw [alookup_aset_self] at hcm
          have hcme := Option.some.inj hcm
          subst hcme
          obtain ⟨hc0, hn0⟩ := h _ meta0 hsome ch' cm0 hcm0
          cases cSide with
          | true => exact ⟨hc0, hn0⟩
          | false => exact ⟨hc0, hn0⟩
        · rw [alookup_aset_ne _ _ _ _ hch] at hcm
          exact h _ meta0 hsome ch' cm hcm
      · rw [alookup_aset_ne _ _ _ _ hn] at hm
        exact h n meta hm ch' cm hcm

theorem hKeysND_aset_empty {mh : List (String × HubMeta)} {H : String} {meta0 : HubMeta}
    (h : HKeysND mh)
    (hempty : ∀ ch cm, alookup meta0.chains ch = some cm → cm.c = [] ∧ cm.n = []) :
    HKeysND (aset mh H meta0) := by
  intro n meta hm ch cm hcm
  by_cases hn : n = H
  · subst hn
    rw [alookup_aset_self] at hm
    have hmeta := Option.some.inj hm
    subst hmeta
    obtain ⟨hc, hn2⟩ := hempty ch cm hcm
    rw [hc, hn2]
    exact ⟨List.nodup_nil, List.nodup_nil⟩
  · rw [alookup_aset_ne _ _ _ _ hn] at hm
    exact h n meta hm ch cm hcm

theorem buildHubChainsMeta_maps {comp_data : List (String × ChainData)}
    {chains : List Chain} {res : List (String × HubChainMeta)}
    (h : buildHubChainsMeta comp_data chains = Except.ok res) :
    ∀ ch cm, alookup res ch = some cm → cm.c = [] ∧ cm.n = [] := by
  induction chains generalizing res with
  | nil =>
      simp only [buildHubChainsMeta, Except.ok.injEq] at h
      intro ch cm hcm
      rw [← h] at hcm
      simp [alookup] at hcm
  | cons c rest ih =>
      simp only [buildHubChainsMeta] at h
      rw [bind_ok_iff] at h
      obtain ⟨cd, hcd, h⟩ := h
      rw [bind_ok_iff] at h
      obtain ⟨rest', hrest, h⟩ := h
      rw [pure_ok_iff] at h
      intro ch cm hcm
      rw [← h] at hcm
      rw [alookup_cons] at hcm
      by_cases hch : c.id = ch
      · rw [if_pos hch] at hcm
        have := Option.some.inj hcm
        rw [← this]
        exact ⟨rfl, rfl⟩
      · rw [if_neg hch] at hcm
        exact ih hrest ch cm hcm

theorem phase1_post {ext : Externals} {sf : List (String × PStructure)} {st1 : GenState}
    (h : foldExc (fun fp st => process_single ext fp.1 fp.2 st) sf GenState.init
      = Except.ok st1) :
    st1.n_to_c_tx = [] ∧ st1.hub_tx = [] ∧ st1.modules_hubs = []
    ∧ SinglesMapsEmpty st1
    ∧ PdbsNamed (sf.map (fun fp => moduleNameOfFile fp.1)) st1 := by
  have hstep : ∀ (fp : String × PStructure) (rem : List (String × PStructure))
      (st st' : GenState),
      ((st.n_to_c_tx = [] ∧ st.hub_tx = [] ∧ st.modules_hubs = []
        ∧ SinglesMapsEmpty st
        ∧ PdbsNamed (sf.map (fun q => moduleNameOfFile q.1)) st)
      ∧ (∀ q ∈ fp :: rem, moduleNameOfFile q.1 ∈ sf.map (fun q2 => moduleNameOfFile q2.1)))
      → process_single ext fp.1 fp.2 st = Except.ok st'
      → ((st'.n_to_c_tx = [] ∧ st'.hub_tx = [] ∧ st'.modules_hubs = []
        ∧ SinglesMapsEmpty st'
        ∧ PdbsNamed (sf.map (fun q => moduleNameOfFile q.1)) st')
      ∧ (∀ q ∈ rem, moduleNameOfFile q.1 ∈ sf.map (fun q2 => moduleNameOfFile q2.1))) := by
    intro fp rem st st' hP hf
    obtain ⟨⟨hN, hH, hMH, hSE, hPd⟩, hrem⟩ := hP
    obtain ⟨c0, s1, radii, hc0, hmv, hst⟩ := process_single_ok hf
    subst hst
    refine ⟨⟨hN, hH, hMH, ?_, ?_⟩, fun q hq => hrem q (List.mem_cons_of_mem _ hq)⟩
    · intro n meta hm ch cm hcm
      by_cases hn : n = moduleNameOfFile fp.1
      · subst hn
        rw [alookup_aset_self] at hm
        have hmeta := Option.some.inj hm
        subst hmeta
        simp only at hcm
        rw [alookup_cons] at hcm
        by_cases hch : c0.id = ch
        · rw [if_pos hch] at hcm
          have := Option.some.inj hcm
          rw [← this]
          exact ⟨rfl, rfl⟩
        · rw [if_neg hch] at hcm
          simp [alookup] at hcm
      · rw [alookup_aset_ne _ _ _ _ hn] at hm
        exact hSE n meta hm ch cm hcm
    · intro p hp
      rcases aset_mem_weak hp with h1 | h1
      · subst h1
        exact hrem fp (List.mem_cons_self _ _)
      · exact hPd p h1
  have hmain := foldExc_rem _ (fun rem st =>
      (st.n_to_c_tx = [] ∧ st.hub_tx = [] ∧ st.modules_hubs = []
        ∧ SinglesMapsEmpty st
        ∧ PdbsNamed (sf.map (fun q => moduleNameOfFile q.1)) st)
      ∧ (∀ q ∈ rem, moduleNameOfFile q.1 ∈ sf.map (fun q2 => moduleNameOfFile q2.1)))
    hstep sf GenState.init st1
    ⟨⟨rfl, rfl, rfl,
      fun n meta hm => by simp [GenState.init, alookup] at hm,
      fun p hp => by simp [GenState.init] at hp⟩,
      fun q hq => List.mem_map_of_mem _ hq⟩ h
  exact hmain.1

theorem process_double_inv {ext : Externals} {sNames : List String}
    {fp : String × PStructure} {rem : List (String × PStructure)} {st st' : GenState}
    (hP : CoreInv sNames st ∧ st.hub_tx = [] ∧ st.modules_hubs = [] ∧ PdbsNamed sNames st
      ∧ (∀ t ∈ st.n_to_c_tx, Except.ok (t.mod_a, t.mod_b) ∉ (fp :: rem).map DblMapFn)
      ∧ ((fp :: rem).map DblMapFn).Nodup)
    (h : process_double ext fp.1 fp.2 st = Except.ok st') :
    CoreInv sNames st' ∧ st'.hub_tx = [] ∧ st'.modules_hubs = [] ∧ PdbsNamed sNames st'
      ∧ (∀ t ∈ st'.n_to_c_tx, Except.ok (t.mod_a, t.mod_b) ∉ rem.map DblMapFn)
      ∧ (rem.map DblMapFn).Nodup := by
  obtain ⟨⟨⟨hFwd, hSO, hHO, hSK, hHK⟩, hsrc, hEF, hND⟩, hH, hMH, hPd, hfresh, hndrem⟩ := hP
  obtain ⟨a, b, sa, sb, a_ch, b_ch, rot, tran, d1, ms1, ms2, hsplit, hsa, hsb, hach, hbch,
    hms1, hms2, hst⟩ := process_double_ok h
  subst hst
  have hdfp : DblMapFn fp = Except.ok (a, b) := hsplit
  have hcombo : ∀ t ∈ st.n_to_c_tx, ¬((t.mod_a, t.mod_b) = (a, b)) := by
    intro t ht heq
    apply hfresh t ht
    rw [List.map_cons, hdfp, heq]
    exact List.mem_cons_self _ _
  have hT : allTx st = st.n_to_c_tx := by
    unfold allTx
    rw [hH, List.append_nil]
  rw [hT] at hFwd hSO hHO
  have haS : a ∈ sNames := hPd _ (alookup_mem hsa)
  have hbS : b ∈ sNames := hPd _ (alookup_mem hsb)
  have hheadnd := List.nodup_cons.mp (by rw [List.map_cons] at hndrem; exact hndrem)
  have hnotrem : Except.ok (a, b) ∉ rem.map DblMapFn := by
    rw [← hdfp]
    exact hheadnd.1
  have hfr1 : ∀ j t, st.n_to_c_tx.get? j = some t →
      ¬(t.source ≠ TxSource.hubC ∧ t.mod_a = a ∧ t.mod_a_chain = a_ch
        ∧ (t.mod_b, t.mod_b_chain) = (b, b_ch)) := by
    intro j t hj ⟨_, h1, _, h4⟩
    apply hcombo t (List.get?_mem hj)
    rw [h1, (Prod.mk.injEq _ _ _ _).mp h4 |>.1]
  have hfr2 : ∀ j t, st.n_to_c_tx.get? j = some t →
      ¬(t.source ≠ TxSource.hubN ∧ t.mod_b = b ∧ t.mod_b_chain = b_ch
        ∧ (t.mod_a, t.mod_a_chain) = (a, a_ch)) := by
    intro j t hj ⟨_, h1, _, h4⟩
    apply hcombo t (List.get?_mem hj)
    rw [h1, (Prod.mk.injEq _ _ _ _).mp h4 |>.1]
  have hF1 : FwdEntries st.n_to_c_tx ms1 st.modules_hubs := fwd_sset hms1 hFwd hfr1
  have hF2 : FwdEntries st.n_to_c_tx ms2 st.modules_hubs := fwd_sset hms2 hF1 hfr2
  have hext : ∀ j t, st.n_to_c_tx.get? j = some t →
      (st.n_to_c_tx ++ [create_tx a a_ch b b_ch rot tran st.n_to_c_tx.length
        TxSource.pair]).get? j = some t := fun j t ht => get?_append_left ht
  have hgetnew := get?_concat st.n_to_c_tx
    (create_tx a a_ch b b_ch rot tran st.n_to_c_tx.length TxSource.pair)
  have hsne : ¬(TxSource.pair = TxSource.hubC) := fun hc => TxSource.noConfusion hc
  have hsne2 : ¬(TxSource.pair = TxSource.hubN) := fun hc => TxSource.noConfusion hc
  have heA1 : sEntry ms1 a a_ch true (b, b_ch) = some st.n_to_c_tx.length :=
    sEntry_set_self hms1
  have heA : sEntry ms2 a a_ch true (b, b_ch) = some st.n_to_c_tx.length := by
    rw [sEntry_set_ne hms2 (fun hc => Bool.noConfusion hc.2.2.1)]
    exact heA1
  have heB : sEntry ms2 b b_ch false (a, a_ch) = some st.n_to_c_tx.length :=
    sEntry_set_self hms2
  have hFnew : FwdEntries (st.n_to_c_tx ++ [create_tx a a_ch b b_ch rot tran
      st.n_to_c_tx.length TxSource.pair]) ms2 st.modules_hubs := by
    apply fwd_snoc (fwd_sset hms2 (fwd_sset hms1 hFwd hfr1) hfr2)
    · exact heA
    · exact heB
  have hSO2 : SOrigins (st.n_to_c_tx ++ [create_tx a a_ch b b_ch rot tran
      st.n_to_c_tx.length TxSource.pair]) ms2 := by
    apply sOrigins_set hms2 (sOrigins_set hms1 (sOrigins_ext hSO hext) ?_) ?_
    · exact ⟨_, hgetnew, rfl⟩
    · exact ⟨_, hgetnew, rfl⟩
  have hHO2 : HOrigins (st.n_to_c_tx ++ [create_tx a a_ch b b_ch rot tran
      st.n_to_c_tx.length TxSource.pair]) st.modules_hubs := hOrigins_ext hHO hext
  have hSK2 : SKeysND ms2 := sKeysND_set hms2 (sKeysND_set hms1 hSK)
  refine ⟨⟨?_, ?_, ?_, ?_⟩, hH, hMH, hPd, ?_, hheadnd.2⟩
  · show MapsInv _ ms2 st.modules_hubs
    have hT2 : (st.n_to_c_tx ++ [create_tx a a_ch b b_ch rot tran st.n_to_c_tx.length
        TxSource.pair]) ++ st.hub_tx = st.n_to_c_tx ++ [create_tx a a_ch b b_ch rot tran
        st.n_to_c_tx.length TxSource.pair] := by
      rw [hH, List.append_nil]
    show MapsInv ((st.n_to_c_tx ++ _) ++ st.hub_tx) ms2 st.modules_hubs
    rw [hT2]
    exact ⟨hFnew, hSO2, hHO2, hSK2, hHK⟩
  · intro t ht
    rcases List.mem_append.mp ht with h1 | h1
    · exact hsrc t h1
    · rw [List.mem_singleton.mp h1]
      rfl
  · intro t ht
    rcases List.mem_append.mp ht with h1 | h1
    · exact hEF t h1
    · rw [List.mem_singleton.mp h1]
      exact ⟨haS, hbS⟩
  · show PairCombosND (st.n_to_c_tx ++ _)
    unfold PairCombosND
    rw [List.map_append]
    apply List.nodup_append.mpr
    refine ⟨hND, List.nodup_singleton _, ?_⟩
    intro x hx hx2
    simp only [List.map_singleton, List.mem_singleton] at hx2
    obtain ⟨t, ht, htx⟩ := List.mem_map.mp hx
    apply hcombo t ht
    rw [htx, hx2]
    exact rfl
  · intro t ht
    rcases List.mem_append.mp ht with h1 | h1
    · intro hmem
      exact hfresh t h1 (by rw [List.map_cons]; exact List.mem_cons_of_mem _ hmem)
    · rw [List.mem_singleton.mp h1]
      exact hnotrem

theorem phase2_post {ext : Externals} {df : List (String × PStructure)} {st1 st2 : GenState}
    {sNames : List String}
    (hN1 : st1.n_to_c_tx = []) (hH1 : st1.hub_tx = []) (hMH1 : st1.modules_hubs = [])
    (hSE1 : SinglesMapsEmpty st1) (hPd1 : PdbsNamed sNames st1)
    (hnd : (df.map DblMapFn).Nodup)
    (h : foldExc (fun fp st => process_double ext fp.1 fp.2 st) df st1 = Except.ok st2) :
    CoreInv sNames st2 ∧ st2.hub_tx = [] ∧ st2.modules_hubs = []
      ∧ PdbsNamed sNames st2 := by
  have hT1 : allTx st1 = [] := by
    unfold allTx
    rw [hN1, hH1]
    rfl
  have hinit : CoreInv sNames st1 ∧ st1.hub_tx = []
      ∧ st1.modules_hubs = [] ∧ PdbsNamed sNames st1
      ∧ (∀ t ∈ st1.n_to_c_tx, Except.ok (t.mod_a, t.mod_b) ∉ df.map DblMapFn)
      ∧ (df.map DblMapFn).Nodup := by
    refine ⟨⟨?_, ?_, ?_, ?_⟩, hH1, hMH1, hPd1, ?_, hnd⟩
    · rw [hT1]
      refine ⟨?_, ?_, ?_, ?_, ?_⟩
      · intro j t hj
        exact Option.noConfusion hj
      · intro n meta hm ch cm hcm
        obtain ⟨hc, hn2⟩ := hSE1 n meta hm ch cm hcm
        rw [hc, hn2]
        exact ⟨fun e he => absurd he (List.not_mem_nil e),
          fun e he => absurd he (List.not_mem_nil e)⟩
      · intro n meta hm
        rw [hMH1] at hm
        simp [alookup] at hm
      · intro n meta hm ch cm hcm
        obtain ⟨hc, hn2⟩ := hSE1 n meta hm ch cm hcm
        rw [hc, hn2]
        exact ⟨List.nodup_nil, List.nodup_nil⟩
      · intro n meta hm
        rw [hMH1] at hm
        simp [alookup] at hm
    · intro t ht
      rw [hN1] at ht
      exact absurd ht (List.not_mem_nil t)
    · intro t ht
      rw [hN1] at ht
      exact absurd ht (List.not_mem_nil t)
    · unfold PairCombosND
      rw [hN1]
      exact List.nodup_nil
    · intro t ht
      rw [hN1] at ht
      exact absurd ht (List.not_mem_nil t)
  have hmain := foldExc_rem _ (fun rem st =>
      CoreInv sNames st ∧ st.hub_tx = [] ∧ st.modules_hubs = [] ∧ PdbsNamed sNames st
      ∧ (∀ t ∈ st.n_to_c_tx, Except.ok (t.mod_a, t.mod_b) ∉ rem.map DblMapFn)
      ∧ (rem.map DblMapFn).Nodup)
    (fun fp rem s s' hp hf => process_double_inv hp hf) df st1 st2 hinit h
  exact ⟨hmain.1, hmain.2.1, hmain.2.2.1, hmain.2.2.2.1⟩

theorem filter_map_b_nodup {N : List Tx} {comp : String} (h : PairCombosND N) :
    ((N.filter (fun t => t.mod_a = comp)).map (fun t => t.mod_b)).Nodup := by
  have hsub : ((N.filter (fun t => t.mod_a = comp)).map
      (fun t => (t.mod_a, t.mod_b))).Nodup :=
    List.Nodup.sublist (List.Sublist.map _ (List.filter_sublist N)) h
  have hcomp : ∀ p ∈ (N.filter (fun t => t.mod_a = comp)).map
      (fun t => (t.mod_a, t.mod_b)), p.1 = comp := by
    intro p hp
    obtain ⟨t, ht, htp⟩ := List.mem_map.mp hp
    have hfd : t.mod_a = comp := of_decide_eq_true (List.mem_filter.mp ht).2
    rw [← htp]
    exact hfd
  have heq : (N.filter (fun t => t.mod_a = comp)).map (fun t => t.mod_b)
      = ((N.filter (fun t => t.mod_a = comp)).map
        (fun t => (t.mod_a, t.mod_b))).map Prod.snd := by
    rw [List.map_map]
    rfl
  rw [heq]
  apply List.Nodup.map_on ?_ hsub
  intro x hx y hy hxy
  have hx1 := hcomp x hx
  have hy1 := hcomp y hy
  exact Prod.ext (hx1.trans hy1.symm) hxy

theorem filter_map_a_nodup {N : List Tx} {comp : String} (h : PairCombosND N) :
    ((N.filter (fun t => t.mod_b = comp)).map (fun t => t.mod_a)).Nodup := by
  have hsub : ((N.filter (fun t => t.mod_b = comp)).map
      (fun t => (t.mod_a, t.mod_b))).Nodup :=
    List.Nodup.sublist (List.Sublist.map _ (List.filter_sublist N)) h
  have hcomp : ∀ p ∈ (N.filter (fun t => t.mod_b = comp)).map
      (fun t => (t.mod_a, t.mod_b)), p.2 = comp := by
    intro p hp
    obtain ⟨t, ht, htp⟩ := List.mem_map.mp hp
    have hfd : t.mod_b = comp := of_decide_eq_true (List.mem_filter.mp ht).2
    rw [← htp]
    exact hfd
  have heq : (N.filter (fun t => t.mod_b = comp)).map (fun t => t.mod_a)
      = ((N.filter (fun t => t.mod_b = comp)).map
        (fun t => (t.mod_a, t.mod_b))).map Prod.fst := by
    rw [List.map_map]
    rfl
  rw [heq]
  apply List.Nodup.map_on ?_ hsub
  intro x hx y hy hxy
  have hx1 := hcomp x hx
  have hy1 := hcomp y hy
  exact Prod.ext hxy (hx1.trans hy1.symm)

theorem hubC_step_inv {ext : Externals} {sNames fileRem chRest : List String}
    {H ch comp : String} {hub : PStructure} {b : String} {brem : List String}
    {st st' : GenState}
    (hHs : H ∉ sNames) (hHf : H ∉ fileRem) (hchR : ch ∉ chRest)
    (hP : CoreInv sNames st ∧ HubTxNames fileRem st ∧ HubTxChains H chRest st
       ∧ HubTxCSide H ch (b :: brem) st ∧ (b :: brem).Nodup)
    (h : hubC_step ext H ch comp hub b st = Except.ok st') :
    CoreInv sNames st' ∧ HubTxNames fileRem st' ∧ HubTxChains H chRest st'
       ∧ HubTxCSide H ch brem st' ∧ brem.Nodup := by
  obtain ⟨⟨⟨hFwd, hSO, hHO, hSK, hHK⟩, hsrc, hEF, hND⟩, hTN, hTC, hTCS, hbnd⟩ := hP
  obtain ⟨sb, b_ch, rot, tran, tip, mh1, mh2, ms1, hsb, hbch, hmh1, hmh2, hms1, hst⟩ :=
    hubC_step_ok h
  subst hst
  have hk : st.n_to_c_tx.length + st.hub_tx.length = (allTx st).length :=
    (List.length_append _ _).symm
  have hmemT : ∀ {j : ℕ} {t : Tx}, (allTx st).get? j = some t →
      t ∈ st.n_to_c_tx ∨ t ∈ st.hub_tx := by
    intro j t hj
    exact List.mem_append.mp (List.get?_mem hj)
  have hfr1 : ∀ j t, (allTx st).get? j = some t →
      ¬(t.source = TxSource.hubC ∧ t.mod_a = H ∧ t.mod_a_chain = ch
        ∧ (t.mod_b, t.mod_b_chain) = (b, b_ch)) := by
    intro j t hj ⟨h1, h2, h3, h4⟩
    rcases hmemT hj with hm | hm
    · rw [hsrc t hm] at h1
      exact TxSource.noConfusion h1
    · have hname : hubSideName t = H := by
        unfold hubSideName
        rw [if_pos h1]
        exact h2
      have hchain : hubSideChain t = ch := by
        unfold hubSideChain
        rw [if_pos h1]
        exact h3
      obtain ⟨_, hnb⟩ := hTCS t hm hname hchain
      apply hnb
      rw [((Prod.mk.injEq _ _ _ _).mp h4).1]
      exact List.mem_cons_self _ _
  have hfr2 : ∀ j t, (allTx st).get? j = some t →
      ¬(t.source ≠ TxSource.hubN ∧ t.mod_b = b ∧ t.mod_b_chain = b_ch
        ∧ (t.mod_a, t.mod_a_chain) = (H, ch)) := by
    intro j t hj ⟨h1, h2, h3, h4⟩
    have h4a := ((Prod.mk.injEq _ _ _ _).mp h4).1
    have h4b := ((Prod.mk.injEq _ _ _ _).mp h4).2
    rcases hmemT hj with hm | hm
    · apply hHs
      rw [← h4a]
      exact (hEF t hm).1
    · cases hs3 : t.source with
      | pair => exact (hTN t hm).1 hs3
      | hubN => exact h1 hs3
      | hubC =>
          have hname : hubSideName t = H := by
            unfold hubSideName
            rw [if_pos hs3]
            exact h4a
          have hchain : hubSideChain t = ch := by
            unfold hubSideChain
            rw [if_pos hs3]
            exact h4b
          obtain ⟨_, hnb⟩ := hTCS t hm hname hchain
          apply hnb
          rw [h2]
          exact List.mem_cons_self _ _
  have hF3 : FwdEntries (allTx st) ms1 mh2 :=
    fwd_sset hms1 (fwd_htip hmh2 (fwd_hset hmh1 hFwd hfr1)) hfr2
  have hT' : st.n_to_c_tx ++ (st.hub_tx ++ [create_tx H ch b b_ch rot tran
      (st.n_to_c_tx.length + st.hub_tx.length) TxSource.hubC]) = allTx st ++
      [create_tx H ch b b_ch rot tran
        (st.n_to_c_tx.length + st.hub_tx.length) TxSource.hubC] :=
    (List.append_assoc _ _ _).symm
  have hgetnew : (allTx st ++ [create_tx H ch b b_ch rot tran
      (st.n_to_c_tx.length + st.hub_tx.length) TxSource.hubC]).get?
      (st.n_to_c_tx.length + st.hub_tx.length) = some (create_tx H ch b b_ch rot tran
      (st.n_to_c_tx.length + st.hub_tx.length) TxSource.hubC) := by
    rw [hk]
    exact get?_concat _ _
  have hext : ∀ j t, (allTx st).get? j = some t →
      (allTx st ++ [create_tx H ch b b_ch rot tran
        (st.n_to_c_tx.length + st.hub_tx.length) TxSource.hubC]).get? j = some t :=
    fun j t ht => get?_append_left ht
  have heA : hEntry mh2 H ch true (b, b_ch) = some (allTx st).length := by
    rw [hEntry_tip_eq hmh2, hEntry_set_self hmh1, hk]
  have heB : sEntry ms1 b b_ch false (H, ch) = some (allTx st).length := by
    rw [sEntry_set_self hms1, hk]
  have hFnew : FwdEntries (allTx st ++ [create_tx H ch b b_ch rot tran
      (st.n_to_c_tx.length + st.hub_tx.length) TxSource.hubC]) ms1 mh2 := by
    apply fwd_snoc hF3
    · exact heA
    · exact heB
  have hSO2 := sOrigins_set hms1 (sOrigins_ext hSO hext)
    (⟨_, hgetnew, rfl⟩ :
      NOriginOf _ ((H, ch), st.n_to_c_tx.length + st.hub_tx.length))
  have hHO2 := hOrigins_tip hmh2 (hOrigins_set hmh1 (hOrigins_ext hHO hext)
    (⟨_, hgetnew, rfl⟩ :
      COriginOf _ ((b, b_ch), st.n_to_c_tx.length + st.hub_tx.length)))
  have hSK2 : SKeysND ms1 := sKeysND_set hms1 hSK
  have hHK2 : HKeysND mh2 := hKeysND_tip hmh2 (hKeysND_set hmh1 hHK)
  refine ⟨⟨?_, hsrc, hEF, hND⟩, ?_, ?_, ?_, (List.nodup_cons.mp hbnd).2⟩
  · show MapsInv (st.n_to_c_tx ++ (st.hub_tx ++ _)) ms1 mh2
    rw [hT']
    exact ⟨hFnew, hSO2, hHO2, hSK2, hHK2⟩
  · intro t ht
    rcases List.mem_append.mp ht with hm | hm
    · exact hTN t hm
    · rw [List.mem_singleton.mp hm]
      exact ⟨fun hc => TxSource.noConfusion hc, hHf⟩
  · intro t ht
    rcases List.mem_append.mp ht with hm | hm
    · exact hTC t hm
    · rw [List.mem_singleton.mp hm]
      intro _
      exact hchR
  · intro t ht
    rcases List.mem_append.mp ht with hm | hm
    · intro hname hchain
      obtain ⟨hsrc2, hnb⟩ := hTCS t hm hname hchain
      exact ⟨hsrc2, fun hmem => hnb (List.mem_cons_of_mem _ hmem)⟩
    · rw [List.mem_singleton.mp hm]
      intro _ _
      exact ⟨rfl, (List.nodup_cons.mp hbnd).1⟩

theorem hubN_step_inv {ext : Externals} {sNames fileRem chRest : List String}
    {H ch comp : String} {hub : PStructure} {a : String} {arem : List String}
    {st st' : GenState}
    (hHs : H ∉ sNames) (hHf : H ∉ fileRem) (hchR : ch ∉ chRest)
    (hP : CoreInv sNames st ∧ HubTxNames fileRem st ∧ HubTxChains H chRest st
       ∧ HubTxNSide H ch (a :: arem) st ∧ (a :: arem).Nodup)
    (h : hubN_step ext H ch comp hub a st = Except.ok st') :
    CoreInv sNames st' ∧ HubTxNames fileRem st' ∧ HubTxChains H chRest st'
       ∧ HubTxNSide H ch arem st' ∧ arem.Nodup := by
  obtain ⟨⟨⟨hFwd, hSO, hHO, hSK, hHK⟩, hsrc, hEF, hND⟩, hTN, hTC, hTNS, hand⟩ := hP
  obtain ⟨sa, a_ch, rot, tran, tip, ms1, mh1, mh2, hsa, hach, hms1, hmh1, hmh2, hst⟩ :=
    hubN_step_ok h
  subst hst
  have hk : st.n_to_c_tx.length + st.hub_tx.length = (allTx st).length :=
    (List.length_append _ _).symm
  have hmemT : ∀ {j : ℕ} {t : Tx}, (allTx st).get? j = some t →
      t ∈ st.n_to_c_tx ∨ t ∈ st.hub_tx := by
    intro j t hj
    exact List.mem_append.mp (List.get?_mem hj)
  have hfr1 : ∀ j t, (allTx st).get? j = some t →
      ¬(t.source ≠ TxSource.hubC ∧ t.mod_a = a ∧ t.mod_a_chain = a_ch
        ∧ (t.mod_b, t.mod_b_chain) = (H, ch)) := by
    intro j t hj ⟨h1, h2, h3, h4⟩
    have h4a := ((Prod.mk.injEq _ _ _ _).mp h4).1
    have h4b := ((Prod.mk.injEq _ _ _ _).mp h4).2
    rcases hmemT hj with hm | hm
    · apply hHs
      rw [← h4a]
      exact (hEF t hm).2
    · cases hs3 : t.source with
      | pair => exact (hTN t hm).1 hs3
      | hubC => exact h1 hs3
      | hubN =>
          have hname : hubSideName t = H := by
            unfold hubSideName
            rw [if_neg (by rw [hs3]; exact fun hc => TxSource.noConfusion hc)]
            exact h4a
          have hchain : hubSideChain t = ch := by
            unfold hubSideChain
            rw [if_neg (by rw [hs3]; exact fun hc => TxSource.noConfusion hc)]
            exact h4b
          rcases hTNS t hm hname hchain with hc | ⟨_, hna⟩
          · rw [hs3] at hc
            exact TxSource.noConfusion hc
          · apply hna
            rw [h2]
            exact List.mem_cons_self _ _
  have hfr2 : ∀ j t, (allTx st).get? j = some t →
      ¬(t.source = TxSource.hubN ∧ t.mod_b = H ∧ t.mod_b_chain = ch
        ∧ (t.mod_a, t.mod_a_chain) = (a, a_ch)) := by
    intro j t hj ⟨h1, h2, h3, h4⟩
    have h4a := ((Prod.mk.injEq _ _ _ _).mp h4).1
    rcases hmemT hj with hm | hm
    · rw [hsrc t hm] at h1
      exact TxSource.noConfusion h1
    · have hname : hubSideName t = H := by
        unfold hubSideName
        rw [if_neg (by rw [h1]; exact fun hc => TxSource.noConfusion hc)]
        exact h2
      have hchain : hubSideChain t = ch := by
        unfold hubSideChain
        rw [if_neg (by rw [h1]; exact fun hc => TxSource.noConfusion hc)]
        exact h3
      rcases hTNS t hm hname hchain with hc | ⟨_, hna⟩
      · rw [h1] at hc
        exact TxSource.noConfusion hc
      · apply hna
        rw [h4a]
        exact List.mem_cons_self _ _
  have hF3 : FwdEntries (allTx st) ms1 mh2 :=
    fwd_htip hmh2 (fwd_hset hmh1 (fwd_sset hms1 hFwd hfr1) hfr2)
  have hT' : st.n_to_c_tx ++ (st.hub_tx ++ [create_tx a a_ch H ch rot tran
      (st.n_to_c_tx.length + st.hub_tx.length) TxSource.hubN]) = allTx st ++
      [create_tx a a_ch H ch rot tran
        (st.n_to_c_tx.length + st.hub_tx.length) TxSource.hubN] :=
    (List.append_assoc _ _ _).symm
  have hgetnew : (allTx st ++ [create_tx a a_ch H ch rot tran
      (st.n_to_c_tx.length + st.hub_tx.length) TxSource.hubN]).get?
      (st.n_to_c_tx.length + st.hub_tx.length) = some (create_tx a a_ch H ch rot tran
      (st.n_to_c_tx.length + st.hub_tx.length) TxSource.hubN) := by
    rw [hk]
    exact get?_concat _ _
  have hext : ∀ j t, (allTx st).get? j = some t →
      (allTx st ++ [create_tx a a_ch H ch rot tran
        (st.n_to_c_tx.length + st.hub_tx.length) TxSource.hubN]).get? j = some t :=
    fun j t ht => get?_append_left ht
  have heA : sEntry ms1 a a_ch true (H, ch) = some (allTx st).length := by
    rw [sEntry_set_self hms1, hk]
  have heB : hEntry mh2 H ch false (a, a_ch) = some (allTx st).length := by
    rw [hEntry_tip_eq hmh2, hEntry_set_self hmh1, hk]
  have hFnew : FwdEntries (allTx st ++ [create_tx a a_ch H ch rot tran
      (st.n_to_c_tx.length + st.hub_tx.length) TxSource.hubN]) ms1 mh2 := by
    apply fwd_snoc hF3
    · exact heA
    · exact heB
  have hSO2 := sOrigins_set hms1 (sOrigins_ext hSO hext)
    (⟨_, hgetnew, rfl⟩ :
      COriginOf _ ((H, ch), st.n_to_c_tx.length + st.hub_tx.length))
  have hHO2 := hOrigins_tip hmh2 (hOrigins_set hmh1 (hOrigins_ext hHO hext)
    (⟨_, hgetnew, rfl⟩ :
      NOriginOf _ ((a, a_ch), st.n_to_c_tx.length + st.hub_tx.length)))
  have hSK2 : SKeysND ms1 := sKeysND_set hms1 hSK
  have hHK2 : HKeysND mh2 := hKeysND_tip hmh2 (hKeysND_set hmh1 hHK)
  refine ⟨⟨?_, hsrc, hEF, hND⟩, ?_, ?_, ?_, (List.nodup_cons.mp hand).2⟩
  · show MapsInv (st.n_to_c_tx ++ (st.hub_tx ++ _)) ms1 mh2
    rw [hT']
    exact ⟨hFnew, hSO2, hHO2, hSK2, hHK2⟩
  · intro t ht
    rcases List.mem_append.mp ht with hm | hm
    · exact hTN t hm
    · rw [List.mem_singleton.mp hm]
      exact ⟨fun hc => TxSource.noConfusion hc, hHf⟩
  · intro t ht
    rcases List.mem_append.mp ht with hm | hm
    · exact hTC t hm
    · rw [List.mem_singleton.mp hm]
      intro _
      exact hchR
  · intro t ht
    rcases List.mem_append.mp ht with hm | hm
    · intro hname hchain
      rcases hTNS t hm hname hchain with hc | ⟨hs2, hna⟩
      · exact Or.inl hc
      · exact Or.inr ⟨hs2, fun hmem => hna (List.mem_cons_of_mem _ hmem)⟩
    · rw [List.mem_singleton.mp hm]
      intro _ _
      exact Or.inr ⟨rfl, (List.nodup_cons.mp hand).1⟩

theorem process_hub_chain_inv {ext : Externals} {sNames fileRem : List String}
    {H : String} {hub : PStructure} {entry : String × ChainData}
    {crem : List (String × ChainData)} {st st' : GenState}
    (hHs : H ∉ sNames) (hHf : H ∉ fileRem)
    (hP : CoreInv sNames st ∧ HubTxNames fileRem st
       ∧ HubTxChains H ((entry :: crem).map Prod.fst) st
       ∧ ((entry :: crem).map Prod.fst).Nodup)
    (h : process_hub_chain ext H hub entry st = Except.ok st') :
    CoreInv sNames st' ∧ HubTxNames fileRem st'
       ∧ HubTxChains H (crem.map Prod.fst) st'
       ∧ (crem.map Prod.fst).Nodup := by
  obtain ⟨hCI, hTN, hTC, hcnd⟩ := hP
  obtain ⟨stc, hc, hn⟩ := process_hub_chain_ok h
  have hndtail := List.nodup_cons.mp (by rw [List.map_cons] at hcnd; exact hcnd)
  have hchformer : ∀ s, HubTxChains H ((entry :: crem).map Prod.fst) s →
      HubTxChains H (crem.map Prod.fst) s ∧ HubTxCSide H entry.1 [] s := by
    intro s hTCs
    constructor
    · intro t hm hname
      have := hTCs t hm hname
      rw [List.map_cons] at this
      exact fun hmem => this (List.mem_cons_of_mem _ hmem)
    · intro t hm hname hchain
      exfalso
      apply hTCs t hm hname
      rw [List.map_cons, hchain]
      exact List.mem_cons_self _ _
  have hstc : CoreInv sNames stc ∧ HubTxNames fileRem stc
      ∧ HubTxChains H (crem.map Prod.fst) stc
      ∧ HubTxCSide H entry.1 [] stc := by
    rcases hc with ⟨hcf, hfold⟩ | ⟨hcf, heq⟩
    · have hbnod : ((st.n_to_c_tx.filter (fun tx => tx.mod_a = entry.2.single_name)).map
          (fun tx => tx.mod_b)).Nodup := filter_map_b_nodup hCI.2.2.2
      have hinit : CoreInv sNames st ∧ HubTxNames fileRem st
          ∧ HubTxChains H (crem.map Prod.fst) st
          ∧ HubTxCSide H entry.1
            ((st.n_to_c_tx.filter (fun tx => tx.mod_a = entry.2.single_name)).map
              (fun tx => tx.mod_b)) st
          ∧ ((st.n_to_c_tx.filter (fun tx => tx.mod_a = entry.2.single_name)).map
              (fun tx => tx.mod_b)).Nodup := by
        obtain ⟨hw1, hw2⟩ := hchformer st hTC
        refine ⟨hCI, hTN, hw1, ?_, hbnod⟩
        intro t hm hname hchain
        exfalso
        apply hTC t hm hname
        rw [List.map_cons, hchain]
        exact List.mem_cons_self _ _
      have hfin := foldExc_rem _ (fun brem s =>
          CoreInv sNames s ∧ HubTxNames fileRem s
          ∧ HubTxChains H (crem.map Prod.fst) s
          ∧ HubTxCSide H entry.1 brem s ∧ brem.Nodup)
        (fun b brem s s' hp hf => hubC_step_inv hHs hHf hndtail.1 hp hf)
        _ st stc hinit hfold
      exact ⟨hfin.1, hfin.2.1, hfin.2.2.1, hfin.2.2.2.1⟩
    · rw [heq]
      obtain ⟨hw1, hw2⟩ := hchformer st hTC
      exact ⟨hCI, hTN, hw1, hw2⟩
  rcases hn with ⟨hnf, hfold⟩ | ⟨hnf, heq⟩
  · have hanod : ((stc.n_to_c_tx.filter (fun tx => tx.mod_b = entry.2.single_name)).map
        (fun tx => tx.mod_a)).Nodup := filter_map_a_nodup hstc.1.2.2.2
    have hinitN : CoreInv sNames stc ∧ HubTxNames fileRem stc
        ∧ HubTxChains H (crem.map Prod.fst) stc
        ∧ HubTxNSide H entry.1
          ((stc.n_to_c_tx.filter (fun tx => tx.mod_b = entry.2.single_name)).map
            (fun tx => tx.mod_a)) stc
        ∧ ((stc.n_to_c_tx.filter (fun tx => tx.mod_b = entry.2.single_name)).map
            (fun tx => tx.mod_a)).Nodup := by
      refine ⟨hstc.1, hstc.2.1, hstc.2.2.1, ?_, hanod⟩
      intro t hm hname hchain
      exact Or.inl (hstc.2.2.2 t hm hname hchain).1
    have hfin := foldExc_rem _ (fun arem s =>
        CoreInv sNames s ∧ HubTxNames fileRem s
        ∧ HubTxChains H (crem.map Prod.fst) s
        ∧ HubTxNSide H entry.1 arem s ∧ arem.Nodup)
      (fun a arem s s' hp hf => hubN_step_inv hHs hHf hndtail.1 hp hf)
      _ stc st' hinitN hfold
    exact ⟨hfin.1, hfin.2.1, hfin.2.2.1, hndtail.2⟩
  · rw [heq]
    exact ⟨hstc.1, hstc.2.1, hstc.2.2.1, hndtail.2⟩

theorem process_hub_inv {ext : Externals} {hub_info : HubInfo} {sNames : List String}
    {fp : String × PStructure} {rem : List (String × PStructure)} {st st' : GenState}
    (hwf4 : ∀ e ∈ hub_info, (e.2.component_data.map Prod.fst).Nodup)
    (hP : CoreInv sNames st
       ∧ HubTxNames ((fp :: rem).map (fun q => moduleNameOfFile q.1)) st
       ∧ ((fp :: rem).map (fun q => moduleNameOfFile q.1)).Nodup
       ∧ (∀ q ∈ fp :: rem, moduleNameOfFile q.1 ∉ sNames))
    (h : process_hub ext hub_info fp.1 fp.2 st = Except.ok st') :
    CoreInv sNames st'
       ∧ HubTxNames (rem.map (fun q => moduleNameOfFile q.1)) st'
       ∧ (rem.map (fun q => moduleNameOfFile q.1)).Nodup
       ∧ (∀ q ∈ rem, moduleNameOfFile q.1 ∉ sNames) := by
  obtain ⟨hCI, hTN, hnd, hns⟩ := hP
  obtain ⟨hub, hub_meta, chainsMeta, radii, stMid, hmv, hhm, hcm, hfold, hst⟩ :=
    process_hub_ok h
  obtain ⟨⟨hFwd, hSO, hHO, hSK, hHK⟩, hsrc, hEF, hND⟩ := hCI
  have hndc := List.nodup_cons.mp (by rw [List.map_cons] at hnd; exact hnd)
  have hHs : moduleNameOfFile fp.1 ∉ sNames := hns fp (List.mem_cons_self _ _)
  have hHf : moduleNameOfFile fp.1 ∉ rem.map (fun q => moduleNameOfFile q.1) := hndc.1
  have hemp : ∀ c cmx, alookup (HubMeta.chains ⟨chainsMeta, some radii⟩) c = some cmx →
      cmx.c = [] ∧ cmx.n = [] := buildHubChainsMeta_maps hcm
  have hmemT : ∀ {j : ℕ} {t : Tx}, (allTx st).get? j = some t →
      t ∈ st.n_to_c_tx ∨ t ∈ st.hub_tx := by
    intro j t hj
    exact List.mem_append.mp (List.get?_mem hj)
  have hfrh : ∀ j t, (allTx st).get? j = some t →
      (t.source = TxSource.hubC → t.mod_a ≠ moduleNameOfFile fp.1)
      ∧ (t.source = TxSource.hubN → t.mod_b ≠ moduleNameOfFile fp.1) := by
    intro j t hj
    rcases hmemT hj with hm | hm
    · constructor
      · intro h1
        rw [hsrc t hm] at h1
        exact absurd h1 (fun hc => TxSource.noConfusion hc)
      · intro h1
        rw [hsrc t hm] at h1
        exact absurd h1 (fun hc => TxSource.noConfusion hc)
    · obtain ⟨hnp, hnn⟩ := hTN t hm
      constructor
      · intro h1 h2
        apply hnn
        rw [List.map_cons]
        have : hubSideName t = moduleNameOfFile fp.1 := by
          unfold hubSideName
          rw [if_pos h1]
          exact h2
        rw [this]
        exact List.mem_cons_self _ _
      · intro h1 h2
        apply hnn
        rw [List.map_cons]
        have : hubSideName t = moduleNameOfFile fp.1 := by
          unfold hubSideName
          rw [if_neg (by rw [h1]; exact fun hc => TxSource.noConfusion hc)]
          exact h2
        rw [this]
        exact List.mem_cons_self _ _
  have hpre : ∀ s : GenState,
      s = { st with modules_hubs := aset st.modules_hubs (moduleNameOfFile fp.1) ⟨chainsMeta, some radii⟩ } →
      CoreInv sNames s
      ∧ HubTxNames (rem.map (fun q => moduleNameOfFile q.1)) s
      ∧ HubTxChains (moduleNameOfFile fp.1) (hub_meta.component_data.map Prod.fst) s
      ∧ (hub_meta.component_data.map Prod.fst).Nodup := by
    intro s hs
    subst hs
    refine ⟨⟨?_, hsrc, hEF, hND⟩, ?_, ?_, ?_⟩
    · show MapsInv (allTx st) st.modules_singles _
      exact ⟨fwd_hoverwrite hFwd hfrh, hSO, hOrigins_aset_empty hHO hemp, hSK,
        hKeysND_aset_empty hHK hemp⟩
    · intro t hm
      obtain ⟨hnp, hnn⟩ := hTN t hm
      refine ⟨hnp, fun hmem => hnn ?_⟩
      rw [List.map_cons]
      exact List.mem_cons_of_mem _ hmem
    · intro t hm hname
      obtain ⟨hnp, hnn⟩ := hTN t hm
      exfalso
      apply hnn
      rw [List.map_cons, hname]
      exact List.mem_cons_self _ _
    · exact hwf4 _ (alookup_mem hhm)
  have hmid := foldExc_rem _ (fun crem s =>
      CoreInv sNames s
      ∧ HubTxNames (rem.map (fun q => moduleNameOfFile q.1)) s
      ∧ HubTxChains (moduleNameOfFile fp.1) (crem.map Prod.fst) s
      ∧ (crem.map Prod.fst).Nodup)
    (fun entry crem s s' hp hf => by exact process_hub_chain_inv hHs hHf hp hf)
    hub_meta.component_data _ stMid (hpre _ rfl) hfold
  subst hst
  exact ⟨hmid.1, hmid.2.1, hndc.2, fun q hq => hns q (List.mem_cons_of_mem _ hq)⟩

theorem sEntry_some_elim {ms : List (String × SingleMeta)} {n ch : String} {s : Bool}
    {key : String × String} {k : ℕ} (h : sEntry ms n ch s key = some k) :
    ∃ meta cm, alookup ms n = some meta ∧ alookup meta.chains ch = some cm
      ∧ alookup (if s then cm.c else cm.n) key = some k := by
  unfold sEntry at h
  cases hm : alookup ms n with
  | none =>
      rw [hm] at h
      simp at h
  | some meta =>
      rw [hm] at h
      simp only [Option.some_bind] at h
      cases hc : alookup meta.chains ch with
      | none =>
          rw [hc] at h
          simp at h
      | some cm =>
          rw [hc] at h
          simp only [Option.some_bind] at h
          exact ⟨meta, cm, rfl, hc, h⟩

theorem hEntry_some_elim {mh : List (String × HubMeta)} {n ch : String} {s : Bool}
    {key : String × String} {k : ℕ} (h : hEntry mh n ch s key = some k) :
    ∃ meta cm, alookup mh n = some meta ∧ alookup meta.chains ch = some cm
      ∧ alookup (if s then cm.c else cm.n) key = some k := by
  unfold hEntry at h
  cases hm : alookup mh n with
  | none =>
      rw [hm] at h
      simp at h
  | some meta =>
      rw [hm] at h
      simp only [Option.some_bind] at h
      cases hc : alookup meta.chains ch with
      | none =>
          rw [hc] at h
          simp at h
      | some cm =>
          rw [hc] at h
          simp only [Option.some_bind] at h
          exact ⟨meta, cm, rfl, hc, h⟩

theorem sCount_eq_one {ms : List (String × SingleMeta)} {n ch : String} {s : Bool}
    {key : String × String} {k : ℕ}
    (hE : sEntry ms n ch s key = some k) (hK : SKeysND ms)
    (huniq : ∀ meta cm, alookup ms n = some meta → alookup meta.chains ch = some cm →
      ∀ e ∈ (if s then cm.c else cm.n), e.2 = k → e.1 = key) :
    sCount ms n ch s k = 1 := by
  obtain ⟨meta, cm, hm, hc, hl⟩ := sEntry_some_elim hE
  have hnd := hK n meta hm ch cm hc
  have hu := huniq meta cm hm hc
  unfold sCount
  simp only [hm, hc]
  cases s with
  | true => exact nmapCountVal_eq_one hl hnd.1 hu
  | false => exact nmapCountVal_eq_one hl hnd.2 hu

theorem hCount_eq_one {mh : List (String × HubMeta)} {n ch : String} {s : Bool}
    {key : String × String} {k : ℕ}
    (hE : hEntry mh n ch s key = some k) (hK : HKeysND mh)
    (huniq : ∀ meta cm, alookup mh n = some meta → alookup meta.chains ch = some cm →
      ∀ e ∈ (if s then cm.c else cm.n), e.2 = k → e.1 = key) :
    hCount mh n ch s k = 1 := by
  obtain ⟨meta, cm, hm, hc, hl⟩ := hEntry_some_elim hE
  have hnd := hK n meta hm ch cm hc
  have hu := huniq meta cm hm hc
  unfold hCount
  simp only [hm, hc]
  cases s with
  | true => exact nmapCountVal_eq_one hl hnd.1 hu
  | false => exact nmapCountVal_eq_one hl hnd.2 hu

theorem edgeProp_of_maps {st : GenState} {k : ℕ} {tx : Tx}
    (hInv : MapsInv st.n_to_c_tx st.modules_singles st.modules_hubs)
    (hget : st.n_to_c_tx.get? k = some tx) : EdgeProp st tx k := by
  obtain ⟨hFwd, hSO, hHO, hSK, hHK⟩ := hInv
  obtain ⟨hA, hB⟩ := hFwd k tx hget
  have hCu : ∀ key, key = (tx.mod_b, tx.mod_b_chain) →
      ∀ meta cm, alookup st.modules_singles tx.mod_a = some meta →
        alookup meta.chains tx.mod_a_chain = some cm →
        ∀ e ∈ cm.c, e.2 = k → e.1 = key := by
    intro key hkeq meta cm hm hc e he hek
    obtain ⟨tx', hget', hkey⟩ := (hSO _ meta hm _ cm hc).1 e he
    rw [hek, hget] at hget'
    rw [hkey, ← Option.some.inj hget', hkeq]
  have hCuh : ∀ key, key = (tx.mod_b, tx.mod_b_chain) →
      ∀ meta cm, alookup st.modules_hubs tx.mod_a = some meta →
        alookup meta.chains tx.mod_a_chain = some cm →
        ∀ e ∈ cm.c, e.2 = k → e.1 = key := by
    intro key hkeq meta cm hm hc e he hek
    obtain ⟨tx', hget', hkey⟩ := (hHO _ meta hm _ cm hc).1 e he
    rw [hek, hget] at hget'
    rw [hkey, ← Option.some.inj hget', hkeq]
  have hNu : ∀ key, key = (tx.mod_a, tx.mod_a_chain) →
      ∀ meta cm, alookup st.modules_singles tx.mod_b = some meta →
        alookup meta.chains tx.mod_b_chain = some cm →
        ∀ e ∈ cm.n, e.2 = k → e.1 = key := by
    intro key hkeq meta cm hm hc e he hek
    obtain ⟨tx', hget', hkey⟩ := (hSO _ meta hm _ cm hc).2 e he
    rw [hek, hget] at hget'
    rw [hkey, ← Option.some.inj hget', hkeq]
  have hNuh : ∀ key, key = (tx.mod_a, tx.mod_a_chain) →
      ∀ meta cm, alookup st.modules_hubs tx.mod_b = some meta →
        alookup meta.chains tx.mod_b_chain = some cm →
        ∀ e ∈ cm.n, e.2 = k → e.1 = key := by
    intro key hkeq meta cm hm hc e he hek
    obtain ⟨tx', hget', hkey⟩ := (hHO _ meta hm _ cm hc).2 e he
    rw [hek, hget] at hget'
    rw [hkey, ← Option.some.inj hget', hkeq]
  unfold EdgeProp
  cases hs : tx.source with
  | pair =>
      rw [hs] at hA hB
      rw [if_neg (fun hc => TxSource.noConfusion hc)] at hA hB
      refine ⟨hA, ?_, hB, ?_⟩
      · exact sCount_eq_one hA hSK (fun meta cm hm hc => hCu _ rfl meta cm hm hc)
      · exact sCount_eq_one hB hSK (fun meta cm hm hc => hNu _ rfl meta cm hm hc)
  | hubC =>
      rw [hs] at hA hB
      rw [if_pos rfl] at hA
      rw [if_neg (fun hc => TxSource.noConfusion hc)] at hB
      refine ⟨hA, ?_, hB, ?_⟩
      · exact hCount_eq_one hA hHK (fun meta cm hm hc => hCuh _ rfl meta cm hm hc)
      · exact sCount_eq_one hB hSK (fun meta cm hm hc => hNu _ rfl meta cm hm hc)
  | hubN =>
      rw [hs] at hA hB
      rw [if_neg (fun hc => TxSource.noConfusion hc)] at hA
      rw [if_pos rfl] at hB
      refine ⟨hA, ?_, hB, ?_⟩
      · exact sCount_eq_one hA hSK (fun meta cm hm hc => hCu _ rfl meta cm hm hc)
      · exact hCount_eq_one hB hHK (fun meta cm hm hc => hNuh _ rfl meta cm hm hc)

/-- C2: in every completed well-formed run, each recorded edge's id is
stored under the partner's key in exactly one `c`-side entry of its A
endpoint's neighbor map and exactly one `n`-side entry of its B
endpoint's neighbor map — the standalone maps for a pair edge, and for a
connector edge the hub map on the hub side and the standalone map on the
partner side — so both endpoints reference the same id. -/
theorem edge_ids_in_both_endpoint_maps {ext : Externals} {hub_info : HubInfo}
    {sf df hf : List (String × PStructure)} {st' : GenState}
    (hWF : WFInputs hub_info sf df hf)
    (hok : dbgen_run ext hub_info sf df hf = Except.ok st') :
    ∀ k tx, st'.n_to_c_tx.get? k = some tx → EdgeProp st' tx k := by
  obtain ⟨hnd_d, hnd_h, hdisj, hwf4, hwf5⟩ := hWF
  obtain ⟨st1, st2, st3, h1, h2, h3, hfin⟩ := dbgen_run_ok_inv hok
  obtain ⟨hN1, hH1, hMH1, hSE1, hPd1⟩ := phase1_post h1
  have hnd_d2 : (df.map DblMapFn).Nodup := hnd_d
  obtain ⟨hCI2, hH2, hMH2, hPd2⟩ := phase2_post hN1 hH1 hMH1 hSE1 hPd1 hnd_d2 h2
  have hTN2 : HubTxNames (hf.map (fun q => moduleNameOfFile q.1)) st2 := by
    intro t ht
    rw [hH2] at ht
    exact absurd ht (List.not_mem_nil t)
  have hns : ∀ q ∈ hf, moduleNameOfFile q.1 ∉ sf.map (fun fp => moduleNameOfFile fp.1) := by
    intro q hq
    exact hdisj _ (List.mem_map_of_mem _ hq)
  have hCI3 := (foldExc_rem _ (fun rem st =>
      CoreInv (sf.map (fun fp => moduleNameOfFile fp.1)) st
      ∧ HubTxNames (rem.map (fun q => moduleNameOfFile q.1)) st
      ∧ (rem.map (fun q => moduleNameOfFile q.1)).Nodup
      ∧ (∀ q ∈ rem, moduleNameOfFile q.1 ∉ sf.map (fun fp => moduleNameOfFile fp.1)))
    (fun fp rem s s2 hp hf2 => by exact process_hub_inv hwf4 hp hf2)
    hf st2 st3 ⟨hCI2, hTN2, hnd_h, hns⟩ h3).1
  subst hfin
  intro k tx hget
  exact edgeProp_of_maps hCI3.1 hget

theorem edge_ids_in_both_endpoint_maps_witness :
    EdgeProp wFinal wTx0 0 ∧ EdgeProp wFinal wTx1 1 :=
  ⟨edge_ids_in_both_endpoint_maps (by with_unfolding_all decide)
      (by with_unfolding_all rfl :
        dbgen_run wExt wHubInfo wSingleFiles wDoubleFiles wHubFiles = Except.ok wFinal)
      0 wTx0 (by with_unfolding_all rfl),
    edge_ids_in_both_endpoint_maps (by with_unfolding_all decide)
      (by with_unfolding_all rfl :
        dbgen_run wExt wHubInfo wSingleFiles wDoubleFiles wHubFiles = Except.ok wFinal)
      1 wTx1 (by with_unfolding_all rfl)⟩
